import Mathlib

/-!
# SHV file journal

A shallow embedding of the journal engine of libshv
(`libshvcore/src/utils/shvfilejournal.cpp`): the filename calendar, the append
path, journal rotation, the `getLog` query, the size-limit parser and the
fallback journal directory, and of the log header codec
(`libshvcore/src/utils/shvlogheader.cpp`), together with the properties of
the specification that are settled against them.

Conventions of the embedding
* `std::string` is `String`; its characters stand for the bytes of the C++ string.
* `int64_t` and `int` are `Int`; the products of `str_to_size` are reduced to the
  64-bit range by `wrap64`, and no other property depends on wrap-around.
* A thrown `shv::core::Exception` is the `error` case of `Except String`, or the
  `error` component of an `Outcome` where the state that the throwing call leaves behind
  matters.
* The journal directory is a list of files; a file is identified with the
  start timestamp that its name decodes to and holds the decoded entries.
-/

namespace shv

/-! ## Chainpack values -/

/-- Modelled from the spec: the chainpack value `RpcValue` (its sources are not part
of the journal sources): null, bool, int, string, list, map, int-keyed map and
date-time with millisecond resolution and UTC offset; `invalid` is the value of a
default-constructed `RpcValue`. -/
inductive RpcValue where
  | invalid
  | null
  | bool (b : Bool)
  | int (n : Int)
  | string (s : String)
  | dateTime (msecsSinceEpoch : Int) (minutesFromUtc : Int)
  | list (l : List RpcValue)
  | map (m : List (String × RpcValue))
  | imap (m : List (Int × RpcValue))

/-- Modelled from the spec: `RpcValue::isValid`, false only for the default-constructed value. -/
def RpcValue.isValid : RpcValue → Bool
  | .invalid => false
  | _ => true

/-- Modelled from the spec: `RpcValue::toInt`, the integer held by the value and zero for
every other variant. -/
def RpcValue.toInt : RpcValue → Int
  | .int n => n
  | _ => 0

/-! ## Date-time -/

/-- Modelled from the spec: `RpcValue::DateTime`, an instant with millisecond resolution
and a UTC offset in minutes. -/
structure DateTime where
  msec : Int
  minutesFromUtc : Int := 0
  deriving DecidableEq, Repr

/-- Modelled from the spec: `DateTime::fromMSecsSinceEpoch`. -/
def DateTime.fromMSecsSinceEpoch (msec : Int) : DateTime := { msec := msec }

/-- Modelled from the spec: `DateTime::msecsSinceEpoch`. -/
def DateTime.msecsSinceEpoch (dt : DateTime) : Int := dt.msec

/-- Modelled from the spec: the civil date (year, month, day) of a day number counted from
1970-01-01 in the proleptic Gregorian calendar, as ISO-8601 prescribes. The year is
counted from 1 March of year 0 in eras of 400 years, centuries, four-year groups and
years. -/
def civilFromDays (z : Int) : Int × Int × Int :=
  let s := z + 719468
  let era := s / 146097
  let doe := s % 146097
  let cent := if doe / 36524 < 4 then doe / 36524 else 3
  let doc := doe - cent * 36524
  let quad := doc / 1461
  let doq := doc % 1461
  let yoq := if doq / 365 < 4 then doq / 365 else 3
  let doy := doq - yoq * 365
  let y := era * 400 + cent * 100 + quad * 4 + yoq
  let mp := (5 * doy + 2) / 153
  let d := doy - (153 * mp + 2) / 5 + 1
  let m := if mp < 10 then mp + 3 else mp - 9
  (if m ≤ 2 then y + 1 else y, m, d)

/-- Modelled from the spec: the day number counted from 1970-01-01 of a civil date in the
proleptic Gregorian calendar. -/
def daysFromCivil (y0 m d : Int) : Int :=
  let y := if m ≤ 2 then y0 - 1 else y0
  let era := y / 400
  let yoe := y % 400
  let mp := if m > 2 then m - 3 else m + 9
  let doy := (153 * mp + 2) / 5 + d - 1
  let doe := yoe * 365 + yoe / 4 - yoe / 100 + doy
  era * 146097 + doe - 719468

/-- The decimal digit character of `n % 10`. -/
def digitChar (n : Nat) : Char :=
  match n % 10 with
  | 0 => '0' | 1 => '1' | 2 => '2' | 3 => '3' | 4 => '4'
  | 5 => '5' | 6 => '6' | 7 => '7' | 8 => '8' | _ => '9'

/-- The value of a decimal digit character. -/
def digitVal (c : Char) : Option Nat :=
  if c = '0' then some 0 else if c = '1' then some 1 else if c = '2' then some 2
  else if c = '3' then some 3 else if c = '4' then some 4 else if c = '5' then some 5
  else if c = '6' then some 6 else if c = '7' then some 7 else if c = '8' then some 8
  else if c = '9' then some 9 else none

/-- The last `w` decimal digits of `n`, most significant first (zero padded). -/
def natToDigits : Nat → Nat → List Char
  | 0, _ => []
  | w + 1, n => natToDigits w (n / 10) ++ [digitChar n]

/-- Reads exactly `w` decimal digits, continuing the number `acc`. -/
def parseDigits : Nat → Nat → List Char → Option (Nat × List Char)
  | 0, acc, s => some (acc, s)
  | _ + 1, _, [] => none
  | w + 1, acc, c :: s =>
    match digitVal c with
    | some d => parseDigits w (10 * acc + d) s
    | none => none

/-- The year field of an ISO-8601 date: four digits, more when the year needs them, and a
sign for years before year 0. -/
def yearDigits (y : Int) : List Char :=
  if y < 0 then '-' :: (if y.natAbs < 10000 then natToDigits 4 y.natAbs else Nat.toDigits 10 y.natAbs)
  else if y.toNat < 10000 then natToDigits 4 y.toNat else Nat.toDigits 10 y.toNat

/-- Modelled from the spec: `DateTime::toIsoString(MsecPolicy::Always, false)`, the ISO-8601
UTC rendering `YYYY-MM-DDThh:mm:ss.zzz` of the instant, always with milliseconds and
without a UTC offset suffix. -/
def DateTime.toIsoString (dt : DateTime) : String :=
  let msec := dt.msecsSinceEpoch
  let ms := msec % 1000
  let secs := msec / 1000
  let sod := secs % 86400
  let ymd := civilFromDays (secs / 86400)
  ⟨yearDigits ymd.1 ++ '-' :: natToDigits 2 ymd.2.1.toNat ++ '-' :: natToDigits 2 ymd.2.2.toNat
    ++ 'T' :: natToDigits 2 (sod / 3600).toNat ++ ':' :: natToDigits 2 (sod % 3600 / 60).toNat
    ++ ':' :: natToDigits 2 (sod % 60).toNat ++ '.' :: natToDigits 3 ms.toNat⟩

/-- The optional fraction of a second: a dot and three digits. -/
def parseMsecPart (s : List Char) : Nat × List Char :=
  match s with
  | '.' :: r =>
    match parseDigits 3 0 r with
    | some (ms, r2) => (ms, r2)
    | none => (0, s)
  | _ => (0, s)

/-- The optional UTC offset: `Z`, or a sign with two digits of hours and optionally two
digits of minutes. The result is the offset in minutes and the rest of the input. -/
def parseUtcOffset (s : List Char) : Int × List Char :=
  match s with
  | 'Z' :: r => (0, r)
  | c :: r =>
    if c = '+' ∨ c = '-' then
      match parseDigits 2 0 r with
      | some (hh, r2) =>
        let sgn : Int := if c = '-' then -1 else 1
        match parseDigits 2 0 r2 with
        | some (mm, r3) => (sgn * (60 * hh + mm), r3)
        | none => (sgn * (60 * hh), r2)
      | none => (0, s)
    else (0, s)
  | [] => (0, s)

/-- The date and time of day `YYYY-MM-DDThh:mm:ss` as seconds since the epoch. -/
def parseDateTimeSecs (s : List Char) : Option (Int × List Char) :=
  match parseDigits 4 0 s with
  | some (y, '-' :: r1) =>
    match parseDigits 2 0 r1 with
    | some (mo, '-' :: r2) =>
      match parseDigits 2 0 r2 with
      | some (d, c :: r3) =>
        if c = 'T' ∨ c = ' ' then
          match parseDigits 2 0 r3 with
          | some (hh, ':' :: r4) =>
            match parseDigits 2 0 r4 with
            | some (mi, ':' :: r5) =>
              match parseDigits 2 0 r5 with
              | some (ss, r6) =>
                some (((daysFromCivil y mo d * 24 + hh) * 60 + mi) * 60 + ss, r6)
              | none => none
            | _ => none
          | _ => none
        else none
      | _ => none
    | _ => none
  | _ => none

/-- Modelled from the spec: `DateTime::fromUtcString(str, &len)`, the parse of a leading
ISO-8601 date-time `YYYY-MM-DDThh:mm:ss[.zzz][Z|±hh[mm]]`; what follows it is left
alone. The second component is `len`, the number of characters read; a string that does
not start with a date-time gives the zero instant and `len = 0`. -/
def DateTime.fromUtcStringLen (utc_date_time_str : String) : DateTime × Nat :=
  match parseDateTimeSecs utc_date_time_str.data with
  | some (secs, r) =>
    let mp := parseMsecPart r
    let off := parseUtcOffset mp.2
    ({ msec := secs * 1000 + mp.1 - off.1 * 60000, minutesFromUtc := off.1 },
      utc_date_time_str.data.length - off.2.length)
  | none => ({ msec := 0 }, 0)

/-- Modelled from the spec: `DateTime::fromUtcString(str)`. -/
def DateTime.fromUtcString (utc_date_time_str : String) : DateTime :=
  (DateTime.fromUtcStringLen utc_date_time_str).1

/-! ## Filename calendar -/

/-- Position of the separator in front of the minutes. -/
def MIN_SEP_POS : Nat := 13
/-- Position of the separator in front of the seconds. -/
def SEC_SEP_POS : Nat := MIN_SEP_POS + 3
/-- Position of the separator in front of the milliseconds. -/
def MSEC_SEP_POS : Nat := SEC_SEP_POS + 3

/-- Extension of the journal files. -/
def FILE_EXT : String := ".log2"

/-- The assignment `s[i] = c` of `std::string`. -/
def setChar (s : String) (i : Nat) (c : Char) : String := ⟨s.data.set i c⟩

/-- Source function `ShvFileJournal::JournalContext::fileNameToFileMsec`. -/
def fileNameToFileMsec (fn : String) : Except String Int :=
  let utc_str := fn
  if MSEC_SEP_POS ≥ utc_str.data.length then
    .error ("fileNameToFileMsec(): File name: \x27" ++ fn ++ "\x27 too short.")
  else
    let utc_str := setChar utc_str MIN_SEP_POS ':'
    let utc_str := setChar utc_str SEC_SEP_POS ':'
    let utc_str := setChar utc_str MSEC_SEP_POS '.'
    let msec := (DateTime.fromUtcString utc_str).msecsSinceEpoch
    if msec = 0 then
      .error ("fileNameToFileMsec(): Invalid file name: \x27" ++ fn
        ++ "\x27 cannot be converted to date time")
    else .ok msec

/-- Source function `ShvFileJournal::JournalContext::fileMsecToFileName`. -/
def fileMsecToFileName (msec : Int) : String :=
  let fn := (DateTime.fromMSecsSinceEpoch msec).toIsoString
  let fn := setChar fn MIN_SEP_POS '-'
  let fn := setChar fn SEC_SEP_POS '-'
  let fn := setChar fn MSEC_SEP_POS '-'
  fn ++ FILE_EXT

/-! ## Ordered maps -/

/-- The container `std::map<K, V>`: the bindings in ascending key order. `RpcValue::Map` is the map
from `std::string` and `RpcValue::IMap` the map from `int`. -/
abbrev StdMap (K V : Type) := List (K × V)

/-- The comparison `std::less<K>` of the keys of a `std::map`, as a test that can be
evaluated. -/
class StdLess (K : Type) [LT K] where
  less : K → K → Bool
  less_iff : ∀ a b : K, less a b = true ↔ a < b

/-- The comparison of `std::string`: lexicographic on the characters. -/
instance : StdLess String where
  less a b := decide (a.data < b.data)
  less_iff := fun _ _ => by rw [decide_eq_true_iff, String.lt_iff_toList_lt]; rfl

/-- The comparison of `int`. -/
instance : StdLess Int where
  less a b := decide (a < b)
  less_iff := fun _ _ => decide_eq_true_iff

/-- The assignment `m[k] = v` of `std::map`: the binding of `k` is replaced, or a new
binding is put at the place that keeps the keys ascending. -/
def StdMap.insert {K V : Type} [LT K] [StdLess K] : StdMap K V → K → V → StdMap K V
  | [], k, v => [(k, v)]
  | (k1, v1) :: r, k, v =>
    if StdLess.less k k1 then (k, v) :: (k1, v1) :: r
    else if StdLess.less k1 k then (k1, v1) :: StdMap.insert r k v
    else (k, v) :: r

/-- The lookup `m.find(k)` of `std::map`. -/
def StdMap.find {K V : Type} [DecidableEq K] : StdMap K V → K → Option V
  | [], _ => none
  | (k1, v1) :: r, k => if k1 = k then some v1 else StdMap.find r k

/-- Modelled from the spec: `RpcValue::Map::value(key)`, the value bound to the key and the
invalid (default-constructed) value when the key is absent. -/
def RpcValueMap_value (m : StdMap String RpcValue) (key : String) : RpcValue :=
  match StdMap.find m key with
  | some v => v
  | none => RpcValue.invalid

/-! ## Journal entries and files -/

/-- The sample type of an entry; it decides whether the entry takes part in snapshots. -/
inductive SampleType where
  | Continuous
  | Discrete
  deriving DecidableEq, Repr

/-- Modelled from the spec: `ShvJournalEntry::NO_SHORT_TIME`, the sentinel of an entry
without short-time, distinct from every 16-bit counter value. -/
def NO_SHORT_TIME : Int := -1

/-- Modelled from the spec: `ShvJournalEntry`, the atomic record of the journal. -/
structure ShvJournalEntry where
  epochMsec : Int := 0
  path : String
  value : RpcValue
  shortTime : Int := NO_SHORT_TIME
  domain : String := ""
  sampleType : SampleType := SampleType.Continuous

/-- Modelled from the spec: `ShvJournalEntry::dateTime`, the entry timestamp as a chainpack
date-time value. -/
def ShvJournalEntry.dateTime (e : ShvJournalEntry) : RpcValue :=
  RpcValue.dateTime (DateTime.fromMSecsSinceEpoch e.epochMsec).msecsSinceEpoch 0

/-- A file of the journal directory: the start timestamp its name decodes to and the
entries the record codec reads from it, in file order. -/
structure JournalFile where
  fileMsec : Int
  entries : List ShvJournalEntry

/-- The journal directory: its `*.log2` files with a valid name, in the order in which
`readdir` lists them. -/
abbrev JournalDir := List JournalFile

/-- The parts of the environment that the journal sources leave to the record codec. -/
structure JournalEnv where
  /-- Number of bytes the record codec writes for an entry. -/
  recordSize : ShvJournalEntry → Nat
  /-- The reverse scan `findLastEntryDateTime` over the bytes of a file, as a function of
  the records of the file; negative when the file holds no valid date-time. -/
  findLastEntryDateTime : List ShvJournalEntry → Int

/-- The file of the directory with the given start timestamp. -/
def JournalDir.file (dir : JournalDir) (file_msec : Int) : Option JournalFile :=
  dir.find? (fun f => decide (f.fileMsec = file_msec))

/-- Modelled from the spec: `ShvJournalFileReader`, the entries of a file in file order;
a file that cannot be opened reads as the end of file. -/
def readFile (dir : JournalDir) (file_msec : Int) : List ShvJournalEntry :=
  match dir.file file_msec with
  | some f => f.entries
  | none => []

/-- The byte size of a list of encoded records. -/
def entriesSize (env : JournalEnv) (es : List ShvJournalEntry) : Int :=
  ((es.map env.recordSize).sum : Nat)

/-- Source function `file_size`: the byte size of the file, `-1` when it cannot be examined. -/
def file_size (env : JournalEnv) (dir : JournalDir) (file_msec : Int) : Int :=
  match dir.file file_msec with
  | some f => entriesSize env f.entries
  | none => -1

/-- Source function `rm_file`: removes the file and returns its former size, zero when it cannot be
removed. -/
def rm_file (env : JournalEnv) (dir : JournalDir) (file_msec : Int) : Int × JournalDir :=
  let sz := file_size env dir file_msec
  match dir.file file_msec with
  | some _ => (sz, dir.filter (fun f => decide (f.fileMsec ≠ file_msec)))
  | none => (0, dir)

/-! ## Journal context -/

/-- The structure `ShvFileJournal::JournalContext`. -/
structure JournalContext where
  journalDirExists : Bool := false
  files : List Int := []
  journalSize : Int := -1
  lastFileSize : Int := -1
  recentTimeStamp : Int := 0
  journalDir : String := ""
  deviceId : String := ""
  deviceType : String := ""
  typeInfo : RpcValue := RpcValue.invalid

/-- Modelled from the spec: `JournalContext::isConsistent`, true after a successful scan
of an existing journal directory. -/
def JournalContext.isConsistent (ctx : JournalContext) : Bool :=
  ctx.journalDirExists && decide (0 ≤ ctx.journalSize)

/-- The journal object: its context, limits and snapshot callback. The callback is
represented by the snapshot it produces. -/
structure ShvFileJournal where
  m_journalContext : JournalContext
  m_fileSizeLimit : Int
  m_journalSizeLimit : Int
  m_snapShotFn : Option (List ShvJournalEntry)

/-- Outcome of an operation that may throw: the exception, if one was thrown, and the
state in which the operation leaves the journal object and the directory. -/
structure Outcome where
  error : Option String
  journal : ShvFileJournal
  dir : JournalDir

/-! ## Directory scan -/

/-- The running values of the scan loop of `updateJournalFiles`. -/
structure ScanState where
  files : List Int := []
  journalSize : Int := 0
  lastFileSize : Int := 0
  max_file_msec : Int := -1

/-- One round of the `readdir` loop of `updateJournalFiles`. -/
def scanFile (env : JournalEnv) (st : ScanState) (f : JournalFile) : ScanState :=
  let msec := f.fileMsec
  let sz := entriesSize env f.entries
  { files := st.files ++ [msec]
    journalSize := st.journalSize + sz
    lastFileSize := if msec > st.max_file_msec then sz else st.lastFileSize
    max_file_msec := if msec > st.max_file_msec then msec else st.max_file_msec }

/-- Source function `ShvFileJournal::updateJournalFiles` on a readable directory. -/
def updateJournalFiles (env : JournalEnv) (dir : JournalDir) (ctx : JournalContext) :
    JournalContext :=
  let st := dir.foldl (scanFile env) {}
  { ctx with
    journalSize := st.journalSize
    lastFileSize := st.lastFileSize
    files := st.files.insertionSort (fun a b => a ≤ b) }

/-- Source function `ShvFileJournal::updateRecentTimeStamp`; `now` is the wall clock. -/
def updateRecentTimeStamp (env : JournalEnv) (dir : JournalDir) (now : Int)
    (ctx : JournalContext) : JournalContext :=
  match ctx.files.getLast? with
  | none => { ctx with recentTimeStamp := now }
  | some last =>
    let ts := env.findLastEntryDateTime (readFile dir last)
    { ctx with recentTimeStamp := if ts < 0 then now else ts }

/-- Source function `ShvFileJournal::updateJournalStatus`. -/
def updateJournalStatus (env : JournalEnv) (dir : JournalDir) (now : Int)
    (ctx : JournalContext) : JournalContext :=
  updateRecentTimeStamp env dir now (updateJournalFiles env dir ctx)

/-- Source function `ShvFileJournal::checkJournalContext_helper` on an existing journal directory. -/
def checkJournalContext_helper (env : JournalEnv) (dir : JournalDir) (now : Int)
    (j : ShvFileJournal) (force : Bool) : Except String ShvFileJournal :=
  let j1 : ShvFileJournal :=
    if !j.m_journalContext.isConsistent || force then
      { j with m_journalContext :=
          updateJournalStatus env dir now { j.m_journalContext with journalDirExists := true } }
    else j
  if !j1.m_journalContext.isConsistent then
    .error "Journal cannot be brought to consistent state."
  else .ok j1

/-! ## Rotation -/

/-- The deletion loop of `rotateJournal` over the files still to visit: the count of
files left, the running journal size and the directory. -/
def rotateLoop (env : JournalEnv) (m_journalSizeLimit : Int) :
    List Int → Nat → Int → JournalDir → Int × JournalDir
  | [], _, journalSize, dir => (journalSize, dir)
  | file_msec :: rest, file_cnt, journalSize, dir =>
    if file_cnt = 1 then (journalSize, dir)
    else if journalSize < m_journalSizeLimit then (journalSize, dir)
    else
      let r := rm_file env dir file_msec
      rotateLoop env m_journalSizeLimit rest (file_cnt - 1) (journalSize - r.1) r.2

/-- Source function `ShvFileJournal::rotateJournal`. -/
def rotateJournal (env : JournalEnv) (dir : JournalDir) (now : Int) (j : ShvFileJournal) :
    ShvFileJournal × JournalDir :=
  let ctx := updateJournalFiles env dir j.m_journalContext
  let file_cnt := ctx.files.length
  let r := rotateLoop env j.m_journalSizeLimit ctx.files file_cnt ctx.journalSize dir
  let ctx := { ctx with journalSize := r.1 }
  ({ j with m_journalContext := updateJournalStatus env r.2 now ctx }, r.2)

/-! ## Append -/

/-- Modelled from the spec: `ShvJournalFileWriter`, the monotonic-clamp writer of one file.
It remembers the timestamp of the preceding record. -/
structure ShvJournalFileWriter where
  fileMsec : Int
  recentTimeStamp : Int

/-- Modelled from the spec: opening the writer `ShvJournalFileWriter(fn, start_msec)`. The
file is created empty when it does not exist; the preceding record is the last record of
the file, and no record is below the start timestamp of the file. -/
def ShvJournalFileWriter.open (dir : JournalDir) (file_msec start_msec : Int) :
    ShvJournalFileWriter × JournalDir :=
  match dir.file file_msec with
  | some f =>
    match f.entries.getLast? with
    | some e => ({ fileMsec := file_msec, recentTimeStamp := max start_msec e.epochMsec }, dir)
    | none => ({ fileMsec := file_msec, recentTimeStamp := start_msec }, dir)
  | none =>
    ({ fileMsec := file_msec, recentTimeStamp := start_msec },
      dir ++ [{ fileMsec := file_msec, entries := [] }])

/-- Modelled from the spec: `ShvJournalFileWriter::fileSize`. -/
def ShvJournalFileWriter.fileSize (env : JournalEnv) (dir : JournalDir)
    (wr : ShvJournalFileWriter) : Int :=
  entriesSize env (readFile dir wr.fileMsec)

/-- Modelled from the spec: `ShvJournalFileWriter::appendMonotonic`, the record is written
with its `epoch_msec` raised to that of the preceding record if lower. -/
def ShvJournalFileWriter.appendMonotonic (wr : ShvJournalFileWriter) (dir : JournalDir)
    (entry : ShvJournalEntry) : ShvJournalFileWriter × JournalDir :=
  let msec := if entry.epochMsec < wr.recentTimeStamp then wr.recentTimeStamp else entry.epochMsec
  ({ wr with recentTimeStamp := msec },
    dir.map (fun f =>
      if f.fileMsec = wr.fileMsec then
        { f with entries := f.entries ++ [{ entry with epochMsec := msec }] }
      else f))

/-- The loop `for(ShvJournalEntry &e : snapshot) wr.appendMonotonic(e)`. -/
def appendSnapshot (wr : ShvJournalFileWriter) (dir : JournalDir) :
    List ShvJournalEntry → ShvJournalFileWriter × JournalDir
  | [] => (wr, dir)
  | e :: r =>
    let w := wr.appendMonotonic dir e
    appendSnapshot w.1 w.2 r

/-- Source function `ShvFileJournal::appendThrow`; `now` is the wall clock. The journal
directory exists, so that `ensureJournalDir` succeeds. -/
def appendThrow (env : JournalEnv) (dir : JournalDir) (now : Int) (j : ShvFileJournal)
    (entry : ShvJournalEntry) : Outcome :=
  let j := { j with m_journalContext := { j.m_journalContext with journalDirExists := true } }
  match checkJournalContext_helper env dir now j false with
  | .error err => { error := some err, journal := j, dir := dir }
  | .ok j =>
    let ctx := j.m_journalContext
    let msec := entry.epochMsec
    let msec := if msec = 0 then now else msec
    let msec := if msec < ctx.recentTimeStamp then ctx.recentTimeStamp else msec
    let last_file_msec :=
      match ctx.files.getLast? with
      | none => msec
      | some last => if ctx.lastFileSize > j.m_fileSizeLimit then msec else last
    if (match ctx.files.getLast? with
        | none => false
        | some last => decide (last_file_msec < last)) then
      { error := some "Journal context corrupted!", journal := j, dir := dir }
    else
      let w := ShvJournalFileWriter.open dir last_file_msec last_file_msec
      let orig_fsz := w.1.fileSize env w.2
      let step : Option ((ShvJournalFileWriter × JournalDir) × JournalContext) :=
        if orig_fsz = 0 then
          match j.m_snapShotFn with
          | none => none
          | some snapshot =>
            some (appendSnapshot w.1 w.2 snapshot,
              { ctx with files := ctx.files ++ [last_file_msec] })
        else some (w, ctx)
      match step with
      | none => { error := some "SnapShot function not defined", journal := j, dir := w.2 }
      | some (w, ctx) =>
        let w := w.1.appendMonotonic w.2 entry
        let new_fsz := w.1.fileSize env w.2
        let ctx := { ctx with lastFileSize := new_fsz
                              journalSize := ctx.journalSize + (new_fsz - orig_fsz) }
        let j := { j with m_journalContext := ctx }
        if ctx.journalSize > j.m_journalSizeLimit then
          let r := rotateJournal env w.2 now j
          { error := none, journal := r.1, dir := r.2 }
        else { error := none, journal := j, dir := w.2 }

/-- Source function `ShvFileJournal::append`: a failed append is tried once more after a
forced check of the journal context; a second failure is only logged. -/
def append (env : JournalEnv) (dir : JournalDir) (now : Int) (j : ShvFileJournal)
    (entry : ShvJournalEntry) : ShvFileJournal × JournalDir :=
  let r := appendThrow env dir now j entry
  match r.error with
  | none => (r.journal, r.dir)
  | some _ =>
    match checkJournalContext_helper env r.dir now r.journal true with
    | .error _ => (r.journal, r.dir)
    | .ok j1 =>
      let r2 := appendThrow env r.dir now j1 entry
      (r2.journal, r2.dir)

/-- A sequence of `append` calls, each with its wall-clock reading. -/
def appendAll (env : JournalEnv) :
    ShvFileJournal × JournalDir → List (Int × ShvJournalEntry) → ShvFileJournal × JournalDir
  | s, [] => s
  | s, (now, entry) :: r => appendAll env (append env s.2 now s.1 entry) r

/-- The entries of the whole directory, read file by file in ascending order of the
start timestamps. -/
def readJournal (dir : JournalDir) : List ShvJournalEntry :=
  (((dir.map (fun f => f.fileMsec)).insertionSort (fun a b => a ≤ b)).map (readFile dir)).flatten

/-! ## Query -/

/-- Modelled from the spec: `RpcValue::isDateTime`. -/
def RpcValue.isDateTime : RpcValue → Bool
  | .dateTime _ _ => true
  | _ => false

/-- Modelled from the spec: `RpcValue::toDateTime`, the zero instant for a value that is
not a date-time. -/
def RpcValue.toDateTime : RpcValue → DateTime
  | .dateTime msec off => { msec := msec, minutesFromUtc := off }
  | _ => { msec := 0 }

/-- Modelled from the spec: `ShvGetLogParams`, the options of a `getLog` query. -/
structure ShvGetLogParams where
  since : RpcValue := RpcValue.invalid
  until_ : RpcValue := RpcValue.invalid
  pathPattern : String := ""
  domainPattern : String := ""
  maxRecordCount : Int
  withSnapshot : Bool := false
  withPathsDict : Bool := true
  isRegex : Bool := false

/-- The members of `ShvLogHeader` that `shvlogheader.cpp` reads and writes. -/
structure ShvLogHeader where
  deviceId : String := ""
  deviceType : String := ""
  logVersion : Int := 0
  logParams : Option ShvGetLogParams := none
  recordCount : Int := 0
  recordCountLimit : Int := 0
  withUptime : Bool := false
  withSnapShot : Bool := false
  fields : List RpcValue := []
  pathDict : StdMap Int RpcValue := []
  m_typeInfos : StdMap String RpcValue := []
  dateTime : RpcValue := RpcValue.invalid
  since : RpcValue := RpcValue.invalid
  until_ : RpcValue := RpcValue.invalid

/-- Source function `ShvLogHeader::setTypeInfo`. -/
def ShvLogHeader.setTypeInfo (h : ShvLogHeader) (path_pfx : String) (i : RpcValue) :
    ShvLogHeader :=
  if path_pfx.isEmpty then { h with m_typeInfos := StdMap.insert h.m_typeInfos "." i }
  else { h with m_typeInfos := StdMap.insert h.m_typeInfos path_pfx i }

/-- The collaborators of `getLog` that are declared outside the journal sources. -/
structure GetLogEnv where
  /-- The constant `DEFAULT_GET_LOG_RECORD_COUNT_LIMIT`. -/
  DEFAULT_GET_LOG_RECORD_COUNT_LIMIT : Int
  /-- The test `PatternMatcher(params).match(path, domain)`. -/
  pattern_matcher : ShvGetLogParams → String → String → Bool
  /-- The wall clock `DateTime::now()` in milliseconds. -/
  now : Int

/-- The algorithm `std::lower_bound` on an ascending list: the position of the first element that is
not less than the value. -/
def lower_bound (files : List Int) (value : Int) : Nat :=
  (files.takeWhile (fun f => decide (f < value))).length

/-- The position of the file at which `getLog` starts to read; the list of files is not
empty. -/
def startFileIndex (files : List Int) (since_msec : Int) : Nat :=
  if since_msec > 0 then
    let file_it := lower_bound files since_msec
    if file_it = files.length then file_it - 1
    else if files.getD file_it 0 = since_msec then file_it
    else if file_it = 0 then file_it
    else file_it - 1
  else 0

/-- The local variables of `getLog` that change in the loop over the entries. -/
structure GetLogState where
  log : List RpcValue := []
  path_cache : StdMap String RpcValue := []
  max_path_id : Int := 0
  rec_cnt : Int := 0
  first_record_msec : Int := 0
  last_record_msec : Int := 0
  snapshot : StdMap String ShvJournalEntry := []

/-- The lambda `make_path_shared` of `getLog`: the token of the path and the state with
the path cache updated. -/
def make_path_shared (params : ShvGetLogParams) (st : GetLogState) (path : String) :
    RpcValue × GetLogState :=
  let ret := RpcValueMap_value st.path_cache path
  if ret.isValid then (ret, st)
  else
    let max_path_id := if params.withPathsDict then st.max_path_id + 1 else st.max_path_id
    let ret := if params.withPathsDict then RpcValue.int max_path_id else RpcValue.string path
    (ret, { st with max_path_id := max_path_id
                    path_cache := StdMap.insert st.path_cache path ret })

/-- The record `rec` that `getLog` builds for an entry: date-time, path token, value,
short-time or null, domain or null. -/
def recordOf (token : RpcValue) (e : ShvJournalEntry) : RpcValue :=
  RpcValue.list
    [ e.dateTime, token, e.value,
      if e.shortTime = NO_SHORT_TIME then RpcValue.null else RpcValue.int e.shortTime,
      if e.domain.isEmpty then RpcValue.null else RpcValue.string e.domain ]

/-- The block of `getLog` that appends the record of an entry to the log and counts it. -/
def pushRecord (params : ShvGetLogParams) (st : GetLogState) (e : ShvJournalEntry) :
    GetLogState :=
  let p := make_path_shared params st e.path
  { p.2 with
    log := p.2.log ++ [recordOf p.1 e]
    rec_cnt := p.2.rec_cnt + 1
    first_record_msec := if p.2.first_record_msec = 0 then e.epochMsec else p.2.first_record_msec
    last_record_msec := e.epochMsec }

/-- The loop over the snapshot in `getLog`; the flag tells that `log_finish` was reached. -/
def pushSnapshot (params : ShvGetLogParams) (max_rec_cnt : Int) :
    GetLogState → List (String × ShvJournalEntry) → GetLogState × Bool
  | st, [] => (st, false)
  | st, kv :: r =>
    let st1 := pushRecord params st kv.2
    if st1.rec_cnt ≥ max_rec_cnt then (st1, true)
    else pushSnapshot params max_rec_cnt st1 r

/-- The body of the loop `while(rd.next())` of `getLog` for one entry; the flag tells that
`log_finish` was reached. -/
def processEntry (env : GetLogEnv) (params : ShvGetLogParams)
    (since_msec until_msec max_rec_cnt : Int) (st : GetLogState) (e : ShvJournalEntry) :
    GetLogState × Bool :=
  if !params.pathPattern.isEmpty && !env.pattern_matcher params e.path e.domain then (st, false)
  else if since_msec > 0 ∧ e.epochMsec < since_msec then
    if params.withSnapshot then
      if e.sampleType = SampleType.Continuous then
        ({ st with snapshot := StdMap.insert st.snapshot e.path { e with epochMsec := since_msec } },
          false)
      else (st, false)
    else (st, false)
  else
    let s1 : GetLogState × Bool :=
      if params.withSnapshot && !st.snapshot.isEmpty then
        let r := pushSnapshot params max_rec_cnt st st.snapshot
        if r.2 then r else ({ r.1 with snapshot := [] }, false)
      else (st, false)
    if s1.2 then s1
    else if until_msec = 0 ∨ e.epochMsec < until_msec then
      let st2 := pushRecord params s1.1 e
      (st2, decide (st2.rec_cnt ≥ max_rec_cnt))
    else (s1.1, true)

/-- The loop `while(rd.next())` of `getLog` over the entries of one file. -/
def readEntries (env : GetLogEnv) (params : ShvGetLogParams)
    (since_msec until_msec max_rec_cnt : Int) :
    GetLogState → List ShvJournalEntry → GetLogState × Bool
  | st, [] => (st, false)
  | st, e :: r =>
    let s := processEntry env params since_msec until_msec max_rec_cnt st e
    if s.2 then s else readEntries env params since_msec until_msec max_rec_cnt s.1 r

/-- The loop of `getLog` over the files from the starting file on. -/
def readFiles (env : GetLogEnv) (dir : JournalDir) (params : ShvGetLogParams)
    (since_msec until_msec max_rec_cnt : Int) : GetLogState → List Int → GetLogState
  | st, [] => st
  | st, file_msec :: r =>
    let s := readEntries env params since_msec until_msec max_rec_cnt st (readFile dir file_msec)
    if s.2 then s.1 else readFiles env dir params since_msec until_msec max_rec_cnt s.1 r

/-- The loop that turns the path cache into the path dictionary of the header. -/
def makePathDict (path_cache : StdMap String RpcValue) : StdMap Int RpcValue :=
  path_cache.foldl (fun path_dict kv => StdMap.insert path_dict kv.2.toInt (RpcValue.string kv.1)) []

/-- Modelled from the spec: the positional field names of a record, element `fields` of
the header. -/
def logFields : List RpcValue :=
  [ RpcValue.map [("name", RpcValue.string "timestamp")],
    RpcValue.map [("name", RpcValue.string "path")],
    RpcValue.map [("name", RpcValue.string "value")],
    RpcValue.map [("name", RpcValue.string "shortTime")],
    RpcValue.map [("name", RpcValue.string "domain")] ]

/-- The local variable `since_msec` of `getLog` before the loop. -/
def since_msec (params : ShvGetLogParams) : Int :=
  if params.since.isDateTime then params.since.toDateTime.msecsSinceEpoch else 0

/-- The local variable `until_msec` of `getLog` before the loop. -/
def until_msec (params : ShvGetLogParams) : Int :=
  if params.until_.isDateTime then params.until_.toDateTime.msecsSinceEpoch else 0

/-- The local variable `max_rec_cnt` of `getLog`. -/
def max_rec_cnt (env : GetLogEnv) (params : ShvGetLogParams) : Int :=
  min params.maxRecordCount env.DEFAULT_GET_LOG_RECORD_COUNT_LIMIT

/-- The files that `getLog` reads: the files of the context from the starting file on. -/
def filesToRead (journal_context : JournalContext) (params : ShvGetLogParams) : List Int :=
  journal_context.files.drop (startFileIndex journal_context.files (since_msec params))

/-- The state of the query loop of `getLog` when `log_finish` is reached. -/
def getLogState (env : GetLogEnv) (dir : JournalDir) (journal_context : JournalContext)
    (params : ShvGetLogParams) : GetLogState :=
  if journal_context.files.length ≠ 0 then
    readFiles env dir params (since_msec params) (until_msec params) (max_rec_cnt env params) {}
      (filesToRead journal_context params)
  else {}

/-- Source function `ShvFileJournal::getLog(journal_context, params)`: the list of records
and the header that is attached to it as meta-data. -/
def getLog (env : GetLogEnv) (dir : JournalDir) (journal_context : JournalContext)
    (params : ShvGetLogParams) : List RpcValue × ShvLogHeader :=
  let log_header : ShvLogHeader := ShvLogHeader.setTypeInfo {} "" journal_context.typeInfo
  let st := getLogState env dir journal_context params
  let since_msec := if since_msec params = 0 then st.first_record_msec else since_msec params
  let until_msec :=
    if st.rec_cnt < max_rec_cnt env params then
      if until_msec params = 0 then st.last_record_msec else until_msec params
    else st.last_record_msec
  let log_header : ShvLogHeader :=
    { log_header with
      deviceId := journal_context.deviceId
      deviceType := journal_context.deviceType
      dateTime := RpcValue.dateTime env.now 0
      logParams := some params
      since := if since_msec > 0 then RpcValue.dateTime since_msec 0 else RpcValue.null
      until_ := if until_msec > 0 then RpcValue.dateTime until_msec 0 else RpcValue.null
      recordCount := st.rec_cnt
      recordCountLimit := max_rec_cnt env params
      withSnapShot := params.withSnapshot
      fields := logFields }
  let log_header : ShvLogHeader :=
    if params.withPathsDict then { log_header with pathDict := makePathDict st.path_cache }
    else log_header
  (st.log, log_header)

/-! ## Notions used to state the properties -/

/-- Pushing the records of a list of entries, one after the other. -/
def pushAll (params : ShvGetLogParams) (st : GetLogState) (es : List ShvJournalEntry) :
    GetLogState :=
  es.foldl (pushRecord params) st

/-- The state with the snapshot map replaced. -/
def GetLogState.setSnapshot (st : GetLogState) (m : StdMap String ShvJournalEntry) :
    GetLogState :=
  { st with snapshot := m }

/-- The entry passes the pattern filter of the query. -/
def accepted (env : GetLogEnv) (params : ShvGetLogParams) (e : ShvJournalEntry) : Bool :=
  params.pathPattern.isEmpty || env.pattern_matcher params e.path e.domain

/-- The entries that `getLog` reads, in reading order. -/
def entriesToRead (dir : JournalDir) (journal_context : JournalContext)
    (params : ShvGetLogParams) : List ShvJournalEntry :=
  ((filesToRead journal_context params).map (readFile dir)).flatten

/-- The whole journal as the context sees it: the entries of the files of the context, in
the order of the files. -/
def journalEntries (dir : JournalDir) (journal_context : JournalContext) :
    List ShvJournalEntry :=
  (journal_context.files.map (readFile dir)).flatten

/-- The timestamp of a record of the log; zero for a value that is not a record. -/
def recordMsec : RpcValue → Int
  | .list (.dateTime msec _ :: _) => msec
  | _ => 0

/-- The path token of a record of the log. -/
def recordToken : RpcValue → RpcValue
  | .list (_ :: token :: _) => token
  | _ => RpcValue.invalid

/-- The byte size of the whole directory. -/
def dirSize (env : JournalEnv) (dir : JournalDir) : Int :=
  (dir.map (fun f => entriesSize env f.entries)).sum

/-! ## Example journals -/

/-- The query environment of the examples: limit 1000 and a matcher that accepts all. -/
def envS5 : GetLogEnv :=
  { DEFAULT_GET_LOG_RECORD_COUNT_LIMIT := 1000, pattern_matcher := fun _ _ _ => true, now := 0 }

/-- The directory of scenario S5: file 100 with `(x,1)@110` and `(y,2)@120`, file 200 with
`(x,3)@210`. -/
def dirS5 : JournalDir :=
  [ { fileMsec := 100
      entries := [ { epochMsec := 110, path := "x", value := RpcValue.int 1 },
                   { epochMsec := 120, path := "y", value := RpcValue.int 2 } ] },
    { fileMsec := 200
      entries := [ { epochMsec := 210, path := "x", value := RpcValue.int 3 } ] } ]

/-- The context of scenario S5 after the scan of the directory. -/
def ctxS5 : JournalContext :=
  { journalDirExists := true, files := [100, 200], journalSize := 3, lastFileSize := 1,
    recentTimeStamp := 210 }

/-- The parameters of scenario S5: a start instant, the snapshot asked for, and the path
dictionary on or off. -/
def paramsS5 (since : Int) (dict : Bool) : ShvGetLogParams :=
  { since := RpcValue.dateTime since 0, withSnapshot := true, withPathsDict := dict,
    maxRecordCount := 1000 }

/-- The record codec of the examples: every record takes 10 bytes, and the reverse scan
finds the timestamp of the last record. -/
def envEx : JournalEnv :=
  { recordSize := fun _ => 10
    findLastEntryDateTime := fun es =>
      match es.getLast? with
      | some e => e.epochMsec
      | none => -1 }

/-- A directory with one file that starts at 50 and holds one entry at 60. -/
def dirEx : JournalDir :=
  [ { fileMsec := 50, entries := [ { epochMsec := 60, path := "a", value := RpcValue.int 0 } ] } ]

/-- The journal object after the scan of `dirEx`, with a file size limit of 15 bytes. -/
def journalEx : ShvFileJournal :=
  { m_journalContext :=
      { journalDirExists := true, files := [50], journalSize := 10, lastFileSize := 10,
        recentTimeStamp := 60 }
    m_fileSizeLimit := 15
    m_journalSizeLimit := 1000000
    m_snapShotFn := some [] }

/-- An entry of path `a` with the given timestamp. -/
def entryAt (msec : Int) : ShvJournalEntry :=
  { epochMsec := msec, path := "a", value := RpcValue.int 1 }

/-- A directory of three files of 10 bytes each. -/
def dirRot : JournalDir :=
  [ { fileMsec := 100, entries := [entryAt 110] },
    { fileMsec := 200, entries := [entryAt 210] },
    { fileMsec := 300, entries := [entryAt 310] } ]

/-- A journal object whose journal size limit is 20 bytes. -/
def journalRot : ShvFileJournal :=
  { m_journalContext :=
      { journalDirExists := true, files := [100, 200, 300], journalSize := 30,
        lastFileSize := 10, recentTimeStamp := 310 }
    m_fileSizeLimit := 1000
    m_journalSizeLimit := 20
    m_snapShotFn := some [] }

/-- The entry lies before the start instant of the query. -/
def isBefore (since_msec : Int) (e : ShvJournalEntry) : Prop :=
  since_msec > 0 ∧ e.epochMsec < since_msec

/-- What the loop of `getLog` does to the snapshot map for an entry that lies before the
start instant. -/
def snapshotStep (env : GetLogEnv) (params : ShvGetLogParams) (since_msec : Int)
    (m : StdMap String ShvJournalEntry) (e : ShvJournalEntry) : StdMap String ShvJournalEntry :=
  if accepted env params e = true ∧ params.withSnapshot = true
      ∧ e.sampleType = SampleType.Continuous then
    StdMap.insert m e.path { e with epochMsec := since_msec }
  else m

/-- The snapshot map after the entries of a list that all lie before the start instant. -/
def snapshotOf (env : GetLogEnv) (params : ShvGetLogParams) (since_msec : Int)
    (m : StdMap String ShvJournalEntry) (es : List ShvJournalEntry) :
    StdMap String ShvJournalEntry :=
  es.foldl (snapshotStep env params since_msec) m

/-- The paths of a list numbered from `n` on, as an int-keyed map. -/
def numbered : Int → List String → StdMap Int RpcValue
  | _, [] => []
  | n, p :: r => (n, RpcValue.string p) :: numbered (n + 1) r

/-- The entries of the snapshot block that `getLog` emits in front of the next entry: the
entries of the snapshot map, in the order of the map, when the snapshot is asked for. -/
def snapBlock (params : ShvGetLogParams) (st : GetLogState) : List ShvJournalEntry :=
  if (params.withSnapshot && !st.snapshot.isEmpty) = true then st.snapshot.map Prod.snd else []

/-- The path token of the records of a result whose distinct paths, in the order of their
first record, are `ids`: the number of the path when the path dictionary is on, and the
path itself otherwise. -/
def tokenOf (params : ShvGetLogParams) (ids : List String) (path : String) : RpcValue :=
  if params.withPathsDict = true then RpcValue.int (ids.indexOf path + 1)
  else RpcValue.string path

/-- The state of the path cache and of the log after the records of the entries `es` were
pushed, in terms of the distinct paths `ids` of these entries. -/
def CacheInv (params : ShvGetLogParams) (st : GetLogState) (es : List ShvJournalEntry)
    (ids : List String) : Prop :=
  st.log = es.map (fun e => recordOf (tokenOf params ids e.path) e) ∧
    ids.Nodup ∧ (∀ p, p ∈ ids ↔ ∃ e ∈ es, e.path = p) ∧
    (params.withPathsDict = true → st.max_path_id = ids.length) ∧
    (∀ p, StdMap.find st.path_cache p
      = if p ∈ ids then some (tokenOf params ids p) else none) ∧
    (st.path_cache.map Prod.fst).Sorted (fun a b => a < b)

/-- The timestamps of the records of a log. -/
def logMsecs (log : List RpcValue) : List Int := log.map recordMsec

/-- The header value of an optional instant: the date-time of the timestamp, null when
there is none. -/
def instantOrNull : Option Int → RpcValue
  | some t => RpcValue.dateTime t 0
  | none => RpcValue.null

/-- The relation between the counters of the query loop and the log built so far: the
record count is the length of the log, `last_record_msec` is the timestamp of the last
record, and `first_record_msec` is the first timestamp that is not zero. -/
def TimesInv (st : GetLogState) : Prop :=
  st.rec_cnt = st.log.length ∧
    st.last_record_msec = ((logMsecs st.log).getLast?).getD 0 ∧
    st.first_record_msec = ((logMsecs st.log).find? (fun t => decide (t ≠ 0))).getD 0

/-- The context of scenario S1 after the scan of an empty directory. -/
def ctxS1 : JournalContext :=
  { journalDirExists := true, files := [], journalSize := 0, lastFileSize := 0 }

/-- Parameters that leave everything at its default, with the given record count. -/
def paramsMax (n : Int) : ShvGetLogParams := { maxRecordCount := n }

/-- The directory of scenario S6: one file with ten entries of path `a` at the instants
1001 to 1010. -/
def dirS6 : JournalDir :=
  [ { fileMsec := 1000
      entries := [entryAt 1001, entryAt 1002, entryAt 1003, entryAt 1004, entryAt 1005,
        entryAt 1006, entryAt 1007, entryAt 1008, entryAt 1009, entryAt 1010] } ]

/-- The context of scenario S6 after the scan of the directory. -/
def ctxS6 : JournalContext :=
  { journalDirExists := true, files := [1000], journalSize := 10, lastFileSize := 10,
    recentTimeStamp := 1010 }

/-! ## Notions and examples for the window and the filter of a query -/

/-- Modelled from the spec: the pattern matcher for patterns without wildcard characters;
`match(path, domain)` is true when both patterns match, an empty pattern matches all, and
a pattern without wildcard characters matches the string equal to it. -/
def literalMatcher (params : ShvGetLogParams) (path domain : String) : Bool :=
  (params.pathPattern.isEmpty || params.pathPattern == path) &&
    (params.domainPattern.isEmpty || params.domainPattern == domain)

/-- The query environment with the matcher of literal patterns. -/
def envLit : GetLogEnv :=
  { DEFAULT_GET_LOG_RECORD_COUNT_LIMIT := 1000, pattern_matcher := literalMatcher, now := 0 }

/-- The entry of path `x` and domain `X` at the instant 110. -/
def entryDom : ShvJournalEntry :=
  { epochMsec := 110, path := "x", value := RpcValue.int 1, domain := "X" }

/-- A directory with one file that holds `entryDom`. -/
def dirDom : JournalDir := [ { fileMsec := 100, entries := [entryDom] } ]

/-- The context after the scan of `dirDom`. -/
def ctxDom : JournalContext :=
  { journalDirExists := true, files := [100], journalSize := 1, lastFileSize := 1,
    recentTimeStamp := 110 }

/-- A query with the domain pattern `D` and no path pattern. -/
def paramsDom : ShvGetLogParams := { domainPattern := "D", maxRecordCount := 1000 }

/-! ## Size limits -/

/-- The largest value of `int64_t`. -/
def INT64_MAX : Int := 9223372036854775807

/-- The least value of `int64_t`. -/
def INT64_MIN : Int := -9223372036854775808

/-- The value that a 64-bit two's complement register holds for the integer `n`. -/
def wrap64 (n : Int) : Int := (n + 9223372036854775808) % 18446744073709551616 - 9223372036854775808

/-- The white space of the C locale, which formatted extraction skips: the space and the
characters with the codes 9 to 13. -/
def isSpace (c : Char) : Bool := c.toNat == 32 || (decide (9 ≤ c.toNat) && decide (c.toNat ≤ 13))

/-- The state of a `std::istringstream`: the characters not yet read and the fail bit. -/
structure IStream where
  rest : List Char
  fail : Bool := false

/-- Reads decimal digits, continuing the number `acc`; the number and the characters that
follow the digits. -/
def readDigits : Int → List Char → Int × List Char
  | acc, [] => (acc, [])
  | acc, c :: s =>
    match digitVal c with
    | some d => readDigits (10 * acc + d) s
    | none => (acc, c :: s)

/-- The extraction `is >> n` of the C++ standard library for an `int64_t` in decimal
base: nothing is read from a stream that has failed; white space is skipped; at the end of
the input the stream fails and `n` keeps its value; an optional sign and the decimal
digits are read; without a digit the stream fails and `n` becomes zero; a number out
of the range of `int64_t` makes the stream fail and `n` the nearest bound. -/
def IStream.extractInt64 (is : IStream) (n : Int) : IStream × Int :=
  if is.fail then (is, n)
  else
    let s := is.rest.dropWhile isSpace
    if s.isEmpty then ({ rest := s, fail := true }, n)
    else
      let neg := decide (s.head? = some '-')
      let s1 := if s.head? = some '-' ∨ s.head? = some '+' then s.tail else s
      if (s1.head?.bind digitVal).isSome then
        let r := readDigits 0 s1
        let v := if neg then -r.1 else r.1
        if v > INT64_MAX then ({ rest := r.2, fail := true }, INT64_MAX)
        else if v < INT64_MIN then ({ rest := r.2, fail := true }, INT64_MIN)
        else ({ rest := r.2 }, v)
      else ({ rest := s1, fail := true }, 0)

/-- The extraction `is >> c` of the C++ standard library for a `char`: nothing is read
from a stream that has failed; white space is skipped; at the end of the input the stream
fails and `c` keeps its value; otherwise `c` becomes the next character. -/
def IStream.extractChar (is : IStream) (c : Char) : IStream × Char :=
  if is.fail then (is, c)
  else
    match is.rest.dropWhile isSpace with
    | [] => ({ rest := [], fail := true }, c)
    | x :: r => ({ rest := r }, x)

/-- The statement `switch(std::toupper(c))` of `str_to_size`: the number times the
factor of the suffix, in 64-bit arithmetic. -/
def sizeSwitch (c : Char) (n : Int) : Int :=
  if c.toUpper = 'K' then wrap64 (n * 1024)
  else if c.toUpper = 'M' then wrap64 (n * (1024 * 1024))
  else if c.toUpper = 'G' then wrap64 (n * (1024 * 1024 * 1024))
  else n

/-- Source function `str_to_size`. The locals `n` and `c` are declared without
initialiser; the values `n0` and `c0` that they hold before the extraction are
parameters. -/
def str_to_size (n0 : Int) (c0 : Char) (str : String) : Int :=
  let is : IStream := { rest := str.data }
  let r1 := is.extractInt64 n0
  let r2 := r1.1.extractChar c0
  let n := r1.2
  let c := r2.2
  let n := sizeSwitch c n
  if n < 1024 then 1024 else n

/-- The value of a list of decimal digits, most significant first, continuing the
number `acc`. -/
def decValFrom : Int → List Nat → Int
  | acc, [] => acc
  | acc, d :: t => decValFrom (10 * acc + (d : Int)) t

/-- The value of a list of decimal digits, most significant first. -/
def decVal (ds : List Nat) : Int := decValFrom 0 ds

/-- The suffixes of a size and the exponents of 1024 that they stand for. -/
def sizeSuffixes : List (Char × Nat) :=
  [('k', 1), ('K', 1), ('m', 2), ('M', 2), ('g', 3), ('G', 3)]

/-! ## Journal directory -/

/-- Modelled from the spec: `shv::core::String::replace(str, from, to)` for characters,
which replaces every occurrence of the character `from` in `str` by `to`. -/
def String_replace (str : String) (from_ch to_ch : Char) : String :=
  ⟨str.data.map (fun c => if c = from_ch then to_ch else c)⟩

/-- Source function `ShvFileJournal::journalDir`: the directory that the call returns and
the journal object after the call. The warning that the fallback branch logs calls
`journalDir()` again, which then returns the directory just stored. -/
def ShvFileJournal.journalDir (j : ShvFileJournal) : String × ShvFileJournal :=
  if j.m_journalContext.journalDir.isEmpty then
    let d := "/tmp/shvjournal/"
    let d :=
      if j.m_journalContext.deviceId.isEmpty then d ++ "default"
      else
        let id := j.m_journalContext.deviceId
        let id := String_replace id '/' '-'
        let id := String_replace id ':' '-'
        let id := String_replace id '.' '-'
        d ++ id
    let j1 : ShvFileJournal :=
      { j with m_journalContext := { j.m_journalContext with journalDir := d } }
    (j1.m_journalContext.journalDir, j1)
  else (j.m_journalContext.journalDir, j)

/-- The device id with every `/`, `:` and `.` replaced by `-`. -/
def sanitizedId (deviceId : String) : String :=
  ⟨deviceId.data.map (fun c => if c = '/' ∨ c = ':' ∨ c = '.' then '-' else c)⟩

/-- A journal object without journal directory for the device `a/b:c.d`. -/
def journalNoDir : ShvFileJournal :=
  { m_journalContext := { deviceId := "a/b:c.d" }
    m_fileSizeLimit := 1000
    m_journalSizeLimit := 1000000
    m_snapShotFn := none }

/-- A journal object with the journal directory `/var/log/shv` for the device `a/b:c.d`. -/
def journalWithDir : ShvFileJournal :=
  { m_journalContext := { deviceId := "a/b:c.d", journalDir := "/var/log/shv" }
    m_fileSizeLimit := 1000
    m_journalSizeLimit := 1000000
    m_snapShotFn := none }

/-! ## Log header and meta-data -/

/-- Modelled from the spec: `RpcValue::isMap`. -/
def RpcValue.isMap : RpcValue → Bool
  | .map _ => true
  | _ => false

/-- Modelled from the spec: `RpcValue::toMap`, the map held by the value and the empty map
for every other variant. -/
def RpcValue.toMap : RpcValue → StdMap String RpcValue
  | .map m => m
  | _ => []

/-- Modelled from the spec: `RpcValue::toIMap`, the int-keyed map held by the value and the
empty map for every other variant. -/
def RpcValue.toIMap : RpcValue → StdMap Int RpcValue
  | .imap m => m
  | _ => []

/-- Modelled from the spec: `RpcValue::toList`, the list held by the value and the empty
list for every other variant. -/
def RpcValue.toList : RpcValue → List RpcValue
  | .list l => l
  | _ => []

/-- Modelled from the spec: `RpcValue::toString`, the string held by the value and the
empty string for every other variant. -/
def RpcValue.toString : RpcValue → String
  | .string s => s
  | _ => ""

/-- Modelled from the spec: `RpcValue::toBool`, the boolean held by the value and false
for every other variant. -/
def RpcValue.toBool : RpcValue → Bool
  | .bool b => b
  | _ => false

/-- Modelled from the spec: the string-keyed part of `RpcValue::MetaData`. -/
abbrev MetaData := StdMap String RpcValue

/-- Modelled from the spec: `MetaData::value(key)`, the value bound to the key and the
invalid value when the key is absent. -/
def MetaData.value (md : MetaData) (key : String) : RpcValue := RpcValueMap_value md key

/-- Modelled from the spec: `MetaData::setValue(key, val)`, which binds the key to the
value. -/
def MetaData.setValue (md : MetaData) (key : String) (val : RpcValue) : MetaData :=
  StdMap.insert md key val

/-- The member function `count(key)` of `std::map`: one when the key is bound, zero
otherwise. -/
def StdMap.count {K V : Type} [DecidableEq K] (m : StdMap K V) (k : K) : Nat :=
  if (StdMap.find m k).isSome then 1 else 0

/-- The conversions `ShvGetLogParams::toRpcValue` and `ShvGetLogParams::fromRpcValue`,
which are declared outside the header sources, and the default-constructed parameters. -/
structure ParamsCodec where
  toRpcValue : ShvGetLogParams → RpcValue
  fromRpcValue : RpcValue → ShvGetLogParams
  defaultParams : ShvGetLogParams

/-- The member `logParams()` of a header; a header that was never given parameters holds
the default-constructed ones. -/
def ShvLogHeader.logParamsOr (h : ShvLogHeader) (codec : ParamsCodec) : ShvGetLogParams :=
  h.logParams.getD codec.defaultParams

/-- Source function `ShvLogHeader::fromMetaData`. -/
def ShvLogHeader.fromMetaData (codec : ParamsCodec) (md : MetaData) : ShvLogHeader :=
  let device := (MetaData.value md "device").toMap
  let params := codec.fromRpcValue (MetaData.value md "logParams")
  let m_typeInfos := (MetaData.value md "typeInfos").toMap
  let ti := MetaData.value md "typeInfo"
  let m_typeInfos := if ti.isMap then StdMap.insert m_typeInfos "." ti else m_typeInfos
  { deviceId := (RpcValueMap_value device "id").toString
    deviceType := (RpcValueMap_value device "type").toString
    logVersion := (MetaData.value md "logVersion").toInt
    logParams := some params
    recordCount := (MetaData.value md "recordCount").toInt
    recordCountLimit := (MetaData.value md "recordCountLimit").toInt
    withUptime := (MetaData.value md "withUptime").toBool
    withSnapShot := (MetaData.value md "withSnapShot").toBool
    fields := (MetaData.value md "fields").toList
    pathDict := (MetaData.value md "pathDict").toIMap
    m_typeInfos := m_typeInfos
    dateTime := MetaData.value md "dateTime"
    since := MetaData.value md "since"
    until_ := MetaData.value md "until" }

/-- The map `device` that `toMetaData` builds from the device id and the device type. -/
def ShvLogHeader.deviceMap (h : ShvLogHeader) : StdMap String RpcValue :=
  let device : StdMap String RpcValue := []
  let device :=
    if !h.deviceId.isEmpty then StdMap.insert device "id" (RpcValue.string h.deviceId) else device
  let device :=
    if !h.deviceType.isEmpty then StdMap.insert device "type" (RpcValue.string h.deviceType)
    else device
  device

/-- Source function `ShvLogHeader::toMetaData`. -/
def ShvLogHeader.toMetaData (codec : ParamsCodec) (h : ShvLogHeader) : MetaData :=
  let md : MetaData := []
  let device := h.deviceMap
  let md := if !device.isEmpty then md.setValue "device" (RpcValue.map device) else md
  let md := md.setValue "logVersion" (RpcValue.int h.logVersion)
  let md := md.setValue "logParams" (codec.toRpcValue (h.logParamsOr codec))
  let md := md.setValue "recordCount" (RpcValue.int h.recordCount)
  let md := md.setValue "recordCountLimit" (RpcValue.int h.recordCountLimit)
  let md := md.setValue "withUptime" (RpcValue.bool h.withUptime)
  let md := md.setValue "withSnapShot" (RpcValue.bool h.withSnapShot)
  let md := if !h.fields.isEmpty then md.setValue "fields" (RpcValue.list h.fields) else md
  let md := if !h.pathDict.isEmpty then md.setValue "pathDict" (RpcValue.imap h.pathDict) else md
  let md :=
    if !h.m_typeInfos.isEmpty then
      if h.m_typeInfos.length = 1 ∧ StdMap.count h.m_typeInfos "." = 1 then
        md.setValue "typeInfo" (RpcValueMap_value h.m_typeInfos ".")
      else md.setValue "typeInfos" (RpcValue.map h.m_typeInfos)
    else md
  let md := md.setValue "dateTime" h.dateTime
  let md := md.setValue "since" h.since
  let md := md.setValue "until" h.until_
  md

/-- The keys that `toMetaData` writes for every header. -/
def alwaysKeys : List String :=
  ["logVersion", "logParams", "recordCount", "recordCountLimit", "withUptime", "withSnapShot",
    "dateTime", "since", "until"]

/-- A codec of the parameters for the examples: the parameters are encoded as the list
of their members. -/
def codecEx : ParamsCodec :=
  { toRpcValue := fun p =>
      RpcValue.list [p.since, p.until_, RpcValue.string p.pathPattern,
        RpcValue.string p.domainPattern, RpcValue.int p.maxRecordCount,
        RpcValue.bool p.withSnapshot, RpcValue.bool p.withPathsDict, RpcValue.bool p.isRegex]
    fromRpcValue := fun v =>
      match v with
      | RpcValue.list [s, u, RpcValue.string pp, RpcValue.string dp, RpcValue.int n,
          RpcValue.bool ws, RpcValue.bool wd, RpcValue.bool re] =>
        { since := s, until_ := u, pathPattern := pp, domainPattern := dp, maxRecordCount := n,
          withSnapshot := ws, withPathsDict := wd, isRegex := re }
      | _ => { maxRecordCount := 1000 }
    defaultParams := { maxRecordCount := 1000 } }

/-- A header whose only type info, for the prefix `.`, is the integer 5. -/
def headerIntTypeInfo : ShvLogHeader :=
  ShvLogHeader.setTypeInfo { logParams := some { maxRecordCount := 1000 } } "" (RpcValue.int 5)

/-- A header with a device, fields, a path dictionary and a type info that is a map. -/
def headerEx : ShvLogHeader :=
  ShvLogHeader.setTypeInfo
    { deviceId := "dev", logVersion := 2, logParams := some { maxRecordCount := 1000 },
      recordCount := 3, recordCountLimit := 1000, withSnapShot := true, fields := logFields,
      pathDict := [(1, RpcValue.string "x")], dateTime := RpcValue.dateTime 500 0,
      since := RpcValue.dateTime 100 0, until_ := RpcValue.null }
    "" (RpcValue.map [("types", RpcValue.map [])])

/-! ## Password format -/

/-- The function `toupper` of the C locale on the codes of ASCII characters: the lower
case letters are moved to upper case, every other code is returned as it is. -/
def c_toupper (c : Int) : Int := if 97 ≤ c ∧ c ≤ 122 then c - 32 else c

/-- The byte `s[i]` of a C string with the characters `s`: the code of the character, and
zero for the terminating byte. -/
def cstr_at (s : List Char) (i : Nat) : Int :=
  match s.get? i with
  | some c => (c.toNat : Int)
  | none => 0

/-- The loop of `str_eq` from the index `i` on with `n` rounds left, and the `return` that
follows it. -/
def str_eq_loop (s1 s2 : List Char) : Nat → Nat → Bool
  | 0, i => decide (cstr_at s2 i = 0)
  | n + 1, i =>
    let c2 := cstr_at s2 i
    if c2 = 0 then false
    else if c_toupper (if c2 ≠ c_toupper (cstr_at s1 i) then 1 else 0) ≠ 0 then false
    else str_eq_loop s1 s2 n (i + 1)

/-- Source function `str_eq` of `aclpassword.cpp`; `s2` holds the characters of the C
string in front of its terminating zero. -/
def str_eq (s1 s2 : String) : Bool := str_eq_loop s1.data s2.data s1.data.length 0

/-- The enumeration `AclPassword::Format`. -/
inductive Format where
  | Invalid
  | Plain
  | Sha1
  deriving DecidableEq, Repr

/-- Source function `AclPassword::formatToString`. -/
def formatToString (f : Format) : String :=
  match f with
  | Format.Plain => "PLAIN"
  | Format.Sha1 => "SHA1"
  | _ => "INVALID"

/-- Source function `AclPassword::formatFromString`. -/
def formatFromString (s : String) : Format :=
  if str_eq s (formatToString Format.Plain) then Format.Plain
  else if str_eq s (formatToString Format.Sha1) then Format.Sha1
  else Format.Invalid

/-- The strings are equal when the case of the ASCII letters is ignored. -/
def eqIgnoreCase (a b : String) : Prop :=
  a.data.map (fun c => c_toupper (c.toNat : Int)) = b.data.map (fun c => c_toupper (c.toNat : Int))

/-- The string has ASCII characters only. -/
def isAscii (s : String) : Prop := ∀ c ∈ s.data, c.toNat < 128

/-! ## Notions for the contents of the snapshot -/

/-- Modelled from the spec: the byte `RECORD_SEPARATOR` that ends a record, the newline
`0x0A`. -/
def RECORD_SEPARATOR : Char := Char.ofNat 10

/-- Modelled from the spec: the byte `FIELD_SEPARATOR` between the fields of a record, the
tab `0x09`. -/
def FIELD_SEPARATOR : Char := Char.ofNat 9

/-- The constant `SKIP_LEN` of `findLastEntryDateTime`. -/
def SKIP_LEN : Int := 128

/-- The member function `find(c, pos)` of `std::string`: the position of the first
character `c` at or behind `pos`, none for `npos`. -/
def findFrom (s : List Char) (c : Char) (pos : Nat) : Option Nat :=
  if (s.drop pos).indexOf c < (s.drop pos).length then some (pos + (s.drop pos).indexOf c)
  else none

/-- The loop `while(lf_pos != std::string::npos)` of `findLastEntryDateTime` over one
chunk: the value of `dt_msec` after it. Every round moves `lf_pos` forward, so that
as many rounds as the chunk has characters, and one more, end the loop. -/
def scanChunk (chunk : List Char) : Nat → Nat → Int → Int
  | 0, _, dt_msec => dt_msec
  | fuel + 1, lf_pos, dt_msec =>
    match findFrom chunk RECORD_SEPARATOR lf_pos with
    | none => dt_msec
    | some p =>
      let lf_pos := p + 1
      match findFrom chunk FIELD_SEPARATOR lf_pos with
      | some tab_pos =>
        let s : String := ⟨(chunk.drop lf_pos).take (tab_pos - lf_pos)⟩
        let r := DateTime.fromUtcStringLen s
        scanChunk chunk fuel lf_pos (if r.2 > 0 then r.1.msecsSinceEpoch else dt_msec)
      | none => scanChunk chunk fuel lf_pos dt_msec

/-- The loop `while(fpos > 0)` of `findLastEntryDateTime`. The state of the stream is its
fail bit: `read` sets it when the file ends before `chunk_len` bytes are read, and on a
stream that has failed `seekg` and `read` do nothing, so that `gcount()` is zero. Every
round lowers `fpos` by `SKIP_LEN` down to zero, so that as many rounds as the file has
bytes end the loop. -/
def findLoop (content : List Char) : Nat → Int → Bool → Int → Int
  | 0, _, _, _ => -1
  | fuel + 1, fpos, fail, dt_msec =>
    if fpos > 0 then
      let fpos1 := fpos - SKIP_LEN
      let chunk_len := if fpos1 < 0 then SKIP_LEN + fpos1 else SKIP_LEN
      let fpos2 := if fpos1 < 0 then 0 else fpos1
      let chunk_len := chunk_len + 30
      let chunk := if fail then [] else (content.drop fpos2.toNat).take chunk_len.toNat
      let fail1 := fail || decide ((chunk.length : Int) < chunk_len)
      let dt_msec1 :=
        if chunk.length > 0 then scanChunk chunk (chunk.length + 1) 0 dt_msec else dt_msec
      if dt_msec1 > 0 then dt_msec1
      else findLoop content fuel fpos2 fail1 dt_msec1
    else -1

/-- Source function `ShvFileJournal::findLastEntryDateTime` on a file that can be opened,
as a function of the bytes of the file. -/
def findLastEntryDateTime (content : List Char) : Int :=
  findLoop content (content.length + 1) content.length false (-1)

/-- Modelled from the spec: a record of a journal file: the date-time field, and the
further fields, each behind a field separator, ended by the record separator. -/
def recordLine (dateTime : String) (fields : List String) : List Char :=
  dateTime.data ++ (fields.map (fun f => FIELD_SEPARATOR :: f.data)).flatten ++ [RECORD_SEPARATOR]

/-- The record codec of the examples of the reverse scan: an entry is written as the
record of its date-time, its path and the text `1`; the scan of a file is
`findLastEntryDateTime` on the bytes of its records. -/
def envScan : JournalEnv :=
  { recordSize := fun e =>
      (recordLine ((DateTime.fromMSecsSinceEpoch e.epochMsec).toIsoString ++ "Z")
        [e.path, "1"]).length
    findLastEntryDateTime := fun es =>
      findLastEntryDateTime
        (es.map (fun e => recordLine
          ((DateTime.fromMSecsSinceEpoch e.epochMsec).toIsoString ++ "Z") [e.path, "1"])).flatten }

/-- A directory whose only file holds the single entry of path `a` at the instant
1000000. -/
def dirOneRecord : JournalDir := [ { fileMsec := 1000000, entries := [entryAt 1000000] } ]

/-- The context with the file of `dirOneRecord`. -/
def ctxOneRecord : JournalContext :=
  { journalDirExists := true, files := [1000000], journalSize := 29, lastFileSize := 29 }

/-! ## Notions for the append path -/

/-- The directory with the entries `ws` put at the end of the file with the start
timestamp `s`. -/
def appendTo (dir : JournalDir) (s : Int) (ws : List ShvJournalEntry) : JournalDir :=
  dir.map (fun f => if f.fileMsec = s then { f with entries := f.entries ++ ws } else f)

/-- The entries as the monotonic-clamp writer writes them one after the other, when the
preceding record has the timestamp `recent`, and the timestamp of the last record
written. -/
def clampList : Int → List ShvJournalEntry → List ShvJournalEntry × Int
  | recent, [] => ([], recent)
  | recent, e :: es =>
    let msec := if e.epochMsec < recent then recent else e.epochMsec
    ({ e with epochMsec := msec } :: (clampList msec es).1, (clampList msec es).2)

/-- The local variable `msec` of `appendThrow` in front of the choice of the file: the
timestamp of the entry, the wall clock for the timestamp zero, raised to the recent
timestamp of the context. -/
def appendMsec (now : Int) (j : ShvFileJournal) (entry : ShvJournalEntry) : Int :=
  if (if entry.epochMsec = 0 then now else entry.epochMsec) < j.m_journalContext.recentTimeStamp
  then j.m_journalContext.recentTimeStamp
  else (if entry.epochMsec = 0 then now else entry.epochMsec)

/-- The local variable `last_file_msec` of `appendThrow`: the start timestamp of the file
that the append writes to. -/
def appendTarget (now : Int) (j : ShvFileJournal) (entry : ShvJournalEntry) : Int :=
  match j.m_journalContext.files.getLast? with
  | none => appendMsec now j entry
  | some last =>
    if j.m_journalContext.lastFileSize > j.m_fileSizeLimit then appendMsec now j entry else last

/-- The timestamp of the record that precedes the first record that a writer opened on
the file `s` writes: the start timestamp of the file, or the timestamp of its last record
when that is higher. -/
def writerRecent (dir : JournalDir) (s : Int) : Int :=
  match (readFile dir s).getLast? with
  | some e => max s e.epochMsec
  | none => s

/-- The directory after the writer was opened on the file `s`: the file is created empty
when it does not exist. -/
def withFile (dir : JournalDir) (s : Int) : JournalDir :=
  match dir.file s with
  | some _ => dir
  | none => dir ++ [{ fileMsec := s, entries := [] }]

/-- The records that a successful `appendThrow` writes to its file: the snapshot when
the file is empty, and the entry, with the timestamps that the writer gives them. -/
def appendWritten (env : JournalEnv) (dir : JournalDir) (now : Int) (j : ShvFileJournal)
    (entry : ShvJournalEntry) : List ShvJournalEntry :=
  if entriesSize env (readFile dir (appendTarget now j entry)) = 0 then
    (clampList (writerRecent dir (appendTarget now j entry))
      (j.m_snapShotFn.getD [] ++ [entry])).1
  else (clampList (writerRecent dir (appendTarget now j entry)) [entry]).1

/-- The journal object after a successful `appendThrow` that does not rotate the
journal. -/
def appendedJournal (env : JournalEnv) (dir : JournalDir) (now : Int) (j : ShvFileJournal)
    (entry : ShvJournalEntry) : ShvFileJournal :=
  { j with m_journalContext :=
    { j.m_journalContext with
      journalDirExists := true
      files :=
        if entriesSize env (readFile dir (appendTarget now j entry)) = 0 then
          j.m_journalContext.files ++ [appendTarget now j entry]
        else j.m_journalContext.files
      lastFileSize := entriesSize env (readFile dir (appendTarget now j entry))
        + entriesSize env (appendWritten env dir now j entry)
      journalSize := j.m_journalContext.journalSize
        + entriesSize env (appendWritten env dir now j entry) } }

/-- The sum of the sizes of the files of a list of start timestamps. -/
def sumSizes (env : JournalEnv) (dir : JournalDir) (files : List Int) : Int :=
  (files.map (file_size env dir)).sum

/-- The test of `appendThrow` for a corrupted context: the file chosen starts before the
last file of the context. -/
def appendCorrupt (now : Int) (j : ShvFileJournal) (entry : ShvJournalEntry) : Bool :=
  match j.m_journalContext.files.getLast? with
  | none => false
  | some last => decide (appendTarget now j entry < last)

/-- A directory with one file that starts at 50 and holds two entries at 50. -/
def dirFull : JournalDir :=
  [ { fileMsec := 50, entries := [entryAt 50, entryAt 50] } ]

/-- The journal object after the scan of `dirFull`, with a file size limit of 15 bytes
and a snapshot of one entry. -/
def journalFull : ShvFileJournal :=
  { m_journalContext :=
      { journalDirExists := true, files := [50], journalSize := 20, lastFileSize := 20,
        recentTimeStamp := 50 }
    m_fileSizeLimit := 15
    m_journalSizeLimit := 1000000
    m_snapShotFn := some [{ epochMsec := 0, path := "s", value := RpcValue.int 7 }] }

/-- A directory whose only file starts at 50 and is empty. -/
def dirEmptyFile : JournalDir :=
  [ { fileMsec := 50, entries := [] } ]

/-- A journal object whose context has not been scanned yet, with a snapshot function
that returns no entry. -/
def journalNew : ShvFileJournal :=
  { m_journalContext := {}
    m_fileSizeLimit := 1000
    m_journalSizeLimit := 1000000
    m_snapShotFn := some [] }

/-- A journal object whose context has not been scanned yet, without snapshot
function. -/
def journalNoSnapshot : ShvFileJournal :=
  { m_journalContext := {}
    m_fileSizeLimit := 1000
    m_journalSizeLimit := 1000000
    m_snapShotFn := none }

/-! ## Notions and examples for the header instants, the size accounting and journals
out of order -/

/-- The header value of an instant of `getLog`: the expression
`(msec > 0)? DateTime::fromMSecsSinceEpoch(msec): nullptr` of `setSince` and `setUntil`. -/
def headerInstant (msec : Int) : RpcValue :=
  if msec > 0 then RpcValue.dateTime msec 0 else RpcValue.null

/-- A directory with one file whose first entry has the timestamp zero. -/
def dirZero : JournalDir :=
  [ { fileMsec := 1, entries := [entryAt 0, entryAt 5] } ]

/-- The context with the file of `dirZero`. -/
def ctxZero : JournalContext :=
  { journalDirExists := true, files := [1], journalSize := 2, lastFileSize := 2,
    recentTimeStamp := 5 }

/-- The journal object after the scan of `dirEmptyFile` at the wall clock 100, with a
snapshot function that returns no entry. -/
def journalScanned : ShvFileJournal :=
  { m_journalContext :=
      { journalDirExists := true, files := [50], journalSize := 0, lastFileSize := 0,
        recentTimeStamp := 100 }
    m_fileSizeLimit := 1000
    m_journalSizeLimit := 1000000
    m_snapShotFn := some [] }
/-! # Properties

## Filename calendar -/

theorem digitVal_digitChar (n : Nat) : digitVal (digitChar n) = some (n % 10) := by
  have h : n % 10 < 10 := Nat.mod_lt _ (by decide)
  unfold digitChar
  interval_cases n % 10 <;> rfl

theorem civil_aux (z : Int) :
    ∃ era yoe doy mp : Int, 0 ≤ yoe ∧ yoe ≤ 399 ∧ 0 ≤ doy ∧ doy ≤ 365 ∧ 0 ≤ mp ∧ mp ≤ 11 ∧
      z + 719468 = era * 146097 + (yoe * 365 + yoe / 4 - yoe / 100 + doy) ∧
      era = (z + 719468) / 146097 ∧
      mp = (5 * doy + 2) / 153 ∧
      civilFromDays z = (if (if mp < 10 then mp + 3 else mp - 9) ≤ 2 then era * 400 + yoe + 1 else era * 400 + yoe,
        (if mp < 10 then mp + 3 else mp - 9), doy - (153 * mp + 2) / 5 + 1) := by
  obtain ⟨doe, hdoe⟩ : ∃ doe : Int, doe = (z + 719468) % 146097 := ⟨_, rfl⟩
  obtain ⟨cent, hcent⟩ : ∃ c : Int, c = if doe / 36524 < 4 then doe / 36524 else 3 := ⟨_, rfl⟩
  obtain ⟨doc, hdoc⟩ : ∃ c : Int, c = doe - cent * 36524 := ⟨_, rfl⟩
  obtain ⟨yoq, hyoq⟩ : ∃ c : Int, c = if doc % 1461 / 365 < 4 then doc % 1461 / 365 else 3 := ⟨_, rfl⟩
  have c0 : 0 ≤ cent ∧ cent ≤ 3 ∧ 0 ≤ doc ∧ doc ≤ 36524 := by
    rw [hdoc, hcent]; split_ifs <;> omega
  have q0 : 0 ≤ yoq ∧ yoq ≤ 3 ∧ 0 ≤ doc % 1461 - yoq * 365 ∧ doc % 1461 - yoq * 365 ≤ 365 := by
    rw [hyoq]; split_ifs <;> omega
  refine ⟨(z + 719468) / 146097, cent * 100 + doc / 1461 * 4 + yoq, doc % 1461 - yoq * 365,
    (5 * (doc % 1461 - yoq * 365) + 2) / 153, ?_, ?_, q0.2.2.1, q0.2.2.2, ?_, ?_, ?_, rfl, rfl, ?_⟩
  · omega
  · omega
  · omega
  · omega
  · have h4 : (cent * 100 + doc / 1461 * 4 + yoq) / 4 = cent * 25 + doc / 1461 := by omega
    have h100 : (cent * 100 + doc / 1461 * 4 + yoq) / 100 = cent := by omega
    rw [h4, h100]
    omega
  · simp only [civilFromDays, ← hdoe, ← hcent, ← hdoc, ← hyoq]
    have : (z + 719468) / 146097 * 400 + cent * 100 + doc / 1461 * 4 + yoq =
        (z + 719468) / 146097 * 400 + (cent * 100 + doc / 1461 * 4 + yoq) := by ring
    rw [this]

theorem daysFromCivil_civilFromDays (z : Int) :
    daysFromCivil (civilFromDays z).1 (civilFromDays z).2.1 (civilFromDays z).2.2 = z := by
  obtain ⟨era, yoe, doy, mp, hy0, hy1, hd0, hd1, hm0, hm1, hz, -, hmp, hc⟩ := civil_aux z
  rw [hc]
  simp only [daysFromCivil]
  have e1 : (era * 400 + yoe) / 400 = era := by omega
  have e2 : (era * 400 + yoe) % 400 = yoe := by omega
  split_ifs <;> first | omega | (simp only [show era * 400 + yoe + 1 - 1 = era * 400 + yoe by ring, e1, e2]; omega)

theorem civilFromDays_bounds (z : Int) (h0 : 0 ≤ z) (h1 : z ≤ 2932896) :
    1970 ≤ (civilFromDays z).1 ∧ (civilFromDays z).1 ≤ 9999 ∧
    1 ≤ (civilFromDays z).2.1 ∧ (civilFromDays z).2.1 ≤ 12 ∧
    1 ≤ (civilFromDays z).2.2 ∧ (civilFromDays z).2.2 ≤ 31 := by
  obtain ⟨era, yoe, doy, mp, hy0, hy1, hd0, hd1, hm0, hm1, hz, he, hmp, hc⟩ := civil_aux z
  rw [hc]
  simp only
  have hera : 4 ≤ era ∧ era ≤ 24 := by omega
  have hlo : era = 4 → (370 ≤ yoe ∨ (yoe = 369 ∧ 10 ≤ mp)) := by
    intro h4
    have : 369 ≤ yoe := by omega
    rcases (show yoe = 369 ∨ 370 ≤ yoe by omega) with h | h
    · right; subst h; subst h4; refine ⟨rfl, ?_⟩; omega
    · left; exact h
  have hhi : era = 24 → (yoe ≤ 398 ∨ (yoe = 399 ∧ mp ≤ 9)) := by
    intro h24
    rcases (show yoe = 399 ∨ yoe ≤ 398 by omega) with h | h
    · right; subst h; subst h24; refine ⟨rfl, ?_⟩; omega
    · left; exact h
  have hdm : 1 ≤ doy - (153 * mp + 2) / 5 + 1 ∧ doy - (153 * mp + 2) / 5 + 1 ≤ 31 := by omega
  refine ⟨?_, ?_, ?_, ?_, hdm.1, hdm.2⟩
  · rcases (show era = 4 ∨ 5 ≤ era by omega) with h | h
    · rcases hlo h with h' | ⟨h', h''⟩ <;> split_ifs <;> omega
    · split_ifs <;> omega
  · rcases (show era = 24 ∨ era ≤ 23 by omega) with h | h
    · rcases hhi h with h' | ⟨h', h''⟩ <;> split_ifs <;> omega
    · split_ifs <;> omega
  · split_ifs <;> omega
  · split_ifs <;> omega


theorem natToDigits_two (n : Nat) : natToDigits 2 n = [digitChar (n / 10), digitChar n] := rfl
theorem natToDigits_three (n : Nat) :
    natToDigits 3 n = [digitChar (n / 10 / 10), digitChar (n / 10), digitChar n] := rfl
theorem natToDigits_four (n : Nat) :
    natToDigits 4 n = [digitChar (n / 10 / 10 / 10), digitChar (n / 10 / 10), digitChar (n / 10), digitChar n] := rfl

theorem parseDigits_two (a b : Nat) (r : List Char) :
    parseDigits 2 0 (digitChar a :: digitChar b :: r) = some (10 * (a % 10) + b % 10, r) := by
  simp [parseDigits, digitVal_digitChar]

theorem parseDigits_three (a b c : Nat) (r : List Char) :
    parseDigits 3 0 (digitChar a :: digitChar b :: digitChar c :: r)
      = some (10 * (10 * (a % 10) + b % 10) + c % 10, r) := by
  simp [parseDigits, digitVal_digitChar]

theorem parseDigits_four (a b c d : Nat) (r : List Char) :
    parseDigits 4 0 (digitChar a :: digitChar b :: digitChar c :: digitChar d :: r)
      = some (10 * (10 * (10 * (a % 10) + b % 10) + c % 10) + d % 10, r) := by
  simp [parseDigits, digitVal_digitChar]

theorem fileName_chars (a3 a2 a1 a0 b1 b0 c1 c0 h1 h0 m1 m0 s1 s0 z2 z1 z0 : Char) :
    setChar (setChar (setChar (⟨[a3, a2, a1, a0, '-', b1, b0, '-', c1, c0, 'T', h1, h0, ':', m1, m0,
      ':', s1, s0, '.', z2, z1, z0]⟩ : String) MIN_SEP_POS '-') SEC_SEP_POS '-') MSEC_SEP_POS '-' ++ FILE_EXT
    = ⟨[a3, a2, a1, a0, '-', b1, b0, '-', c1, c0, 'T', h1, h0, '-', m1, m0,
      '-', s1, s0, '-', z2, z1, z0, '.', 'l', 'o', 'g', '2']⟩ := rfl

theorem fileNameToFileMsec_chars (y mo d hh mi ss ms : Nat) (hy : y < 10000) (hmo : mo < 100)
    (hd : d < 100) (hhh : hh < 100) (hmi : mi < 100) (hss : ss < 100) (hms : ms < 1000)
    (hpos : (((daysFromCivil y mo d * 24 + hh) * 60 + mi) * 60 + ss) * 1000 + ms ≠ 0) :
    fileNameToFileMsec ⟨[digitChar (y / 10 / 10 / 10), digitChar (y / 10 / 10), digitChar (y / 10), digitChar y,
        '-', digitChar (mo / 10), digitChar mo, '-', digitChar (d / 10), digitChar d,
        'T', digitChar (hh / 10), digitChar hh, '-', digitChar (mi / 10), digitChar mi,
        '-', digitChar (ss / 10), digitChar ss, '-', digitChar (ms / 10 / 10), digitChar (ms / 10), digitChar ms,
        '.', 'l', 'o', 'g', '2']⟩
      = .ok ((((daysFromCivil y mo d * 24 + hh) * 60 + mi) * 60 + ss) * 1000 + ms) := by
  have ey : (10 * (10 * (10 * ((y : Int) / 10 / 10 / 10 % 10) + (y : Int) / 10 / 10 % 10) + (y : Int) / 10 % 10)
      + (y : Int) % 10) = y := by omega
  have emo : (10 * ((mo : Int) / 10 % 10) + (mo : Int) % 10) = mo := by omega
  have ed : (10 * ((d : Int) / 10 % 10) + (d : Int) % 10) = d := by omega
  have ehh : (10 * ((hh : Int) / 10 % 10) + (hh : Int) % 10) = hh := by omega
  have emi : (10 * ((mi : Int) / 10 % 10) + (mi : Int) % 10) = mi := by omega
  have ess : (10 * ((ss : Int) / 10 % 10) + (ss : Int) % 10) = ss := by omega
  have ems : (10 * (10 * ((ms : Int) / 10 / 10 % 10) + (ms : Int) / 10 % 10) + (ms : Int) % 10) = ms := by
    omega
  simp only [fileNameToFileMsec, setChar, MSEC_SEP_POS, SEC_SEP_POS, MIN_SEP_POS]
  simp [DateTime.fromUtcString, DateTime.fromUtcStringLen, parseDateTimeSecs, parseDigits_four,
    parseDigits_two, parseDigits_three, parseMsecPart, parseUtcOffset, DateTime.msecsSinceEpoch]
  rw [ey, emo, ed, ehh, emi, ess, ems]
  simp [hpos]

theorem fileMsecToFileName_chars (t : Int) (h0 : 0 ≤ t) (h1 : t < 253402300800000) :
    fileMsecToFileName t =
      (let y := (civilFromDays (t / 1000 / 86400)).1.toNat
       let mo := (civilFromDays (t / 1000 / 86400)).2.1.toNat
       let d := (civilFromDays (t / 1000 / 86400)).2.2.toNat
       let hh := (t / 1000 % 86400 / 3600).toNat
       let mi := (t / 1000 % 86400 % 3600 / 60).toNat
       let ss := (t / 1000 % 86400 % 60).toNat
       let ms := (t % 1000).toNat
       ⟨[digitChar (y / 10 / 10 / 10), digitChar (y / 10 / 10), digitChar (y / 10), digitChar y,
        '-', digitChar (mo / 10), digitChar mo, '-', digitChar (d / 10), digitChar d,
        'T', digitChar (hh / 10), digitChar hh, '-', digitChar (mi / 10), digitChar mi,
        '-', digitChar (ss / 10), digitChar ss, '-', digitChar (ms / 10 / 10), digitChar (ms / 10), digitChar ms,
        '.', 'l', 'o', 'g', '2']⟩) := by
  have hb := civilFromDays_bounds (t / 1000 / 86400) (by omega) (by omega)
  have hyd : yearDigits (civilFromDays (t / 1000 / 86400)).1
      = natToDigits 4 (civilFromDays (t / 1000 / 86400)).1.toNat := by
    unfold yearDigits
    rw [if_neg (by omega), if_pos (by omega)]
  simp only [fileMsecToFileName, DateTime.toIsoString, DateTime.fromMSecsSinceEpoch,
    DateTime.msecsSinceEpoch, hyd, natToDigits_two, natToDigits_three, natToDigits_four,
    List.cons_append, List.nil_append]
  exact fileName_chars _ _ _ _ _ _ _ _ _ _ _ _ _ _ _ _ _

/-- C1, amended: for every timestamp `t` with `0 < t` inside the four-digit-year range
(before 10000-01-01T00:00:00.000), decoding the encoded file name returns `t` and no
error is raised. -/
theorem fileName_roundtrip (t : Int) (h0 : 0 < t) (h1 : t < 253402300800000) :
    fileNameToFileMsec (fileMsecToFileName t) = .ok t := by
  have hb := civilFromDays_bounds (t / 1000 / 86400) (by omega) (by omega)
  have hrt := daysFromCivil_civilFromDays (t / 1000 / 86400)
  rw [fileMsecToFileName_chars t (le_of_lt h0) h1]
  simp only
  have key : (((daysFromCivil ((civilFromDays (t / 1000 / 86400)).1.toNat : Nat)
      ((civilFromDays (t / 1000 / 86400)).2.1.toNat : Nat)
      ((civilFromDays (t / 1000 / 86400)).2.2.toNat : Nat) * 24
      + ((t / 1000 % 86400 / 3600).toNat : Nat)) * 60 + ((t / 1000 % 86400 % 3600 / 60).toNat : Nat)) * 60
      + ((t / 1000 % 86400 % 60).toNat : Nat)) * 1000 + ((t % 1000).toNat : Nat) = t := by
    rw [Int.toNat_of_nonneg (by omega), Int.toNat_of_nonneg (by omega), Int.toNat_of_nonneg (by omega),
      Int.toNat_of_nonneg (by omega), Int.toNat_of_nonneg (by omega), Int.toNat_of_nonneg (by omega),
      Int.toNat_of_nonneg (by omega), hrt]
    omega
  rw [fileNameToFileMsec_chars _ _ _ _ _ _ _ (by omega) (by omega) (by omega) (by omega) (by omega)
    (by omega) (by omega) (by rw [key]; omega), key]


/-- C1, witness of the amended round trip at `t = 1000000`. -/
theorem fileName_roundtrip_witness :
    (0 : Int) < 1000000 ∧ (1000000 : Int) < 253402300800000 ∧
      fileNameToFileMsec (fileMsecToFileName 1000000) = .ok 1000000 :=
  ⟨by decide, by decide, fileName_roundtrip 1000000 (by decide) (by decide)⟩

/-- C1, counterexample: the round trip fails at `t = 0`, where the decoder raises the
error for a name that decodes to the zero instant, and at the first instant of year
10000, where the separators are no longer at positions 13, 16 and 19. -/
theorem fileName_roundtrip_counterexample :
    fileNameToFileMsec (fileMsecToFileName 0) =
        .error ("fileNameToFileMsec(): Invalid file name: \x271970-01-01T00-00-00-000.log2\x27"
          ++ " cannot be converted to date time") ∧
      fileNameToFileMsec (fileMsecToFileName 253402300800000) ≠ .ok 253402300800000 :=
  ⟨rfl, by simp [show fileNameToFileMsec (fileMsecToFileName 253402300800000) =
    .error ("fileNameToFileMsec(): Invalid file name: \x2710000-01-01T0-:0-:0-.000.log2\x27"
          ++ " cannot be converted to date time") from rfl]⟩

/-! ## Scenario S5 and the record cap -/

/-- C3, counterexample: in scenario S5 the query with `since = 200` and the snapshot asked
for does not return three records, the header says `recordCount = 1`. -/
theorem getLog_S5_counterexample :
    (getLog envS5 dirS5 ctxS5 (paramsS5 200 true)).2.recordCount ≠ 3 ∧
      (getLog envS5 dirS5 ctxS5 (paramsS5 200 true)).1.length ≠ 3 := by
  decide

/-- C3, amended: for the journal of scenario S5, `getLog` with `since = 200` and the
snapshot asked for starts to read at file 200, whose start timestamp is `since`, and
returns only `(x,3)@210` with `recordCount = 1`; with `since = 150`, between the entries
of file 100 and the start of file 200, it returns the snapshot records `(x,1)@150` and
`(y,2)@150` followed by `(x,3)@210`, and `recordCount = 3`. The path token is the path,
or its number when the path dictionary is on. -/
theorem getLog_S5 (dict : Bool) :
    (getLog envS5 dirS5 ctxS5 (paramsS5 200 dict)).1 =
        [recordOf (if dict then RpcValue.int 1 else RpcValue.string "x")
          { epochMsec := 210, path := "x", value := RpcValue.int 3 }] ∧
      (getLog envS5 dirS5 ctxS5 (paramsS5 200 dict)).2.recordCount = 1 ∧
      (getLog envS5 dirS5 ctxS5 (paramsS5 150 dict)).1 =
        [recordOf (if dict then RpcValue.int 1 else RpcValue.string "x")
          { epochMsec := 150, path := "x", value := RpcValue.int 1 },
         recordOf (if dict then RpcValue.int 2 else RpcValue.string "y")
          { epochMsec := 150, path := "y", value := RpcValue.int 2 },
         recordOf (if dict then RpcValue.int 1 else RpcValue.string "x")
          { epochMsec := 210, path := "x", value := RpcValue.int 3 }] ∧
      (getLog envS5 dirS5 ctxS5 (paramsS5 150 dict)).2.recordCount = 3 := by
  cases dict <;> exact ⟨rfl, rfl, rfl, rfl⟩

/-- C4, failing input: with `max_record_count = 0` on the journal of scenario S5 the query
emits one record and reports `recordCount = 1` beside `recordCountLimit = 0`; the cap is
tested only after a record was pushed. -/
theorem getLog_cap_zero :
    (getLog envS5 dirS5 ctxS5 { maxRecordCount := 0 }).1.length = 1 ∧
      (getLog envS5 dirS5 ctxS5 { maxRecordCount := 0 }).2.recordCount = 1 ∧
      (getLog envS5 dirS5 ctxS5 { maxRecordCount := 0 }).2.recordCountLimit = 0 ∧
      max_rec_cnt envS5 { maxRecordCount := 0 } = 0 := by
  decide

/-! ## Append -/

/-- C5, failing input: the journal `journalEx` is consistent with the directory `dirEx`
(a scan leaves the context as it is); after the appends of an entry at 1000 and of an
entry at 200 the directory holds file 50 with the entries at 60 and 1000 and the new
file 200 with the entry at 200, so that the journal reads 60, 1000, 200. -/
theorem append_not_monotonic :
    updateJournalStatus envEx dirEx 0 journalEx.m_journalContext = journalEx.m_journalContext ∧
      ((appendAll envEx (journalEx, dirEx) [(2000, entryAt 1000), (2000, entryAt 200)]).2).map
          (fun f => (f.fileMsec, f.entries.map (fun e => e.epochMsec)))
        = [(50, [60, 1000]), (200, [200])] ∧
      (readJournal (appendAll envEx (journalEx, dirEx)
          [(2000, entryAt 1000), (2000, entryAt 200)]).2).map (fun e => e.epochMsec)
        = [60, 1000, 200] :=
  ⟨rfl, by decide, by decide⟩

/-- C6, failing input: the append of an entry at 1000 to `journalEx`, whose recent
timestamp is 60, succeeds and leaves the recent timestamp at 60, not at the effective
timestamp `max 1000 60 = 1000`. -/
theorem append_keeps_recentTimeStamp :
    (appendThrow envEx dirEx 2000 journalEx (entryAt 1000)).error = none ∧
      (append envEx dirEx 2000 journalEx (entryAt 1000)).1.m_journalContext.recentTimeStamp
        = 60 := by
  decide

/-! ## Rotation -/

/-- C8, failing input: three files of 10 bytes and a journal size limit of 20 bytes. After
the oldest file is deleted the journal size is 20, which is within the limit, yet the
loop stops only below the limit and deletes file 200 as well. -/
theorem rotateJournal_deletes_at_limit :
    ((rotateJournal envEx dirRot 400 journalRot).2.map (fun f => f.fileMsec)) = [300] ∧
      (rotateJournal envEx dirRot 400 journalRot).1.m_journalContext.files = [300] ∧
      (rotateJournal envEx dirRot 400 journalRot).1.m_journalContext.journalSize = 10 ∧
      (rotateLoop envEx 20 [100, 200, 300] 3 30 dirRot).1 = 10 := by
  decide

theorem entriesSize_nonneg (env : JournalEnv) (es : List ShvJournalEntry) :
    0 ≤ entriesSize env es := by
  unfold entriesSize
  exact Int.natCast_nonneg _

theorem dirSize_cons (env : JournalEnv) (f : JournalFile) (r : JournalDir) :
    dirSize env (f :: r) = entriesSize env f.entries + dirSize env r := by
  simp [dirSize]

theorem dirSize_nonneg (env : JournalEnv) (dir : JournalDir) : 0 ≤ dirSize env dir := by
  induction dir with
  | nil => simp [dirSize]
  | cons f r ih =>
    rw [dirSize_cons]
    have := entriesSize_nonneg env f.entries
    omega

theorem StdMap.insert_cons {K V : Type} [LinearOrder K] [StdLess K] (k1 : K) (v1 : V) (r : StdMap K V) (k : K) (v : V) :
    StdMap.insert ((k1, v1) :: r) k v =
      if k < k1 then (k, v) :: (k1, v1) :: r
      else if k1 < k then (k1, v1) :: StdMap.insert r k v
      else (k, v) :: r := by
  by_cases h1 : k < k1
  · have : StdLess.less k k1 = true := (StdLess.less_iff k k1).mpr h1
    simp [StdMap.insert, this, h1]
  · have n1 : StdLess.less k k1 = false := by
      rw [← Bool.not_eq_true]; exact fun h => h1 ((StdLess.less_iff k k1).mp h)
    by_cases h2 : k1 < k
    · have : StdLess.less k1 k = true := (StdLess.less_iff k1 k).mpr h2
      simp [StdMap.insert, this, n1, h1, h2]
    · have n2 : StdLess.less k1 k = false := by
        rw [← Bool.not_eq_true]; exact fun h => h2 ((StdLess.less_iff k1 k).mp h)
      simp [StdMap.insert, n1, n2, h1, h2]

theorem StdMap.find_insert {K V : Type} [LinearOrder K] [StdLess K] [DecidableEq K] (m : StdMap K V) (k : K) (v : V) (k2 : K) :
    StdMap.find (StdMap.insert m k v) k2 = if k2 = k then some v else StdMap.find m k2 := by
  induction m with
  | nil =>
    by_cases h : k2 = k
    · simp [StdMap.insert, StdMap.find, h]
    · have : ¬ k = k2 := fun e => h e.symm
      simp [StdMap.insert, StdMap.find, h, this]
  | cons a r ih =>
    obtain ⟨k1, v1⟩ := a
    rw [StdMap.insert_cons]
    by_cases h1 : k < k1
    · rw [if_pos h1]
      by_cases h : k2 = k
      · simp [StdMap.find, h]
      · have : ¬ k = k2 := fun e => h e.symm
        simp [StdMap.find, h, this]
    · rw [if_neg h1]
      by_cases h2 : k1 < k
      · rw [if_pos h2]
        by_cases h : k2 = k
        · subst h
          have : ¬ k1 = k2 := ne_of_lt h2
          simp [StdMap.find, this, ih]
        · by_cases h3 : k1 = k2
          · simp [StdMap.find, h3, h]
          · simp [StdMap.find, h3, h, ih]
      · rw [if_neg h2]
        have hk : k1 = k := le_antisymm (not_lt.mp h1) (not_lt.mp h2)
        subst hk
        by_cases h : k2 = k1
        · simp [StdMap.find, h]
        · have : ¬ k1 = k2 := fun e => h e.symm
          simp [StdMap.find, h, this]

theorem StdMap.mem_keys_insert {K V : Type} [LinearOrder K] [StdLess K] (m : StdMap K V) (k : K) (v : V) (k2 : K) :
    k2 ∈ (StdMap.insert m k v).map Prod.fst ↔ k2 = k ∨ k2 ∈ m.map Prod.fst := by
  induction m with
  | nil => simp [StdMap.insert]
  | cons a r ih =>
    obtain ⟨k1, v1⟩ := a
    rw [StdMap.insert_cons]
    by_cases h1 : k < k1
    · simp [h1]
    · rw [if_neg h1]
      by_cases h2 : k1 < k
      · rw [if_pos h2]
        simp only [List.map_cons, List.mem_cons, ih]
        tauto
      · rw [if_neg h2]
        have hk : k1 = k := le_antisymm (not_lt.mp h1) (not_lt.mp h2)
        subst hk
        simp

theorem StdMap.sorted_insert {K V : Type} [LinearOrder K] [StdLess K] (m : StdMap K V) (k : K) (v : V)
    (hs : (m.map Prod.fst).Sorted (fun a b => a < b)) :
    ((StdMap.insert m k v).map Prod.fst).Sorted (fun a b => a < b) := by
  induction m with
  | nil => simp [StdMap.insert]
  | cons a r ih =>
    obtain ⟨k1, v1⟩ := a
    rw [StdMap.insert_cons]
    have hs1 : ∀ b ∈ r.map Prod.fst, k1 < b := by
      intro b hb
      exact List.rel_of_sorted_cons hs b hb
    have hs2 : (r.map Prod.fst).Sorted (fun a b => a < b) := hs.of_cons
    by_cases h1 : k < k1
    · rw [if_pos h1]
      simp only [List.map_cons]
      refine List.sorted_cons.mpr ⟨?_, hs⟩
      intro b hb
      simp only [List.map_cons, List.mem_cons] at hb
      rcases hb with hb | hb
      · rw [hb]; exact h1
      · exact lt_trans h1 (hs1 b hb)
    · rw [if_neg h1]
      by_cases h2 : k1 < k
      · rw [if_pos h2]
        simp only [List.map_cons]
        refine List.sorted_cons.mpr ⟨?_, ih hs2⟩
        intro b hb
        rcases (StdMap.mem_keys_insert r k v b).mp hb with hb | hb
        · rw [hb]; exact h2
        · exact hs1 b hb
      · rw [if_neg h2]
        have hk : k1 = k := le_antisymm (not_lt.mp h1) (not_lt.mp h2)
        subst hk
        exact hs

theorem StdMap.find_eq_none {K V : Type} [DecidableEq K] (m : StdMap K V) (k : K) :
    StdMap.find m k = none ↔ k ∉ m.map Prod.fst := by
  induction m with
  | nil => simp [StdMap.find]
  | cons a r ih =>
    obtain ⟨k1, v1⟩ := a
    by_cases h : k1 = k
    · simp [StdMap.find, h]
    · have : ¬ k = k1 := fun e => h e.symm
      simp [StdMap.find, h, ih, this]

theorem StdMap.mem_of_find {K V : Type} [DecidableEq K] (m : StdMap K V) (k : K) (v : V) (h : StdMap.find m k = some v) :
    (k, v) ∈ m := by
  induction m with
  | nil => simp [StdMap.find] at h
  | cons a r ih =>
    obtain ⟨k1, v1⟩ := a
    by_cases hk : k1 = k
    · simp only [StdMap.find, hk, if_true, Option.some.injEq] at h
      simp [hk, h]
    · simp only [StdMap.find, hk, if_false] at h
      exact List.mem_cons_of_mem _ (ih h)

theorem StdMap.find_of_mem {K V : Type} [DecidableEq K] (m : StdMap K V) (k : K) (v : V)
    (hn : (m.map Prod.fst).Nodup) (h : (k, v) ∈ m) : StdMap.find m k = some v := by
  induction m with
  | nil => simp at h
  | cons a r ih =>
    obtain ⟨k1, v1⟩ := a
    simp only [List.map_cons, List.nodup_cons] at hn
    simp only [List.mem_cons, Prod.mk.injEq] at h
    rcases h with ⟨h1, h2⟩ | h
    · simp [StdMap.find, h1, h2]
    · have hk : k1 ≠ k := by
        intro e
        apply hn.1
        rw [e]
        exact List.mem_map_of_mem Prod.fst h
      simp only [StdMap.find, hk, if_false]
      exact ih hn.2 h

theorem StdMap.ext_sorted {K V : Type} [LinearOrder K] [DecidableEq K] (m1 m2 : StdMap K V)
    (h1 : (m1.map Prod.fst).Sorted (fun a b => a < b))
    (h2 : (m2.map Prod.fst).Sorted (fun a b => a < b))
    (h : ∀ k, StdMap.find m1 k = StdMap.find m2 k) : m1 = m2 := by
  induction m1 generalizing m2 with
  | nil =>
    cases m2 with
    | nil => rfl
    | cons b r2 =>
      have := h b.1
      simp [StdMap.find] at this
  | cons a r1 ih =>
    cases m2 with
    | nil =>
      have := h a.1
      simp [StdMap.find] at this
    | cons b r2 =>
      obtain ⟨ka, va⟩ := a
      obtain ⟨kb, vb⟩ := b
      have ha1 : ∀ c ∈ r1.map Prod.fst, ka < c := fun c hc => List.rel_of_sorted_cons h1 c hc
      have hb1 : ∀ c ∈ r2.map Prod.fst, kb < c := fun c hc => List.rel_of_sorted_cons h2 c hc
      have hkk : ka = kb := by
        have e1 := h ka
        have e2 := h kb
        simp only [StdMap.find, if_true] at e1 e2
        by_contra hne
        have hne2 : ¬ kb = ka := fun e => hne e.symm
        rw [if_neg hne2] at e1
        rw [if_neg hne] at e2
        have m1 : ka ∈ r2.map Prod.fst := by
          by_contra hc
          rw [(StdMap.find_eq_none r2 ka).mpr hc] at e1
          simp at e1
        have m2 : kb ∈ r1.map Prod.fst := by
          by_contra hc
          rw [(StdMap.find_eq_none r1 kb).mpr hc] at e2
          simp at e2
        exact lt_asymm (ha1 kb m2) (hb1 ka m1)
      subst hkk
      have hvv : va = vb := by
        have e1 := h ka
        simpa [StdMap.find] using e1
      subst hvv
      have htl : r1 = r2 := by
        apply ih r2 h1.of_cons h2.of_cons
        intro k
        by_cases hk : ka = k
        · subst hk
          rw [(StdMap.find_eq_none r1 ka).mpr (fun hc => lt_irrefl _ (ha1 ka hc)),
            (StdMap.find_eq_none r2 ka).mpr (fun hc => lt_irrefl _ (hb1 ka hc))]
        · have := h k
          simpa [StdMap.find, hk] using this
      rw [htl]

/-! ## The query loop -/

theorem make_path_shared_snapshot (params : ShvGetLogParams) (st : GetLogState) (p : String) :
    (make_path_shared params st p).2.snapshot = st.snapshot ∧
      (make_path_shared params st p).2.rec_cnt = st.rec_cnt ∧
      (make_path_shared params st p).2.log = st.log := by
  by_cases h : (RpcValueMap_value st.path_cache p).isValid = true
  · simp only [make_path_shared, if_pos h, and_self]
  · simp only [make_path_shared, if_neg h, and_self]

theorem make_path_shared_setSnapshot (params : ShvGetLogParams) (st : GetLogState) (p : String)
    (m : StdMap String ShvJournalEntry) :
    make_path_shared params (st.setSnapshot m) p
      = ((make_path_shared params st p).1, (make_path_shared params st p).2.setSnapshot m) := by
  by_cases h : (RpcValueMap_value st.path_cache p).isValid = true
  · simp only [make_path_shared, GetLogState.setSnapshot, if_pos h]
  · simp only [make_path_shared, GetLogState.setSnapshot, if_neg h]

theorem pushRecord_setSnapshot (params : ShvGetLogParams) (st : GetLogState) (e : ShvJournalEntry)
    (m : StdMap String ShvJournalEntry) :
    pushRecord params (st.setSnapshot m) e = (pushRecord params st e).setSnapshot m := by
  unfold pushRecord
  rw [make_path_shared_setSnapshot]
  rfl

theorem pushRecord_snapshot (params : ShvGetLogParams) (st : GetLogState) (e : ShvJournalEntry) :
    (pushRecord params st e).snapshot = st.snapshot := by
  unfold pushRecord
  exact (make_path_shared_snapshot params st e.path).1

theorem pushRecord_rec_cnt (params : ShvGetLogParams) (st : GetLogState) (e : ShvJournalEntry) :
    (pushRecord params st e).rec_cnt = st.rec_cnt + 1 := by
  unfold pushRecord
  simp only [(make_path_shared_snapshot params st e.path).2.1]

theorem pushAll_nil (params : ShvGetLogParams) (st : GetLogState) : pushAll params st [] = st :=
  rfl

theorem pushAll_cons (params : ShvGetLogParams) (st : GetLogState) (e : ShvJournalEntry)
    (es : List ShvJournalEntry) :
    pushAll params st (e :: es) = pushAll params (pushRecord params st e) es := rfl

theorem pushAll_append (params : ShvGetLogParams) (st : GetLogState)
    (es1 es2 : List ShvJournalEntry) :
    pushAll params st (es1 ++ es2) = pushAll params (pushAll params st es1) es2 := by
  unfold pushAll
  rw [List.foldl_append]

theorem pushAll_setSnapshot (params : ShvGetLogParams) (es : List ShvJournalEntry) :
    ∀ (st : GetLogState) (m : StdMap String ShvJournalEntry),
      pushAll params (st.setSnapshot m) es = (pushAll params st es).setSnapshot m := by
  induction es with
  | nil => intro st m; rfl
  | cons e r ih =>
    intro st m
    rw [pushAll_cons, pushAll_cons, pushRecord_setSnapshot, ih]

theorem pushAll_snapshot (params : ShvGetLogParams) (es : List ShvJournalEntry) :
    ∀ st : GetLogState, (pushAll params st es).snapshot = st.snapshot := by
  induction es with
  | nil => intro st; rfl
  | cons e r ih =>
    intro st
    rw [pushAll_cons, ih, pushRecord_snapshot]

theorem pushAll_rec_cnt (params : ShvGetLogParams) (es : List ShvJournalEntry) :
    ∀ st : GetLogState, (pushAll params st es).rec_cnt = st.rec_cnt + es.length := by
  induction es with
  | nil => intro st; simp [pushAll_nil]
  | cons e r ih =>
    intro st
    rw [pushAll_cons, ih, pushRecord_rec_cnt]
    simp only [List.length_cons, Nat.cast_add, Nat.cast_one]
    ring

theorem setSnapshot_self (st : GetLogState) : st.setSnapshot st.snapshot = st := rfl

theorem setSnapshot_setSnapshot (st : GetLogState) (m1 m2 : StdMap String ShvJournalEntry) :
    (st.setSnapshot m1).setSnapshot m2 = st.setSnapshot m2 := rfl

/-- The snapshot loop pushes the first `k` entries of the snapshot; it pushes all of them
when it does not reach `log_finish` and when the cap leaves room for all of them. -/
theorem pushSnapshot_spec (params : ShvGetLogParams) (cap : Int)
    (l : List (String × ShvJournalEntry)) :
    ∀ st : GetLogState, ∃ k, k ≤ l.length ∧
      (pushSnapshot params cap st l).1 = pushAll params st ((l.take k).map Prod.snd) ∧
      ((pushSnapshot params cap st l).2 = false → k = l.length) ∧
      (st.rec_cnt + l.length ≤ cap → k = l.length) := by
  induction l with
  | nil => intro st; exact ⟨0, le_refl _, rfl, fun _ => rfl, fun _ => rfl⟩
  | cons kv r ih =>
    intro st
    by_cases hc : (pushRecord params st kv.2).rec_cnt ≥ cap
    · have e : pushSnapshot params cap st (kv :: r) = (pushRecord params st kv.2, true) := by
        simp only [pushSnapshot, if_pos hc]
      rw [e]
      refine ⟨1, by simp, rfl, by simp, ?_⟩
      intro hle
      rw [pushRecord_rec_cnt] at hc
      simp only [List.length_cons, Nat.cast_add, Nat.cast_one] at hle ⊢
      omega
    · have e : pushSnapshot params cap st (kv :: r)
          = pushSnapshot params cap (pushRecord params st kv.2) r := by
        simp only [pushSnapshot, if_neg hc]
      rw [e]
      obtain ⟨k, hk, h1, h2, h3⟩ := ih (pushRecord params st kv.2)
      refine ⟨k + 1, by simpa using hk, ?_, ?_, ?_⟩
      · rw [h1]; rfl
      · intro hf; rw [h2 hf]; rfl
      · intro hle
        rw [h3]
        · rfl
        · rw [pushRecord_rec_cnt]
          simp only [List.length_cons, Nat.cast_add, Nat.cast_one] at hle
          omega

theorem accepted_false_iff (env : GetLogEnv) (params : ShvGetLogParams) (e : ShvJournalEntry) :
    accepted env params e = false ↔
      (!params.pathPattern.isEmpty && !env.pattern_matcher params e.path e.domain) = true := by
  unfold accepted
  cases params.pathPattern.isEmpty <;> cases env.pattern_matcher params e.path e.domain <;> simp

theorem processEntry_rejected (env : GetLogEnv) (params : ShvGetLogParams)
    (since until_ cap : Int) (st : GetLogState) (e : ShvJournalEntry)
    (h : accepted env params e = false) :
    processEntry env params since until_ cap st e = (st, false) := by
  have h2 := (accepted_false_iff env params e).mp h
  simp only [processEntry, if_pos h2]

theorem processEntry_before (env : GetLogEnv) (params : ShvGetLogParams)
    (since until_ cap : Int) (st : GetLogState) (e : ShvJournalEntry)
    (hb : isBefore since e) :
    processEntry env params since until_ cap st e
      = (st.setSnapshot (snapshotStep env params since st.snapshot e), false) := by
  by_cases ha : accepted env params e = true
  · have h2 : ¬ ((!params.pathPattern.isEmpty && !env.pattern_matcher params e.path e.domain)
        = true) := by
      rw [← accepted_false_iff, ha]; simp
    have hb2 : since > 0 ∧ e.epochMsec < since := hb
    by_cases hw : params.withSnapshot = true
    · by_cases hc : e.sampleType = SampleType.Continuous
      · simp only [processEntry, if_neg h2, if_pos hb2, if_pos hw, if_pos hc, snapshotStep, ha,
          hw, hc, and_self, if_true, GetLogState.setSnapshot]
      · simp [processEntry, h2, hb2, hw, hc, snapshotStep, ha, GetLogState.setSnapshot]
    · have hw2 : params.withSnapshot = false := by simpa using hw
      simp [processEntry, h2, hb2, hw2, snapshotStep, ha, GetLogState.setSnapshot]
  · have ha2 : accepted env params e = false := by simpa using ha
    rw [processEntry_rejected env params since until_ cap st e ha2]
    simp only [snapshotStep, ha2, Bool.false_eq_true, false_and, if_false, GetLogState.setSnapshot]

theorem readEntries_before (env : GetLogEnv) (params : ShvGetLogParams)
    (since until_ cap : Int) (l : List ShvJournalEntry) :
    ∀ st : GetLogState, (∀ e ∈ l, isBefore since e) →
      readEntries env params since until_ cap st l
        = (st.setSnapshot (snapshotOf env params since st.snapshot l), false) := by
  induction l with
  | nil => intro st _; rfl
  | cons e r ih =>
    intro st h
    have h1 := processEntry_before env params since until_ cap st e (h e (List.mem_cons_self _ _))
    simp only [readEntries, h1, Bool.false_eq_true, if_false]
    rw [ih _ (fun x hx => h x (List.mem_cons_of_mem _ hx))]
    rfl

theorem readEntries_append (env : GetLogEnv) (params : ShvGetLogParams)
    (since until_ cap : Int) (l1 l2 : List ShvJournalEntry) :
    ∀ st : GetLogState,
      readEntries env params since until_ cap st (l1 ++ l2)
        = if (readEntries env params since until_ cap st l1).2 = true then
            readEntries env params since until_ cap st l1
          else readEntries env params since until_ cap
            (readEntries env params since until_ cap st l1).1 l2 := by
  induction l1 with
  | nil => intro st; simp [readEntries]
  | cons e r ih =>
    intro st
    by_cases hf : (processEntry env params since until_ cap st e).2 = true
    · simp only [List.cons_append, readEntries, if_pos hf]
    · simp only [List.cons_append, readEntries, if_neg hf]
      exact ih _

theorem readFiles_flatten (env : GetLogEnv) (dir : JournalDir) (params : ShvGetLogParams)
    (since until_ cap : Int) (files : List Int) :
    ∀ st : GetLogState,
      readFiles env dir params since until_ cap st files
        = (readEntries env params since until_ cap st
            ((files.map (readFile dir)).flatten)).1 := by
  induction files with
  | nil => intro st; rfl
  | cons f r ih =>
    intro st
    simp only [readFiles, List.map_cons, List.flatten_cons]
    rw [readEntries_append]
    by_cases hf : (readEntries env params since until_ cap st (readFile dir f)).2 = true
    · simp only [if_pos hf]
    · simp only [if_neg hf]
      exact ih _

/-! ## Entries at or after the start instant -/

theorem snapBlock_of_snapshot_eq (params : ShvGetLogParams) (st1 st2 : GetLogState)
    (h : st1.snapshot = st2.snapshot) : snapBlock params st1 = snapBlock params st2 := by
  unfold snapBlock; rw [h]

theorem snapBlock_setSnapshot_nil (params : ShvGetLogParams) (st : GetLogState) :
    snapBlock params (st.setSnapshot []) = [] := by
  simp [snapBlock, GetLogState.setSnapshot]

/-- The body of the loop for an entry that passes the filter and does not lie before the
start instant: a part of the snapshot block is pushed, then possibly the entry. -/
theorem processEntry_post (env : GetLogEnv) (params : ShvGetLogParams)
    (since until_ cap : Int) (st : GetLogState) (e : ShvJournalEntry)
    (ha : accepted env params e = true) (hb : ¬ isBefore since e) :
    ∃ (k : Nat) (em : List ShvJournalEntry), k ≤ (snapBlock params st).length ∧
      (em = [] ∨ (em = [e] ∧ (until_ = 0 ∨ e.epochMsec < until_))) ∧
      (processEntry env params since until_ cap st e).1.setSnapshot []
        = (pushAll params st ((snapBlock params st).take k ++ em)).setSnapshot [] ∧
      ((processEntry env params since until_ cap st e).2 = false →
        snapBlock params (processEntry env params since until_ cap st e).1 = []) ∧
      (st.rec_cnt + (snapBlock params st).length ≤ cap → k = (snapBlock params st).length) ∧
      ((processEntry env params since until_ cap st e).1.snapshot = st.snapshot ∨
        (processEntry env params since until_ cap st e).1.snapshot = []) := by
  have h2 : ¬ ((!params.pathPattern.isEmpty && !env.pattern_matcher params e.path e.domain)
      = true) := by
    rw [← accepted_false_iff, ha]; simp
  have hb2 : ¬ (since > 0 ∧ e.epochMsec < since) := hb
  by_cases hc : (params.withSnapshot && !st.snapshot.isEmpty) = true
  · have hsb : snapBlock params st = st.snapshot.map Prod.snd := by
      simp only [snapBlock, if_pos hc]
    obtain ⟨k, hk, h1, hfin, hcap⟩ := pushSnapshot_spec params cap st.snapshot st
    rw [List.map_take, ← hsb] at h1
    have hlen : (snapBlock params st).length = st.snapshot.length := by
      rw [hsb, List.length_map]
    rw [← hlen] at hk hfin hcap
    by_cases hr : (pushSnapshot params cap st st.snapshot).2 = true
    · have e1 : processEntry env params since until_ cap st e
          = pushSnapshot params cap st st.snapshot := by
        simp only [processEntry, if_neg h2, if_neg hb2, if_pos hc, if_pos hr]
      refine ⟨k, [], hk, Or.inl rfl, ?_, ?_, hcap, Or.inl ?_⟩
      · rw [e1, h1, List.append_nil]
      · intro hf
        rw [e1, hr] at hf
        exact absurd hf (by simp)
      · rw [e1, h1, pushAll_snapshot]
    · have hr2 : (pushSnapshot params cap st st.snapshot).2 = false := by simpa using hr
      have hkl := hfin hr2
      have htake : (snapBlock params st).take k = snapBlock params st := by
        rw [hkl]; exact List.take_length _
      by_cases hu : until_ = 0 ∨ e.epochMsec < until_
      · have e1 : processEntry env params since until_ cap st e
            = (pushRecord params ((pushSnapshot params cap st st.snapshot).1.setSnapshot []) e,
                decide ((pushRecord params
                  ((pushSnapshot params cap st st.snapshot).1.setSnapshot []) e).rec_cnt ≥ cap)) := by
          simp only [processEntry, if_neg h2, if_neg hb2, if_pos hc, if_neg hr, if_pos hu,
            Bool.false_eq_true, if_false, GetLogState.setSnapshot]
        refine ⟨k, [e], hk, Or.inr ⟨rfl, hu⟩, ?_, ?_, hcap, Or.inr ?_⟩
        · rw [e1, pushRecord_setSnapshot, h1, pushAll_append, setSnapshot_setSnapshot, htake]
          rfl
        · intro _
          rw [e1, pushRecord_setSnapshot]
          exact snapBlock_setSnapshot_nil _ _
        · rw [e1, pushRecord_setSnapshot]
          rfl
      · have e1 : processEntry env params since until_ cap st e
            = ((pushSnapshot params cap st st.snapshot).1.setSnapshot [], true) := by
          simp only [processEntry, if_neg h2, if_neg hb2, if_pos hc, if_neg hr, if_neg hu,
            Bool.false_eq_true, if_false, GetLogState.setSnapshot]
        refine ⟨k, [], hk, Or.inl rfl, ?_, ?_, hcap, Or.inr ?_⟩
        · rw [e1, h1, List.append_nil, setSnapshot_setSnapshot]
        · intro hf
          rw [e1] at hf
          exact absurd hf (by simp)
        · rw [e1]
          rfl
  · have hsb : snapBlock params st = [] := by
      simp only [snapBlock, if_neg hc]
    rw [hsb]
    by_cases hu : until_ = 0 ∨ e.epochMsec < until_
    · have e1 : processEntry env params since until_ cap st e
          = (pushRecord params st e, decide ((pushRecord params st e).rec_cnt ≥ cap)) := by
        simp only [processEntry, if_neg h2, if_neg hb2, if_neg hc, if_pos hu,
          Bool.false_eq_true, if_false]
      refine ⟨0, [e], le_refl _, Or.inr ⟨rfl, hu⟩, ?_, ?_, fun _ => rfl, Or.inl ?_⟩
      · rw [e1]; rfl
      · intro _
        rw [e1, snapBlock_of_snapshot_eq params _ st (pushRecord_snapshot params st e), hsb]
      · rw [e1]
        exact pushRecord_snapshot params st e
    · have e1 : processEntry env params since until_ cap st e = (st, true) := by
        simp only [processEntry, if_neg h2, if_neg hb2, if_neg hc, if_neg hu,
          Bool.false_eq_true, if_false]
      refine ⟨0, [], le_refl _, Or.inl rfl, ?_, ?_, fun _ => rfl, Or.inl ?_⟩
      · rw [e1]; rfl
      · intro hf
        rw [e1] at hf
        exact absurd hf (by simp)
      · rw [e1]

theorem setSnapshot_pushAll_congr (params : ShvGetLogParams) (st1 st2 : GetLogState)
    (es : List ShvJournalEntry) (h : st1.setSnapshot [] = st2.setSnapshot []) :
    (pushAll params st1 es).setSnapshot [] = (pushAll params st2 es).setSnapshot [] := by
  rw [← pushAll_setSnapshot, ← pushAll_setSnapshot, h]

/-- The loop over entries that do not lie before the start instant: a part of the snapshot
block is pushed, then entries of the list in their order. -/
theorem readEntries_post (env : GetLogEnv) (params : ShvGetLogParams)
    (since until_ cap : Int) (l : List ShvJournalEntry) :
    ∀ st : GetLogState, (∀ e ∈ l, ¬ isBefore since e) →
      ∃ (k : Nat) (w : List ShvJournalEntry), k ≤ (snapBlock params st).length ∧
        w.Sublist l ∧
        (∀ e ∈ w, accepted env params e = true ∧ (until_ = 0 ∨ e.epochMsec < until_)) ∧
        (readEntries env params since until_ cap st l).1.setSnapshot []
          = (pushAll params st ((snapBlock params st).take k ++ w)).setSnapshot [] ∧
        ((∃ e ∈ l, accepted env params e = true) →
          st.rec_cnt + (snapBlock params st).length ≤ cap →
            k = (snapBlock params st).length) := by
  induction l with
  | nil =>
    intro st _
    refine ⟨0, [], Nat.zero_le _, List.Sublist.refl _, by simp, ?_, ?_⟩
    · simp [readEntries, pushAll_nil]
    · intro ⟨e, he, _⟩
      simp at he
  | cons e r ih =>
    intro st hl
    have hr : ∀ x ∈ r, ¬ isBefore since x := fun x hx => hl x (List.mem_cons_of_mem _ hx)
    by_cases ha : accepted env params e = true
    · obtain ⟨k, em, hk, hem, h1, h2, h3, -⟩ :=
        processEntry_post env params since until_ cap st e ha (hl e (List.mem_cons_self _ _))
      have hemsub : ∀ w2 : List ShvJournalEntry, w2.Sublist r → (em ++ w2).Sublist (e :: r) := by
        intro w2 hw2
        rcases hem with hem | ⟨hem, -⟩
        · rw [hem]; exact List.Sublist.cons _ hw2
        · rw [hem]; exact List.Sublist.cons₂ _ hw2
      have hemacc : ∀ x ∈ em, accepted env params x = true ∧ (until_ = 0 ∨ x.epochMsec < until_) := by
        intro x hx
        rcases hem with hem | ⟨hem, hu⟩
        · rw [hem] at hx; simp at hx
        · rw [hem] at hx
          simp only [List.mem_singleton] at hx
          rw [hx]; exact ⟨ha, hu⟩
      by_cases hf : (processEntry env params since until_ cap st e).2 = true
      · have e1 : readEntries env params since until_ cap st (e :: r)
            = processEntry env params since until_ cap st e := by
          simp only [readEntries, if_pos hf]
        refine ⟨k, em, hk, ?_, hemacc, ?_, fun _ hc => h3 hc⟩
        · simpa using hemsub [] (List.nil_sublist _)
        · rw [e1, h1]
      · have hf2 : (processEntry env params since until_ cap st e).2 = false := by simpa using hf
        have e1 : readEntries env params since until_ cap st (e :: r)
            = readEntries env params since until_ cap
                (processEntry env params since until_ cap st e).1 r := by
          simp only [readEntries, if_neg hf]
        obtain ⟨k2, w2, hk2, hw2, hacc2, i1, -⟩ :=
          ih (processEntry env params since until_ cap st e).1 hr
        rw [h2 hf2] at hk2 i1
        have hk0 : k2 = 0 := by simpa using hk2
        subst hk0
        simp only [List.take_zero, List.nil_append] at i1
        refine ⟨k, em ++ w2, hk, hemsub w2 hw2, ?_, ?_, fun _ hc => h3 hc⟩
        · intro x hx
          rcases List.mem_append.mp hx with hx | hx
          · exact hemacc x hx
          · exact hacc2 x hx
        · rw [e1, i1, ← List.append_assoc, pushAll_append params st]
          exact setSnapshot_pushAll_congr params _ _ w2 h1
    · have ha2 : accepted env params e = false := by simpa using ha
      have e1 : readEntries env params since until_ cap st (e :: r)
          = readEntries env params since until_ cap st r := by
        simp only [readEntries, processEntry_rejected env params since until_ cap st e ha2,
          Bool.false_eq_true, if_false]
      obtain ⟨k, w, hk, hw, hacc, i1, i2⟩ := ih st hr
      refine ⟨k, w, hk, List.Sublist.cons _ hw, hacc, ?_, ?_⟩
      · rw [e1, i1]
      · intro ⟨x, hx, hxa⟩ hc
        apply i2 _ hc
        simp only [List.mem_cons] at hx
        rcases hx with hx | hx
        · rw [hx] at hxa; rw [hxa] at ha; exact absurd rfl ha
        · exact ⟨x, hx, hxa⟩

/-! ## Path cache and path dictionary -/

theorem tokenOf_isValid (params : ShvGetLogParams) (ids : List String) (p : String) :
    (tokenOf params ids p).isValid = true := by
  unfold tokenOf
  split_ifs <;> rfl

theorem tokenOf_append_of_mem (params : ShvGetLogParams) (ids : List String) (p q : String)
    (h : q ∈ ids) : tokenOf params (ids ++ [p]) q = tokenOf params ids q := by
  unfold tokenOf
  rw [List.indexOf_append_of_mem h]

theorem make_path_shared_hit (params : ShvGetLogParams) (st : GetLogState) (p : String)
    (h : (RpcValueMap_value st.path_cache p).isValid = true) :
    make_path_shared params st p = (RpcValueMap_value st.path_cache p, st) := by
  simp only [make_path_shared, if_pos h]

theorem make_path_shared_miss (params : ShvGetLogParams) (st : GetLogState) (p : String)
    (h : ¬ ((RpcValueMap_value st.path_cache p).isValid = true)) :
    make_path_shared params st p =
      (if params.withPathsDict = true then RpcValue.int (st.max_path_id + 1)
        else RpcValue.string p,
       { st with
         max_path_id := if params.withPathsDict = true then st.max_path_id + 1
           else st.max_path_id
         path_cache := StdMap.insert st.path_cache p
           (if params.withPathsDict = true then RpcValue.int (st.max_path_id + 1)
             else RpcValue.string p) }) := by
  by_cases hd : params.withPathsDict = true
  · simp only [make_path_shared, if_neg h, hd, if_true]
  · simp only [make_path_shared, if_neg h, hd, if_false]
    simp

theorem CacheInv_init (params : ShvGetLogParams) : CacheInv params {} [] [] := by
  refine ⟨rfl, List.nodup_nil, ?_, fun _ => rfl, ?_, ?_⟩
  · intro p; simp
  · intro p; simp [StdMap.find]
  · simp

theorem CacheInv_pushRecord (params : ShvGetLogParams) (st : GetLogState)
    (es : List ShvJournalEntry) (ids : List String) (e : ShvJournalEntry)
    (h : CacheInv params st es ids) :
    CacheInv params (pushRecord params st e) (es ++ [e])
      (if e.path ∈ ids then ids else ids ++ [e.path]) := by
  obtain ⟨hlog, hnd, hids, hmax, hfind, hsort⟩ := h
  by_cases hp : e.path ∈ ids
  · rw [if_pos hp]
    have hv : RpcValueMap_value st.path_cache e.path = tokenOf params ids e.path := by
      simp only [RpcValueMap_value, hfind e.path, if_pos hp]
    have hvalid : (RpcValueMap_value st.path_cache e.path).isValid = true := by
      rw [hv]; exact tokenOf_isValid _ _ _
    have e1 : pushRecord params st e =
        { st with
          log := st.log ++ [recordOf (tokenOf params ids e.path) e]
          rec_cnt := st.rec_cnt + 1
          first_record_msec := if st.first_record_msec = 0 then e.epochMsec
            else st.first_record_msec
          last_record_msec := e.epochMsec } := by
      simp only [pushRecord, make_path_shared_hit params st e.path hvalid, hv]
    rw [e1]
    refine ⟨?_, hnd, ?_, hmax, hfind, hsort⟩
    · simp only [hlog, List.map_append, List.map_cons, List.map_nil]
    · intro p
      rw [hids p]
      constructor
      · rintro ⟨x, hx, hxp⟩
        exact ⟨x, List.mem_append_left _ hx, hxp⟩
      · rintro ⟨x, hx, hxp⟩
        rcases List.mem_append.mp hx with hx | hx
        · exact ⟨x, hx, hxp⟩
        · simp only [List.mem_singleton] at hx
          rw [hx] at hxp
          rw [← hxp]
          exact (hids e.path).mp hp
  · rw [if_neg hp]
    have hv : RpcValueMap_value st.path_cache e.path = RpcValue.invalid := by
      simp only [RpcValueMap_value, hfind e.path, if_neg hp]
    have hvalid : ¬ ((RpcValueMap_value st.path_cache e.path).isValid = true) := by
      rw [hv]; simp [RpcValue.isValid]
    have htok : (if params.withPathsDict = true then RpcValue.int (st.max_path_id + 1)
        else RpcValue.string e.path) = tokenOf params (ids ++ [e.path]) e.path := by
      unfold tokenOf
      by_cases hd : params.withPathsDict = true
      · rw [if_pos hd, if_pos hd, hmax hd, List.indexOf_append_of_not_mem hp]
        simp
      · rw [if_neg hd, if_neg hd]
    have e1 : pushRecord params st e =
        { st with
          log := st.log ++ [recordOf (tokenOf params (ids ++ [e.path]) e.path) e]
          rec_cnt := st.rec_cnt + 1
          first_record_msec := if st.first_record_msec = 0 then e.epochMsec
            else st.first_record_msec
          last_record_msec := e.epochMsec
          max_path_id := if params.withPathsDict = true then st.max_path_id + 1
            else st.max_path_id
          path_cache := StdMap.insert st.path_cache e.path
            (tokenOf params (ids ++ [e.path]) e.path) } := by
      simp only [pushRecord, make_path_shared_miss params st e.path hvalid, htok]
    rw [e1]
    refine ⟨?_, ?_, ?_, ?_, ?_, ?_⟩
    · simp only [hlog, List.map_append, List.map_cons, List.map_nil]
      congr 1
      apply List.map_congr_left
      intro x hx
      have : x.path ∈ ids := (hids x.path).mpr ⟨x, hx, rfl⟩
      rw [tokenOf_append_of_mem params ids e.path x.path this]
    · rw [List.nodup_append]
      refine ⟨hnd, List.nodup_singleton _, ?_⟩
      intro a ha hb
      simp only [List.mem_singleton] at hb
      rw [hb] at ha
      exact hp ha
    · intro p
      simp only [List.mem_append, List.mem_singleton, hids p]
      constructor
      · rintro (⟨x, hx, hxp⟩ | h)
        · exact ⟨x, Or.inl hx, hxp⟩
        · exact ⟨e, Or.inr rfl, h.symm⟩
      · rintro ⟨x, hx | hx, hxp⟩
        · exact Or.inl ⟨x, hx, hxp⟩
        · right; rw [← hxp, hx]
    · intro hd
      simp only [if_pos hd, hmax hd, List.length_append, List.length_singleton]
      push_cast
      rfl
    · intro p
      simp only [StdMap.find_insert, hfind p, List.mem_append, List.mem_singleton]
      by_cases hpe : p = e.path
      · simp [hpe]
      · by_cases hpi : p ∈ ids
        · simp only [hpe, hpi, if_false, if_true, true_or]
          rw [tokenOf_append_of_mem params ids e.path p hpi]
        · simp [hpe, hpi]
    · exact StdMap.sorted_insert _ _ _ hsort

theorem CacheInv_pushAll (params : ShvGetLogParams) (es2 : List ShvJournalEntry) :
    ∀ (st : GetLogState) (es : List ShvJournalEntry) (ids : List String),
      CacheInv params st es ids →
      ∃ ids2, CacheInv params (pushAll params st es2) (es ++ es2) ids2 := by
  induction es2 with
  | nil => intro st es ids h; exact ⟨ids, by simpa [pushAll_nil] using h⟩
  | cons e r ih =>
    intro st es ids h
    obtain ⟨ids2, h2⟩ := ih _ _ _ (CacheInv_pushRecord params st es ids e h)
    exact ⟨ids2, by simpa [pushAll_cons] using h2⟩

theorem numbered_keys_ge (ids : List String) :
    ∀ (n k : Int), k ∈ (numbered n ids).map Prod.fst → n ≤ k := by
  induction ids with
  | nil => intro n k h; simp [numbered] at h
  | cons q r ih =>
    intro n k h
    simp only [numbered, List.map_cons, List.mem_cons] at h
    rcases h with h | h
    · omega
    · have := ih (n + 1) k h
      omega

theorem numbered_sorted (ids : List String) :
    ∀ n : Int, ((numbered n ids).map Prod.fst).Sorted (fun a b => a < b) := by
  induction ids with
  | nil => intro n; simp [numbered]
  | cons q r ih =>
    intro n
    simp only [numbered, List.map_cons]
    refine List.sorted_cons.mpr ⟨?_, ih (n + 1)⟩
    intro b hb
    have := numbered_keys_ge r (n + 1) b hb
    omega

theorem numbered_find (ids : List String) :
    ∀ (n i : Int) (v : RpcValue), ids.Nodup →
      (StdMap.find (numbered n ids) i = some v ↔
        ∃ p ∈ ids, i = n + ids.indexOf p ∧ v = RpcValue.string p) := by
  induction ids with
  | nil => intro n i v _; simp [numbered, StdMap.find]
  | cons q r ih =>
    intro n i v hnd
    rw [List.nodup_cons] at hnd
    by_cases hi : n = i
    · subst hi
      simp only [numbered, StdMap.find, if_true, Option.some.injEq]
      constructor
      · intro h
        exact ⟨q, List.mem_cons_self _ _, by simp, h.symm⟩
      · rintro ⟨p, hp, h1, h2⟩
        have h0 : List.indexOf p (q :: r) = 0 := by omega
        have hpq : p = q := by
          by_contra hne
          rw [List.indexOf_cons_ne _ (fun e => hne e.symm)] at h0
          exact Nat.succ_ne_zero _ h0
        rw [h2, hpq]
    · simp only [numbered, StdMap.find, if_neg hi]
      rw [ih (n + 1) i v hnd.2]
      constructor
      · rintro ⟨p, hp, h1, h2⟩
        have hpq : q ≠ p := fun e => hnd.1 (e ▸ hp)
        refine ⟨p, List.mem_cons_of_mem _ hp, ?_, h2⟩
        rw [List.indexOf_cons_ne _ hpq]
        push_cast
        omega
      · rintro ⟨p, hp, h1, h2⟩
        have hpq : q ≠ p := by
          intro e
          rw [← e, List.indexOf_cons_self] at h1
          apply hi
          simpa using h1.symm
        have hpr : p ∈ r := by
          rcases List.mem_cons.mp hp with h | h
          · exact absurd h.symm hpq
          · exact h
        refine ⟨p, hpr, ?_, h2⟩
        rw [List.indexOf_cons_ne _ hpq] at h1
        push_cast at h1
        omega

theorem makePathDict_foldl_sorted (l : List (String × RpcValue)) :
    ∀ acc : StdMap Int RpcValue, (acc.map Prod.fst).Sorted (fun a b => a < b) →
      ((l.foldl (fun path_dict kv =>
          StdMap.insert path_dict kv.2.toInt (RpcValue.string kv.1)) acc).map Prod.fst).Sorted
        (fun a b => a < b) := by
  induction l with
  | nil => intro acc h; exact h
  | cons x r ih =>
    intro acc h
    exact ih _ (StdMap.sorted_insert _ _ _ h)

theorem makePathDict_foldl_find (l : List (String × RpcValue)) :
    ∀ (acc : StdMap Int RpcValue) (i : Int) (v : RpcValue),
      (∀ x ∈ l, ∀ y ∈ l, x.2.toInt = y.2.toInt → x.1 = y.1) →
      (StdMap.find (l.foldl (fun path_dict kv =>
          StdMap.insert path_dict kv.2.toInt (RpcValue.string kv.1)) acc) i = some v ↔
        (∃ x ∈ l, x.2.toInt = i ∧ v = RpcValue.string x.1) ∨
          ((∀ x ∈ l, x.2.toInt ≠ i) ∧ StdMap.find acc i = some v)) := by
  induction l with
  | nil => intro acc i v _; simp
  | cons x r ih =>
    intro acc i v hinj
    have hinj2 : ∀ a ∈ r, ∀ b ∈ r, a.2.toInt = b.2.toInt → a.1 = b.1 :=
      fun a ha b hb => hinj a (List.mem_cons_of_mem _ ha) b (List.mem_cons_of_mem _ hb)
    rw [List.foldl_cons, ih _ i v hinj2, StdMap.find_insert]
    constructor
    · rintro (⟨y, hy, h1, h2⟩ | ⟨h1, h2⟩)
      · exact Or.inl ⟨y, List.mem_cons_of_mem _ hy, h1, h2⟩
      · by_cases hx : i = x.2.toInt
        · rw [if_pos hx] at h2
          exact Or.inl ⟨x, List.mem_cons_self _ _, hx.symm, (Option.some.inj h2).symm⟩
        · rw [if_neg hx] at h2
          right
          refine ⟨?_, h2⟩
          intro y hy
          rcases List.mem_cons.mp hy with h | h
          · rw [h]; exact fun e => hx e.symm
          · exact h1 y h
    · rintro (⟨y, hy, h1, h2⟩ | ⟨h1, h2⟩)
      · by_cases hex : ∃ z ∈ r, z.2.toInt = i
        · obtain ⟨z, hz, hzi⟩ := hex
          left
          refine ⟨z, hz, hzi, ?_⟩
          rw [h2, hinj y hy z (List.mem_cons_of_mem _ hz) (by rw [h1, hzi])]
        · right
          have hyx : y = x := by
            rcases List.mem_cons.mp hy with h | h
            · exact h
            · exact absurd ⟨y, h, h1⟩ hex
          refine ⟨fun z hz hzi => hex ⟨z, hz, hzi⟩, ?_⟩
          rw [hyx] at h1 h2
          rw [if_pos h1.symm, h2]
      · right
        refine ⟨fun z hz => h1 z (List.mem_cons_of_mem _ hz), ?_⟩
        rw [if_neg (fun e => h1 x (List.mem_cons_self _ _) e.symm)]
        exact h2

/-- The path dictionary of a cache that numbers the paths `ids` from 1 on. -/
theorem makePathDict_eq (params : ShvGetLogParams) (st : GetLogState)
    (es : List ShvJournalEntry) (ids : List String) (h : CacheInv params st es ids)
    (hd : params.withPathsDict = true) : makePathDict st.path_cache = numbered 1 ids := by
  obtain ⟨-, hnd, -, -, hfind, hsort⟩ := h
  have hmem : ∀ x ∈ st.path_cache, x.1 ∈ ids ∧ x.2 = RpcValue.int (ids.indexOf x.1 + 1) := by
    intro x hx
    have h1 := StdMap.find_of_mem st.path_cache x.1 x.2 hsort.nodup hx
    rw [hfind x.1] at h1
    by_cases hp : x.1 ∈ ids
    · rw [if_pos hp] at h1
      refine ⟨hp, ?_⟩
      have := Option.some.inj h1
      rw [← this, tokenOf, if_pos hd]
    · rw [if_neg hp] at h1
      exact absurd h1 (by simp)
  apply StdMap.ext_sorted _ _ (makePathDict_foldl_sorted _ _ (by simp)) (numbered_sorted ids 1)
  intro i
  apply Option.ext
  intro v
  simp only [Option.mem_def]
  rw [makePathDict_foldl_find st.path_cache [] i v, numbered_find ids 1 i v hnd]
  · constructor
    · rintro (⟨x, hx, h1, h2⟩ | ⟨-, h2⟩)
      · obtain ⟨m1, m2⟩ := hmem x hx
        refine ⟨x.1, m1, ?_, h2⟩
        rw [← h1, m2, RpcValue.toInt]
        omega
      · simp [StdMap.find] at h2
    · rintro ⟨p, hp, h1, h2⟩
      left
      have hf := hfind p
      rw [if_pos hp, tokenOf, if_pos hd] at hf
      refine ⟨(p, RpcValue.int (ids.indexOf p + 1)), StdMap.mem_of_find _ _ _ hf, ?_, h2⟩
      simp only [RpcValue.toInt]
      omega
  · intro x hx y hy hxy
    obtain ⟨m1, m2⟩ := hmem x hx
    obtain ⟨n1, n2⟩ := hmem y hy
    rw [m2, n2, RpcValue.toInt, RpcValue.toInt] at hxy
    have : ids.indexOf x.1 = ids.indexOf y.1 := by omega
    exact (List.indexOf_inj m1 n1).mp this

/-! ## The entries behind the records -/

theorem StdMap.mem_insert {K V : Type} [LinearOrder K] [StdLess K] (m : StdMap K V) (k : K)
    (v : V) (x : K × V) (h : x ∈ StdMap.insert m k v) : x = (k, v) ∨ x ∈ m := by
  induction m with
  | nil => simpa [StdMap.insert] using h
  | cons a r ih =>
    obtain ⟨k1, v1⟩ := a
    rw [StdMap.insert_cons] at h
    by_cases h1 : k < k1
    · rw [if_pos h1] at h
      simpa using h
    · rw [if_neg h1] at h
      by_cases h2 : k1 < k
      · rw [if_pos h2] at h
        rcases List.mem_cons.mp h with h | h
        · right; rw [h]; exact List.mem_cons_self _ _
        · rcases ih h with h | h
          · exact Or.inl h
          · exact Or.inr (List.mem_cons_of_mem _ h)
      · rw [if_neg h2] at h
        rcases List.mem_cons.mp h with h | h
        · exact Or.inl h
        · exact Or.inr (List.mem_cons_of_mem _ h)

theorem snapshotStep_mem (env : GetLogEnv) (params : ShvGetLogParams) (since : Int)
    (m : StdMap String ShvJournalEntry) (e : ShvJournalEntry) (x : String × ShvJournalEntry)
    (h : x ∈ snapshotStep env params since m e) :
    (x = (e.path, { e with epochMsec := since }) ∧ accepted env params e = true ∧
        params.withSnapshot = true ∧ e.sampleType = SampleType.Continuous) ∨ x ∈ m := by
  unfold snapshotStep at h
  by_cases hc : accepted env params e = true ∧ params.withSnapshot = true
      ∧ e.sampleType = SampleType.Continuous
  · rw [if_pos hc] at h
    rcases StdMap.mem_insert _ _ _ _ h with h | h
    · exact Or.inl ⟨h, hc⟩
    · exact Or.inr h
  · rw [if_neg hc] at h
    exact Or.inr h

/-- Every state of the loop is the state after pushing the records of some entries, each
of which satisfies a property that the entries read, their copies stamped at the start
instant, and the entries of the snapshot map satisfy. -/
theorem readEntries_emits (env : GetLogEnv) (params : ShvGetLogParams)
    (since until_ cap : Int) (Q : ShvJournalEntry → Prop) (l : List ShvJournalEntry) :
    ∀ st : GetLogState, (∀ kv ∈ st.snapshot, Q kv.2) →
      (∀ e ∈ l, Q e ∧ Q { e with epochMsec := since }) →
      ∃ es : List ShvJournalEntry, (∀ x ∈ es, Q x) ∧
        (readEntries env params since until_ cap st l).1.setSnapshot []
          = (pushAll params st es).setSnapshot [] := by
  induction l with
  | nil => intro st _ _; exact ⟨[], by simp, rfl⟩
  | cons e r ih =>
    intro st hs hl
    have hr : ∀ x ∈ r, Q x ∧ Q { x with epochMsec := since } :=
      fun x hx => hl x (List.mem_cons_of_mem _ hx)
    have he := hl e (List.mem_cons_self _ _)
    by_cases ha : accepted env params e = true
    · by_cases hb : isBefore since e
      · have e1 := processEntry_before env params since until_ cap st e hb
        have e2 : readEntries env params since until_ cap st (e :: r)
            = readEntries env params since until_ cap
                (st.setSnapshot (snapshotStep env params since st.snapshot e)) r := by
          simp only [readEntries, e1, Bool.false_eq_true, if_false]
        obtain ⟨es, h1, h2⟩ := ih (st.setSnapshot (snapshotStep env params since st.snapshot e))
          (by
            intro kv hkv
            rcases snapshotStep_mem env params since st.snapshot e kv hkv with ⟨h, -⟩ | h
            · rw [h]; exact he.2
            · exact hs kv h) hr
        refine ⟨es, h1, ?_⟩
        rw [e2, h2, pushAll_setSnapshot, setSnapshot_setSnapshot]
      · obtain ⟨k, em, -, hem, h1, -, -, h4⟩ :=
          processEntry_post env params since until_ cap st e ha hb
        have hsb : ∀ x ∈ (snapBlock params st).take k ++ em, Q x := by
          intro x hx
          rcases List.mem_append.mp hx with hx | hx
          · have hx2 := List.mem_of_mem_take hx
            unfold snapBlock at hx2
            split_ifs at hx2
            · obtain ⟨kv, hkv, hkx⟩ := List.mem_map.mp hx2
              rw [← hkx]; exact hs kv hkv
            · simp at hx2
          · rcases hem with hem | ⟨hem, -⟩
            · rw [hem] at hx; simp at hx
            · rw [hem] at hx
              simp only [List.mem_singleton] at hx
              rw [hx]; exact he.1
        by_cases hf : (processEntry env params since until_ cap st e).2 = true
        · have e1 : readEntries env params since until_ cap st (e :: r)
              = processEntry env params since until_ cap st e := by
            simp only [readEntries, if_pos hf]
          exact ⟨_, hsb, by rw [e1, h1]⟩
        · have e1 : readEntries env params since until_ cap st (e :: r)
              = readEntries env params since until_ cap
                  (processEntry env params since until_ cap st e).1 r := by
            simp only [readEntries, if_neg hf]
          obtain ⟨es, i1, i2⟩ := ih (processEntry env params since until_ cap st e).1
            (by
              intro kv hkv
              rcases h4 with h | h
              · rw [h] at hkv; exact hs kv hkv
              · rw [h] at hkv; simp at hkv) hr
          refine ⟨((snapBlock params st).take k ++ em) ++ es, ?_, ?_⟩
          · intro x hx
            rcases List.mem_append.mp hx with hx | hx
            · exact hsb x hx
            · exact i1 x hx
          · rw [e1, i2, pushAll_append params st]
            exact setSnapshot_pushAll_congr params _ _ es h1
    · have ha2 : accepted env params e = false := by simpa using ha
      have e1 : readEntries env params since until_ cap st (e :: r)
          = readEntries env params since until_ cap st r := by
        simp only [readEntries, processEntry_rejected env params since until_ cap st e ha2,
          Bool.false_eq_true, if_false]
      obtain ⟨es, h1, h2⟩ := ih st hs hr
      exact ⟨es, h1, by rw [e1, h2]⟩

theorem getLogState_eq (env : GetLogEnv) (dir : JournalDir) (ctx : JournalContext)
    (params : ShvGetLogParams) :
    getLogState env dir ctx params
      = (readEntries env params (since_msec params) (until_msec params)
          (max_rec_cnt env params) {} (entriesToRead dir ctx params)).1 := by
  unfold getLogState entriesToRead
  by_cases h : ctx.files.length ≠ 0
  · rw [if_pos h, readFiles_flatten]
  · rw [if_neg h]
    have h0 : ctx.files = [] := by
      have : ctx.files.length = 0 := by simpa using h
      exact List.length_eq_zero.mp this
    simp [filesToRead, h0, readEntries]

theorem setSnapshot_log (st1 st2 : GetLogState)
    (h : st1.setSnapshot [] = st2.setSnapshot []) :
    st1.log = st2.log ∧ st1.path_cache = st2.path_cache ∧ st1.rec_cnt = st2.rec_cnt ∧
      st1.first_record_msec = st2.first_record_msec ∧
      st1.last_record_msec = st2.last_record_msec ∧ st1.max_path_id = st2.max_path_id := by
  have h1 := congrArg GetLogState.log h
  have h2 := congrArg GetLogState.path_cache h
  have h3 := congrArg GetLogState.rec_cnt h
  have h4 := congrArg GetLogState.first_record_msec h
  have h5 := congrArg GetLogState.last_record_msec h
  have h6 := congrArg GetLogState.max_path_id h
  exact ⟨h1, h2, h3, h4, h5, h6⟩

theorem getLog_fst (env : GetLogEnv) (dir : JournalDir) (ctx : JournalContext)
    (params : ShvGetLogParams) :
    (getLog env dir ctx params).1 = (getLogState env dir ctx params).log := rfl

theorem pathDict_of_getLog (env : GetLogEnv) (dir : JournalDir) (ctx : JournalContext)
    (params : ShvGetLogParams) (hd : params.withPathsDict = true) :
    (getLog env dir ctx params).2.pathDict
      = makePathDict (getLogState env dir ctx params).path_cache := by
  simp only [getLog, hd, if_true]

/-- C9: for every query with the path dictionary, there are the entries `es` behind the
records of the result (each an entry read from the journal, or its copy stamped at the
start instant) and the list `ids` of their distinct paths, such that the path dictionary
of the header is exactly `1 ↦ ids[0], …, k ↦ ids[k-1]` and the token of every record is the
number of the path of its entry. -/
theorem getLog_pathDict (env : GetLogEnv) (dir : JournalDir) (ctx : JournalContext)
    (params : ShvGetLogParams) (hd : params.withPathsDict = true) :
    ∃ (es : List ShvJournalEntry) (ids : List String),
      (∀ x ∈ es, ∃ e0 ∈ entriesToRead dir ctx params,
        x = e0 ∨ x = { e0 with epochMsec := since_msec params }) ∧
      ids.Nodup ∧ (∀ p, p ∈ ids ↔ ∃ e ∈ es, e.path = p) ∧
      (getLog env dir ctx params).2.pathDict = numbered 1 ids ∧
      (getLog env dir ctx params).1
        = es.map (fun e => recordOf (RpcValue.int (ids.indexOf e.path + 1)) e) := by
  obtain ⟨es, h1, h2⟩ := readEntries_emits env params (since_msec params) (until_msec params)
    (max_rec_cnt env params)
    (fun x => ∃ e0 ∈ entriesToRead dir ctx params,
      x = e0 ∨ x = { e0 with epochMsec := since_msec params })
    (entriesToRead dir ctx params) {} (by simp [GetLogState.snapshot])
    (fun e he => ⟨⟨e, he, Or.inl rfl⟩, ⟨e, he, Or.inr rfl⟩⟩)
  rw [← getLogState_eq] at h2
  obtain ⟨g1, g2, -⟩ := setSnapshot_log _ _ h2
  obtain ⟨ids, hinv⟩ := CacheInv_pushAll params es {} [] [] (CacheInv_init params)
  simp only [List.nil_append] at hinv
  have hdict := makePathDict_eq params _ es ids hinv hd
  obtain ⟨hlog, hnd, hids, -, -, -⟩ := hinv
  refine ⟨es, ids, h1, hnd, hids, ?_, ?_⟩
  · rw [pathDict_of_getLog env dir ctx params hd, g2, hdict]
  · rw [getLog_fst, g1, hlog]
    apply List.map_congr_left
    intro x _
    rw [tokenOf, if_pos hd]

/-- C9, witness: the query of scenario S5 with `since = 150` and the path dictionary. -/
theorem getLog_pathDict_witness :
    (paramsS5 150 true).withPathsDict = true ∧
    ∃ (es : List ShvJournalEntry) (ids : List String),
      (∀ x ∈ es, ∃ e0 ∈ entriesToRead dirS5 ctxS5 (paramsS5 150 true),
        x = e0 ∨ x = { e0 with epochMsec := since_msec (paramsS5 150 true) }) ∧
      ids.Nodup ∧ (∀ p, p ∈ ids ↔ ∃ e ∈ es, e.path = p) ∧
      (getLog envS5 dirS5 ctxS5 (paramsS5 150 true)).2.pathDict = numbered 1 ids ∧
      (getLog envS5 dirS5 ctxS5 (paramsS5 150 true)).1
        = es.map (fun e => recordOf (RpcValue.int (ids.indexOf e.path + 1)) e) :=
  ⟨rfl, getLog_pathDict envS5 dirS5 ctxS5 (paramsS5 150 true) rfl⟩

/-! ## Journals with non-decreasing timestamps -/

theorem flatten_drop_sublist {α β : Type} (f : α → List β) (l : List α) :
    ∀ n : Nat, ((l.drop n).map f).flatten.Sublist (l.map f).flatten := by
  induction l with
  | nil => intro n; simp
  | cons a r ih =>
    intro n
    cases n with
    | zero => exact List.Sublist.refl _
    | succ m =>
      simp only [List.drop_succ_cons, List.map_cons, List.flatten_cons]
      exact (ih m).trans (List.sublist_append_right _ _)

theorem entriesToRead_sublist (dir : JournalDir) (ctx : JournalContext)
    (params : ShvGetLogParams) :
    (entriesToRead dir ctx params).Sublist (journalEntries dir ctx) :=
  flatten_drop_sublist _ _ _

/-- A list with non-decreasing timestamps is a run of entries before the start instant
followed by entries none of which lies before it. -/
theorem split_before (since : Int) (l : List ShvJournalEntry)
    (hs : l.Pairwise (fun a b => a.epochMsec ≤ b.epochMsec)) :
    ∃ l1 l2, l = l1 ++ l2 ∧ (∀ e ∈ l1, isBefore since e) ∧ (∀ e ∈ l2, ¬ isBefore since e) := by
  induction l with
  | nil => exact ⟨[], [], rfl, by simp, by simp⟩
  | cons e r ih =>
    rw [List.pairwise_cons] at hs
    by_cases hb : isBefore since e
    · obtain ⟨l1, l2, h1, h2, h3⟩ := ih hs.2
      refine ⟨e :: l1, l2, by rw [h1]; rfl, ?_, h3⟩
      intro x hx
      rcases List.mem_cons.mp hx with h | h
      · rw [h]; exact hb
      · exact h2 x h
    · refine ⟨[], e :: r, rfl, by simp, ?_⟩
      intro x hx hbx
      rcases List.mem_cons.mp hx with h | h
      · rw [h] at hbx; exact hb hbx
      · have := hs.1 x h
        apply hb
        unfold isBefore at hbx ⊢
        exact ⟨hbx.1, by omega⟩

theorem recordMsec_recordOf (tok : RpcValue) (e : ShvJournalEntry) :
    recordMsec (recordOf tok e) = e.epochMsec := rfl

theorem snapshotOf_mem (env : GetLogEnv) (params : ShvGetLogParams) (since : Int)
    (l : List ShvJournalEntry) :
    ∀ (m : StdMap String ShvJournalEntry) (x : String × ShvJournalEntry),
      x ∈ snapshotOf env params since m l →
      (∃ e0 ∈ l, x = (e0.path, { e0 with epochMsec := since }) ∧
          accepted env params e0 = true ∧ params.withSnapshot = true ∧
          e0.sampleType = SampleType.Continuous) ∨ x ∈ m := by
  induction l with
  | nil => intro m x h; exact Or.inr h
  | cons e r ih =>
    intro m x h
    rcases ih _ x h with ⟨e0, h0, h1⟩ | h1
    · exact Or.inl ⟨e0, List.mem_cons_of_mem _ h0, h1⟩
    · rcases snapshotStep_mem env params since m e x h1 with h2 | h2
      · exact Or.inl ⟨e, List.mem_cons_self _ _, h2⟩
      · exact Or.inr h2

/-- The decomposition of the state of `getLog` for a journal with non-decreasing
timestamps: a part of the snapshot built from the entries before the start instant,
followed by entries of the window in their order. -/
theorem getLogState_sorted (env : GetLogEnv) (dir : JournalDir) (ctx : JournalContext)
    (params : ShvGetLogParams)
    (hs : (entriesToRead dir ctx params).Pairwise (fun a b => a.epochMsec ≤ b.epochMsec)) :
    ∃ (l1 l2 w : List ShvJournalEntry) (k : Nat),
      entriesToRead dir ctx params = l1 ++ l2 ∧
      (∀ e ∈ l1, isBefore (since_msec params) e) ∧
      (∀ e ∈ l2, ¬ isBefore (since_msec params) e) ∧
      w.Sublist l2 ∧
      (∀ e ∈ w, accepted env params e = true ∧
        (until_msec params = 0 ∨ e.epochMsec < until_msec params)) ∧
      (getLogState env dir ctx params).setSnapshot []
        = (pushAll params {}
            ((snapBlock params ((({} : GetLogState)).setSnapshot
                (snapshotOf env params (since_msec params) [] l1))).take k ++ w)).setSnapshot [] ∧
      ((∃ e ∈ l2, accepted env params e = true) →
        ((snapBlock params ((({} : GetLogState)).setSnapshot
          (snapshotOf env params (since_msec params) [] l1))).length : Int)
            ≤ max_rec_cnt env params →
        k = (snapBlock params ((({} : GetLogState)).setSnapshot
          (snapshotOf env params (since_msec params) [] l1))).length) := by
  obtain ⟨l1, l2, h1, h2, h3⟩ := split_before (since_msec params) _ hs
  have e1 := readEntries_before env params (since_msec params) (until_msec params)
    (max_rec_cnt env params) l1 {} h2
  obtain ⟨k, w, -, hw, hacc, i1, i2⟩ := readEntries_post env params (since_msec params)
    (until_msec params) (max_rec_cnt env params) l2
    ((({} : GetLogState)).setSnapshot (snapshotOf env params (since_msec params) [] l1)) h3
  refine ⟨l1, l2, w, k, h1, h2, h3, hw, hacc, ?_, ?_⟩
  · rw [getLogState_eq, h1, readEntries_append, e1]
    simp only [Bool.false_eq_true, if_false]
    rw [i1, pushAll_setSnapshot, setSnapshot_setSnapshot]
  · intro hex hc
    apply i2 hex
    have : (({} : GetLogState).setSnapshot
        (snapshotOf env params (since_msec params) [] l1)).rec_cnt = 0 := rfl
    rw [this]
    simpa using hc

/-- C10: for every journal whose entries are non-decreasing in `epoch_msec` across the
files in the order of the context, the result of `getLog` is a snapshot block `sn` of
copies, stamped at the start instant, of entries that lie before it, followed by the
records of entries `w` that form a subsequence of the entry sequence of the journal; the
timestamps of the result without the snapshot block are non-decreasing. -/
theorem getLog_monotonic (env : GetLogEnv) (dir : JournalDir) (ctx : JournalContext)
    (params : ShvGetLogParams)
    (hs : (journalEntries dir ctx).Pairwise (fun a b => a.epochMsec ≤ b.epochMsec)) :
    ∃ (sn w : List ShvJournalEntry) (ids : List String),
      (getLog env dir ctx params).1
        = (sn ++ w).map (fun e => recordOf (tokenOf params ids e.path) e) ∧
      (∀ x ∈ sn, params.withSnapshot = true ∧
        ∃ e0 ∈ journalEntries dir ctx, isBefore (since_msec params) e0 ∧
          x = { e0 with epochMsec := since_msec params }) ∧
      w.Sublist (journalEntries dir ctx) ∧
      (∀ x ∈ w, ¬ isBefore (since_msec params) x) ∧
      w.Pairwise (fun a b => a.epochMsec ≤ b.epochMsec) ∧
      (((getLog env dir ctx params).1.drop sn.length).map recordMsec).Pairwise
        (fun a b => a ≤ b) := by
  have hsub := entriesToRead_sublist dir ctx params
  obtain ⟨l1, l2, w, k, h1, h2, h3, hw, -, hst, -⟩ :=
    getLogState_sorted env dir ctx params (hs.sublist hsub)
  obtain ⟨g1, -⟩ := setSnapshot_log _ _ hst
  obtain ⟨ids, hinv⟩ := CacheInv_pushAll params
    ((snapBlock params ((({} : GetLogState)).setSnapshot
      (snapshotOf env params (since_msec params) [] l1))).take k ++ w) {} [] []
    (CacheInv_init params)
  simp only [List.nil_append] at hinv
  have hl2 : l2.Sublist (journalEntries dir ctx) := by
    refine List.Sublist.trans ?_ hsub
    rw [h1]; exact List.sublist_append_right _ _
  have hl1 : ∀ e ∈ l1, e ∈ journalEntries dir ctx := by
    intro e he
    apply hsub.subset
    rw [h1]; exact List.mem_append_left _ he
  have hwj : w.Sublist (journalEntries dir ctx) := hw.trans hl2
  have hwp : w.Pairwise (fun a b => a.epochMsec ≤ b.epochMsec) := hs.sublist hwj
  have hlog : (getLog env dir ctx params).1
      = ((snapBlock params ((({} : GetLogState)).setSnapshot
          (snapshotOf env params (since_msec params) [] l1))).take k ++ w).map
          (fun e => recordOf (tokenOf params ids e.path) e) := by
    rw [getLog_fst, g1, hinv.1]
  refine ⟨_, w, ids, hlog, ?_, hwj, fun x hx => h3 x (hw.subset hx), hwp, ?_⟩
  · intro x hx
    have hx2 := List.mem_of_mem_take hx
    unfold snapBlock at hx2
    split_ifs at hx2 with hc
    · obtain ⟨kv, hkv, hkx⟩ := List.mem_map.mp hx2
      have hwith : params.withSnapshot = true := by
        cases hp : params.withSnapshot
        · rw [hp] at hc; simp at hc
        · rfl
      refine ⟨hwith, ?_⟩
      rcases snapshotOf_mem env params (since_msec params) l1 [] kv hkv with
        ⟨e0, h0, hk, -⟩ | hk
      · refine ⟨e0, hl1 e0 h0, h2 e0 h0, ?_⟩
        rw [← hkx, hk]
      · simp at hk
    · simp at hx2
  · rw [hlog, List.map_append, List.drop_left' (by simp), List.map_map]
    rw [List.pairwise_map]
    exact hwp

/-! ## Snapshot inclusion -/

/-- C10, witness: the journal of scenario S5 and the query with `since = 150`. -/
theorem getLog_monotonic_witness :
    (journalEntries dirS5 ctxS5).Pairwise (fun a b => a.epochMsec ≤ b.epochMsec) ∧
    ∃ (sn w : List ShvJournalEntry) (ids : List String),
      (getLog envS5 dirS5 ctxS5 (paramsS5 150 true)).1
        = (sn ++ w).map (fun e => recordOf (tokenOf (paramsS5 150 true) ids e.path) e) ∧
      (∀ x ∈ sn, (paramsS5 150 true).withSnapshot = true ∧
        ∃ e0 ∈ journalEntries dirS5 ctxS5, isBefore (since_msec (paramsS5 150 true)) e0 ∧
          x = { e0 with epochMsec := since_msec (paramsS5 150 true) }) ∧
      w.Sublist (journalEntries dirS5 ctxS5) ∧
      (∀ x ∈ w, ¬ isBefore (since_msec (paramsS5 150 true)) x) ∧
      w.Pairwise (fun a b => a.epochMsec ≤ b.epochMsec) ∧
      (((getLog envS5 dirS5 ctxS5 (paramsS5 150 true)).1.drop sn.length).map recordMsec).Pairwise
        (fun a b => a ≤ b) :=
  ⟨by decide, getLog_monotonic envS5 dirS5 ctxS5 (paramsS5 150 true) (by decide)⟩
/-! ## Filename format -/

/-- The characters of the ISO-8601 rendering of an instant from 1970 to the end of year
9999: the four digits of the year, the two digits of month, day, hour, minute and second,
and the three digits of the milliseconds. -/
theorem toIsoString_chars (t : Int) (h0 : 0 ≤ t) (h1 : t < 253402300800000) :
    (DateTime.fromMSecsSinceEpoch t).toIsoString =
      (let y := (civilFromDays (t / 1000 / 86400)).1.toNat
       let mo := (civilFromDays (t / 1000 / 86400)).2.1.toNat
       let d := (civilFromDays (t / 1000 / 86400)).2.2.toNat
       let hh := (t / 1000 % 86400 / 3600).toNat
       let mi := (t / 1000 % 86400 % 3600 / 60).toNat
       let ss := (t / 1000 % 86400 % 60).toNat
       let ms := (t % 1000).toNat
       ⟨[digitChar (y / 10 / 10 / 10), digitChar (y / 10 / 10), digitChar (y / 10), digitChar y,
        '-', digitChar (mo / 10), digitChar mo, '-', digitChar (d / 10), digitChar d,
        'T', digitChar (hh / 10), digitChar hh, ':', digitChar (mi / 10), digitChar mi,
        ':', digitChar (ss / 10), digitChar ss, '.', digitChar (ms / 10 / 10), digitChar (ms / 10), digitChar ms]⟩) := by
  have hb := civilFromDays_bounds (t / 1000 / 86400) (by omega) (by omega)
  have hyd : yearDigits (civilFromDays (t / 1000 / 86400)).1
      = natToDigits 4 (civilFromDays (t / 1000 / 86400)).1.toNat := by
    unfold yearDigits
    rw [if_neg (by omega), if_pos (by omega)]
  simp only [DateTime.toIsoString, DateTime.fromMSecsSinceEpoch,
    DateTime.msecsSinceEpoch, hyd, natToDigits_two, natToDigits_three, natToDigits_four,
    List.cons_append, List.nil_append]

/-- C19: for every timestamp `t` from 1970 to the end of year 9999, the ISO-8601 UTC
rendering of `t` with milliseconds and without offset has 23 characters, with `:` at
positions 13 and 16 and `.` at position 19, and `fileMsecToFileName t` is this string with
the characters at positions 13, 16 and 19 replaced by `-`, followed by `.log2`, 28
characters in all; the date in the name is the civil date of the day of `t`. -/
theorem fileMsecToFileName_format (t : Int) (h0 : 0 ≤ t) (h1 : t < 253402300800000) :
    ((DateTime.fromMSecsSinceEpoch t).toIsoString).data.length = 23 ∧
      ((DateTime.fromMSecsSinceEpoch t).toIsoString).data.get? 13 = some ':' ∧
      ((DateTime.fromMSecsSinceEpoch t).toIsoString).data.get? 16 = some ':' ∧
      ((DateTime.fromMSecsSinceEpoch t).toIsoString).data.get? 19 = some '.' ∧
      fileMsecToFileName t
        = ⟨(((((DateTime.fromMSecsSinceEpoch t).toIsoString).data.set 13 '-').set 16 '-').set 19 '-')
            ++ ['.', 'l', 'o', 'g', '2']⟩ ∧
      (fileMsecToFileName t).data.length = 28 ∧
      (fileMsecToFileName t).data.take 10
        = natToDigits 4 (civilFromDays (t / 86400000)).1.toNat
          ++ '-' :: natToDigits 2 (civilFromDays (t / 86400000)).2.1.toNat
          ++ '-' :: natToDigits 2 (civilFromDays (t / 86400000)).2.2.toNat ∧
      daysFromCivil (civilFromDays (t / 86400000)).1 (civilFromDays (t / 86400000)).2.1
        (civilFromDays (t / 86400000)).2.2 = t / 86400000 := by
  have hd : t / 1000 / 86400 = t / 86400000 := by omega
  have hiso := toIsoString_chars t h0 h1
  have hfn := fileMsecToFileName_chars t h0 h1
  simp only at hiso hfn
  refine ⟨?_, ?_, ?_, ?_, ?_, ?_, ?_, ?_⟩
  · rw [hiso]; rfl
  · rw [hiso]; rfl
  · rw [hiso]; rfl
  · rw [hiso]; rfl
  · rw [hfn, hiso]; rfl
  · rw [hfn]; rfl
  · rw [hfn, hd]; rfl
  · exact daysFromCivil_civilFromDays _

/-- C19, witness at `t = 1000000`: the file name is `1970-01-01T00-16-40-000.log2`. -/
theorem fileMsecToFileName_format_witness :
    (0 : Int) ≤ 1000000 ∧ (1000000 : Int) < 253402300800000 ∧
      fileMsecToFileName 1000000 = "1970-01-01T00-16-40-000.log2" ∧
      (DateTime.fromMSecsSinceEpoch 1000000).toIsoString = "1970-01-01T00:16:40.000" :=
  ⟨by decide, by decide,
    (fileMsecToFileName_format 1000000 (by decide) (by decide)).2.2.2.2.1.trans (by decide),
    by decide⟩

/-! ## The header of a query: time window and empty journal -/

theorem getLog_snd_since (env : GetLogEnv) (dir : JournalDir) (ctx : JournalContext)
    (params : ShvGetLogParams) :
    (getLog env dir ctx params).2.since
      = if (if since_msec params = 0 then (getLogState env dir ctx params).first_record_msec
            else since_msec params) > 0
        then RpcValue.dateTime (if since_msec params = 0
          then (getLogState env dir ctx params).first_record_msec else since_msec params) 0
        else RpcValue.null := by
  unfold getLog
  by_cases hd : params.withPathsDict = true
  · simp only [hd, if_true]
  · simp only [hd, if_false, Bool.false_eq_true]

theorem getLog_snd_until (env : GetLogEnv) (dir : JournalDir) (ctx : JournalContext)
    (params : ShvGetLogParams) :
    (getLog env dir ctx params).2.until_
      = if (if (getLogState env dir ctx params).rec_cnt < max_rec_cnt env params then
              if until_msec params = 0 then (getLogState env dir ctx params).last_record_msec
              else until_msec params
            else (getLogState env dir ctx params).last_record_msec) > 0
        then RpcValue.dateTime
          (if (getLogState env dir ctx params).rec_cnt < max_rec_cnt env params then
              if until_msec params = 0 then (getLogState env dir ctx params).last_record_msec
              else until_msec params
            else (getLogState env dir ctx params).last_record_msec) 0
        else RpcValue.null := by
  unfold getLog
  by_cases hd : params.withPathsDict = true
  · simp only [hd, if_true]
  · simp only [hd, if_false, Bool.false_eq_true]

theorem getLog_snd_fields (env : GetLogEnv) (dir : JournalDir) (ctx : JournalContext)
    (params : ShvGetLogParams) :
    (getLog env dir ctx params).2.recordCount = (getLogState env dir ctx params).rec_cnt ∧
      (getLog env dir ctx params).2.recordCountLimit = max_rec_cnt env params ∧
      (getLog env dir ctx params).2.deviceId = ctx.deviceId ∧
      (getLog env dir ctx params).2.deviceType = ctx.deviceType ∧
      (getLog env dir ctx params).2.withSnapShot = params.withSnapshot ∧
      (getLog env dir ctx params).2.fields = logFields ∧
      (getLog env dir ctx params).2.logParams = some params ∧
      (getLog env dir ctx params).2.dateTime = RpcValue.dateTime env.now 0 := by
  unfold getLog
  by_cases hd : params.withPathsDict = true
  · simp only [hd, if_true, and_self]
  · simp only [hd, if_false, Bool.false_eq_true, and_self]

theorem getLogState_no_files (env : GetLogEnv) (dir : JournalDir) (ctx : JournalContext)
    (params : ShvGetLogParams) (hf : ctx.files = []) :
    getLogState env dir ctx params = {} := by
  unfold getLogState
  rw [hf]
  rfl

/-- C17: for a context without files and every parameter set, `getLog` returns the empty
list of records and a header with `recordCount = 0`, the cap as `recordCountLimit`, the
device of the context, the field names, the parameters and an empty path dictionary; the
header has `since = null` when the query gives no `since` and `until = null` when it
gives no `until`. -/
theorem getLog_empty_journal (env : GetLogEnv) (dir : JournalDir) (ctx : JournalContext)
    (params : ShvGetLogParams) (hf : ctx.files = []) :
    (getLog env dir ctx params).1 = [] ∧
      (getLog env dir ctx params).2.recordCount = 0 ∧
      (getLog env dir ctx params).2.recordCountLimit = max_rec_cnt env params ∧
      (getLog env dir ctx params).2.deviceId = ctx.deviceId ∧
      (getLog env dir ctx params).2.deviceType = ctx.deviceType ∧
      (getLog env dir ctx params).2.fields = logFields ∧
      (getLog env dir ctx params).2.logParams = some params ∧
      (getLog env dir ctx params).2.pathDict = [] ∧
      (params.since.isDateTime = false → (getLog env dir ctx params).2.since = RpcValue.null) ∧
      (params.until_.isDateTime = false →
        (getLog env dir ctx params).2.until_ = RpcValue.null) := by
  have hst := getLogState_no_files env dir ctx params hf
  obtain ⟨f1, f2, f3, f4, -, f6, f7, -⟩ := getLog_snd_fields env dir ctx params
  refine ⟨?_, ?_, f2, f3, f4, f6, f7, ?_, ?_, ?_⟩
  · rw [getLog_fst, hst]
  · rw [f1, hst]
  · unfold getLog
    by_cases hd : params.withPathsDict = true
    · simp only [hd, if_true, hst]
      rfl
    · simp only [hd, if_false, Bool.false_eq_true]
      rfl
  · intro hs
    rw [getLog_snd_since, hst]
    simp [since_msec, hs]
  · intro hu
    rw [getLog_snd_until, hst]
    simp [until_msec, hu]

/-- C17, witness: scenario S1, the default parameters on the context of an empty
directory. -/
theorem getLog_empty_journal_witness :
    ctxS1.files = [] ∧ (getLog envS5 [] ctxS1 (paramsMax 1000)).1 = [] ∧
      (getLog envS5 [] ctxS1 (paramsMax 1000)).2.recordCount = 0 ∧
      (getLog envS5 [] ctxS1 (paramsMax 1000)).2.since = RpcValue.null ∧
      (getLog envS5 [] ctxS1 (paramsMax 1000)).2.until_ = RpcValue.null :=
  ⟨rfl, (getLog_empty_journal envS5 [] ctxS1 (paramsMax 1000) rfl).1,
    (getLog_empty_journal envS5 [] ctxS1 (paramsMax 1000) rfl).2.1,
    (getLog_empty_journal envS5 [] ctxS1 (paramsMax 1000) rfl).2.2.2.2.2.2.2.2.1 rfl,
    (getLog_empty_journal envS5 [] ctxS1 (paramsMax 1000) rfl).2.2.2.2.2.2.2.2.2 rfl⟩

theorem make_path_shared_times (params : ShvGetLogParams) (st : GetLogState) (p : String) :
    (make_path_shared params st p).2.first_record_msec = st.first_record_msec ∧
      (make_path_shared params st p).2.last_record_msec = st.last_record_msec := by
  by_cases h : (RpcValueMap_value st.path_cache p).isValid = true
  · simp only [make_path_shared, if_pos h, and_self]
  · simp only [make_path_shared, if_neg h, and_self]

theorem pushRecord_times (params : ShvGetLogParams) (st : GetLogState) (e : ShvJournalEntry) :
    (pushRecord params st e).last_record_msec = e.epochMsec ∧
      (pushRecord params st e).first_record_msec
        = (if st.first_record_msec = 0 then e.epochMsec else st.first_record_msec) ∧
      logMsecs (pushRecord params st e).log = logMsecs st.log ++ [e.epochMsec] := by
  unfold pushRecord
  simp only [(make_path_shared_times params st e.path).1,
    (make_path_shared_snapshot params st e.path).2.2, logMsecs, List.map_append, List.map_cons,
    List.map_nil, recordMsec_recordOf, and_self]

theorem TimesInv_init : TimesInv {} := ⟨rfl, rfl, rfl⟩

theorem TimesInv_pushRecord (params : ShvGetLogParams) (st : GetLogState) (e : ShvJournalEntry)
    (h : TimesInv st) : TimesInv (pushRecord params st e) := by
  obtain ⟨h1, h2, h3⟩ := h
  obtain ⟨p1, p2, p3⟩ := pushRecord_times params st e
  have hl : (pushRecord params st e).log.length = st.log.length + 1 := by
    have := congrArg List.length p3
    simpa [logMsecs] using this
  refine ⟨?_, ?_, ?_⟩
  · rw [pushRecord_rec_cnt, h1, hl]
    simp
  · rw [p1, p3]
    simp
  · rw [p2, p3, List.find?_append]
    by_cases h0 : st.first_record_msec = 0
    · rw [if_pos h0]
      rw [h0] at h3
      cases hf : (logMsecs st.log).find? (fun t => decide (t ≠ 0)) with
      | none =>
        by_cases he : e.epochMsec = 0
        · simp [he]
        · simp [he]
      | some t =>
        have ht := List.find?_some hf
        rw [hf] at h3
        simp at h3 ht
        exact absurd h3.symm ht
    · rw [if_neg h0]
      cases hf : (logMsecs st.log).find? (fun t => decide (t ≠ 0)) with
      | none =>
        rw [hf] at h3
        exact absurd h3 h0
      | some t =>
        rw [hf] at h3
        simpa using h3

theorem TimesInv_pushAll (params : ShvGetLogParams) (es : List ShvJournalEntry) :
    ∀ st : GetLogState, TimesInv st → TimesInv (pushAll params st es) := by
  induction es with
  | nil => intro st h; exact h
  | cons e r ih =>
    intro st h
    rw [pushAll_cons]
    exact ih _ (TimesInv_pushRecord params st e h)

theorem TimesInv_getLogState (env : GetLogEnv) (dir : JournalDir) (ctx : JournalContext)
    (params : ShvGetLogParams) : TimesInv (getLogState env dir ctx params) := by
  obtain ⟨es, -, h⟩ := readEntries_emits env params (since_msec params) (until_msec params)
    (max_rec_cnt env params) (fun _ => True) (entriesToRead dir ctx params) {}
    (fun _ _ => trivial) (fun _ _ => ⟨trivial, trivial⟩)
  rw [← getLogState_eq] at h
  obtain ⟨g1, -, g3, g4, g5, -⟩ := setSnapshot_log _ _ h
  obtain ⟨i1, i2, i3⟩ := TimesInv_pushAll params es {} TimesInv_init
  exact ⟨by rw [g3, g1, i1], by rw [g5, g1, i2], by rw [g4, g1, i3]⟩

theorem find_ne_zero_of_pos (ts : List Int) (h : ∀ t ∈ ts, 0 < t) :
    ts.find? (fun t => decide (t ≠ 0)) = ts.head? := by
  cases ts with
  | nil => rfl
  | cons a r =>
    have ha : a ≠ 0 := ne_of_gt (h a (List.mem_cons_self _ _))
    simp [List.find?, ha]

/-- C16: the instants of the header of `getLog`, for every journal and query. The header
`since` is the requested instant when it is positive and null when it is negative; when
the query gives no `since` (or the instant zero) it is the first timestamp of the result
that is not zero, null when there is none or when it is negative, and so the timestamp of
the first record whenever that is positive. The header `until` is the timestamp of the
last record of the result, null when the result is empty or this timestamp is not
positive, whenever the number of records has reached the cap and also when it has not and
the query gives no `until` (or the instant zero); when the cap is not reached it is the
requested instant when that is positive and null when it is negative. -/
theorem getLog_time_window (env : GetLogEnv) (dir : JournalDir) (ctx : JournalContext)
    (params : ShvGetLogParams) :
    (since_msec params > 0 → (getLog env dir ctx params).2.since
        = RpcValue.dateTime (since_msec params) 0) ∧
      (since_msec params < 0 → (getLog env dir ctx params).2.since = RpcValue.null) ∧
      (since_msec params = 0 → (getLog env dir ctx params).2.since
        = headerInstant (((logMsecs (getLog env dir ctx params).1).find?
            (fun t => decide (t ≠ 0))).getD 0)) ∧
      (since_msec params = 0 → ∀ t, (logMsecs (getLog env dir ctx params).1).head? = some t →
        0 < t → (getLog env dir ctx params).2.since = RpcValue.dateTime t 0) ∧
      (since_msec params = 0 → (getLog env dir ctx params).1 = [] →
        (getLog env dir ctx params).2.since = RpcValue.null) ∧
      (max_rec_cnt env params ≤ (getLog env dir ctx params).1.length ∨
          (((getLog env dir ctx params).1.length : Int) < max_rec_cnt env params ∧
            until_msec params = 0) →
        (getLog env dir ctx params).2.until_
            = headerInstant ((logMsecs (getLog env dir ctx params).1).getLast?.getD 0) ∧
          (∀ t, (logMsecs (getLog env dir ctx params).1).getLast? = some t → 0 < t →
            (getLog env dir ctx params).2.until_ = RpcValue.dateTime t 0) ∧
          ((getLog env dir ctx params).1 = [] →
            (getLog env dir ctx params).2.until_ = RpcValue.null)) ∧
      (((getLog env dir ctx params).1.length : Int) < max_rec_cnt env params →
        until_msec params > 0 → (getLog env dir ctx params).2.until_
          = RpcValue.dateTime (until_msec params) 0) ∧
      (((getLog env dir ctx params).1.length : Int) < max_rec_cnt env params →
        until_msec params < 0 → (getLog env dir ctx params).2.until_ = RpcValue.null) := by
  obtain ⟨h1, h2, h3⟩ := TimesInv_getLogState env dir ctx params
  rw [getLog_fst]
  have hsince0 : since_msec params = 0 → (getLog env dir ctx params).2.since
      = headerInstant (((logMsecs (getLogState env dir ctx params).log).find?
          (fun t => decide (t ≠ 0))).getD 0) := by
    intro hs
    rw [getLog_snd_since]
    simp only [if_pos hs, h3, headerInstant]
  have huntil : max_rec_cnt env params ≤ (getLogState env dir ctx params).log.length ∨
      (((getLogState env dir ctx params).log.length : Int) < max_rec_cnt env params ∧
        until_msec params = 0) →
      (getLog env dir ctx params).2.until_
        = headerInstant ((logMsecs (getLogState env dir ctx params).log).getLast?.getD 0) := by
    intro hc
    rw [getLog_snd_until]
    rcases hc with hc | ⟨hc, hu⟩
    · have hn : ¬ ((getLogState env dir ctx params).rec_cnt < max_rec_cnt env params) := by
        rw [h1]; omega
      simp only [if_neg hn, h2, headerInstant]
    · have hn : (getLogState env dir ctx params).rec_cnt < max_rec_cnt env params := by
        rw [h1]; exact hc
      simp only [if_pos hn, if_pos hu, h2, headerInstant]
  refine ⟨?_, ?_, hsince0, ?_, ?_, ?_, ?_, ?_⟩
  · intro hs
    have hs0 : ¬ (since_msec params = 0) := ne_of_gt hs
    rw [getLog_snd_since]
    simp only [if_neg hs0, if_pos hs]
  · intro hs
    have hs0 : ¬ (since_msec params = 0) := ne_of_lt hs
    have hs1 : ¬ (since_msec params > 0) := by omega
    rw [getLog_snd_since]
    simp only [if_neg hs0, if_neg hs1]
  · intro hs t ht hpos
    rw [hsince0 hs]
    cases hl : logMsecs (getLogState env dir ctx params).log with
    | nil => rw [hl] at ht; cases ht
    | cons a r =>
      rw [hl] at ht
      have hat : a = t := by simpa using ht
      have hne : t ≠ 0 := ne_of_gt hpos
      simp [List.find?, hat, hne, headerInstant, hpos]
  · intro hs hnil
    rw [hsince0 hs, hnil]
    rfl
  · intro hc
    refine ⟨huntil hc, ?_, ?_⟩
    · intro t ht hpos
      rw [huntil hc, ht]
      simp [headerInstant, hpos]
    · intro hnil
      rw [huntil hc, hnil]
      rfl
  · intro hc hu
    have hn : (getLogState env dir ctx params).rec_cnt < max_rec_cnt env params := by
      rw [h1]; exact hc
    have hu0 : ¬ (until_msec params = 0) := ne_of_gt hu
    rw [getLog_snd_until]
    simp only [if_pos hn, if_neg hu0, if_pos hu]
  · intro hc hu
    have hn : (getLogState env dir ctx params).rec_cnt < max_rec_cnt env params := by
      rw [h1]; exact hc
    have hu0 : ¬ (until_msec params = 0) := ne_of_lt hu
    have hu1 : ¬ (until_msec params > 0) := by omega
    rw [getLog_snd_until]
    simp only [if_pos hn, if_neg hu0, if_neg hu1]

/-- C16, witness: scenario S6, ten matching entries and `max_record_count = 1`; the result
has one record, and the header has the timestamp of this record as `until` and, as no
`since` is given, as `since`. -/
theorem getLog_time_window_witness :
    (getLog envS5 dirS6 ctxS6 (paramsMax 1)).1.length = 1 ∧
      logMsecs (getLog envS5 dirS6 ctxS6 (paramsMax 1)).1 = [1001] ∧
      (getLog envS5 dirS6 ctxS6 (paramsMax 1)).2.until_ = RpcValue.dateTime 1001 0 ∧
      (getLog envS5 dirS6 ctxS6 (paramsMax 1)).2.since = RpcValue.dateTime 1001 0 :=
  ⟨by decide, by decide,
    ((getLog_time_window envS5 dirS6 ctxS6 (paramsMax 1)).2.2.2.2.2.1
      (Or.inl (by decide))).2.1 1001 (by decide) (by decide),
    (getLog_time_window envS5 dirS6 ctxS6 (paramsMax 1)).2.2.2.1 (by decide) 1001
      (by decide) (by decide)⟩

/-- C16, counterexample: the query of scenario S5 with the requested `since` of -1000
(one second before the epoch) returns the three entries, and the header `since` is null
and not the requested instant: the header writes null for every instant that is not
positive. In the journal with the entries `a@0` and `a@5`, the query without `since`
returns both, and the header `since` is 5, not the timestamp 0 of the first record: zero
is the sign of `no record yet` for `first_record_msec`. -/
theorem getLog_time_window_counterexample :
    (since_msec (paramsS5 (-1000) false) = -1000 ∧
      logMsecs (getLog envS5 dirS5 ctxS5 (paramsS5 (-1000) false)).1 = [110, 120, 210] ∧
      (getLog envS5 dirS5 ctxS5 (paramsS5 (-1000) false)).2.since = RpcValue.null) ∧
    (since_msec (paramsMax 1000) = 0 ∧
      logMsecs (getLog envS5 dirZero ctxZero (paramsMax 1000)).1 = [0, 5] ∧
      (getLog envS5 dirZero ctxZero (paramsMax 1000)).2.since = RpcValue.dateTime 5 0) :=
  ⟨⟨by decide, by decide, rfl⟩, ⟨by decide, by decide, rfl⟩⟩

/-! ## The window of a query -/

/-- Every state of the loop is the state after pushing the records of some entries, each
of which is an entry read that passes the filter, does not lie before the start instant
and lies before the end instant (property `P`), or an entry of the snapshot map
(property `S`). -/
theorem readEntries_emits2 (env : GetLogEnv) (params : ShvGetLogParams)
    (since until_ cap : Int) (P S : ShvJournalEntry → Prop) (l : List ShvJournalEntry) :
    ∀ st : GetLogState, (∀ kv ∈ st.snapshot, S kv.2) →
      (∀ e ∈ l, accepted env params e = true →
        (¬ isBefore since e → (until_ = 0 ∨ e.epochMsec < until_) → P e) ∧
        (isBefore since e → params.withSnapshot = true →
          e.sampleType = SampleType.Continuous → S { e with epochMsec := since })) →
      ∃ es : List ShvJournalEntry, (∀ x ∈ es, P x ∨ S x) ∧
        (readEntries env params since until_ cap st l).1.setSnapshot []
          = (pushAll params st es).setSnapshot [] := by
  induction l with
  | nil => intro st _ _; exact ⟨[], by simp, rfl⟩
  | cons e r ih =>
    intro st hs hl
    have hr : ∀ x ∈ r, accepted env params x = true →
        (¬ isBefore since x → (until_ = 0 ∨ x.epochMsec < until_) → P x) ∧
        (isBefore since x → params.withSnapshot = true →
          x.sampleType = SampleType.Continuous → S { x with epochMsec := since }) :=
      fun x hx => hl x (List.mem_cons_of_mem _ hx)
    have he := hl e (List.mem_cons_self _ _)
    by_cases ha : accepted env params e = true
    · by_cases hb : isBefore since e
      · have e1 := processEntry_before env params since until_ cap st e hb
        have e2 : readEntries env params since until_ cap st (e :: r)
            = readEntries env params since until_ cap
                (st.setSnapshot (snapshotStep env params since st.snapshot e)) r := by
          simp only [readEntries, e1, Bool.false_eq_true, if_false]
        obtain ⟨es, h1, h2⟩ := ih (st.setSnapshot (snapshotStep env params since st.snapshot e))
          (by
            intro kv hkv
            rcases snapshotStep_mem env params since st.snapshot e kv hkv with ⟨h, -, hw, hc⟩ | h
            · rw [h]; exact (he ha).2 hb hw hc
            · exact hs kv h) hr
        refine ⟨es, h1, ?_⟩
        rw [e2, h2, pushAll_setSnapshot, setSnapshot_setSnapshot]
      · obtain ⟨k, em, -, hem, h1, -, -, h4⟩ :=
          processEntry_post env params since until_ cap st e ha hb
        have hsb : ∀ x ∈ (snapBlock params st).take k ++ em, P x ∨ S x := by
          intro x hx
          rcases List.mem_append.mp hx with hx | hx
          · have hx2 := List.mem_of_mem_take hx
            unfold snapBlock at hx2
            split_ifs at hx2
            · obtain ⟨kv, hkv, hkx⟩ := List.mem_map.mp hx2
              rw [← hkx]; exact Or.inr (hs kv hkv)
            · simp at hx2
          · rcases hem with hem | ⟨hem, hu⟩
            · rw [hem] at hx; simp at hx
            · rw [hem] at hx
              simp only [List.mem_singleton] at hx
              rw [hx]; exact Or.inl ((he ha).1 hb hu)
        by_cases hf : (processEntry env params since until_ cap st e).2 = true
        · have e1 : readEntries env params since until_ cap st (e :: r)
              = processEntry env params since until_ cap st e := by
            simp only [readEntries, if_pos hf]
          exact ⟨_, hsb, by rw [e1, h1]⟩
        · have e1 : readEntries env params since until_ cap st (e :: r)
              = readEntries env params since until_ cap
                  (processEntry env params since until_ cap st e).1 r := by
            simp only [readEntries, if_neg hf]
          obtain ⟨es, i1, i2⟩ := ih (processEntry env params since until_ cap st e).1
            (by
              intro kv hkv
              rcases h4 with h | h
              · rw [h] at hkv; exact hs kv hkv
              · rw [h] at hkv; simp at hkv) hr
          refine ⟨((snapBlock params st).take k ++ em) ++ es, ?_, ?_⟩
          · intro x hx
            rcases List.mem_append.mp hx with hx | hx
            · exact hsb x hx
            · exact i1 x hx
          · rw [e1, i2, pushAll_append params st]
            exact setSnapshot_pushAll_congr params _ _ es h1
    · have ha2 : accepted env params e = false := by simpa using ha
      have e1 : readEntries env params since until_ cap st (e :: r)
          = readEntries env params since until_ cap st r := by
        simp only [readEntries, processEntry_rejected env params since until_ cap st e ha2,
          Bool.false_eq_true, if_false]
      obtain ⟨es, h1, h2⟩ := ih st hs hr
      exact ⟨es, h1, by rw [e1, h2]⟩

/-- The log of a query is the list of the records of entries that the loop pushed, with
the tokens of their paths. -/
theorem getLog_of_pushAll (env : GetLogEnv) (dir : JournalDir) (ctx : JournalContext)
    (params : ShvGetLogParams) (es : List ShvJournalEntry)
    (h : (getLogState env dir ctx params).setSnapshot []
      = (pushAll params {} es).setSnapshot []) :
    ∃ ids : List String, (getLog env dir ctx params).1
      = es.map (fun e => recordOf (tokenOf params ids e.path) e) := by
  obtain ⟨g1, -⟩ := setSnapshot_log _ _ h
  obtain ⟨ids, hinv⟩ := CacheInv_pushAll params es {} [] [] (CacheInv_init params)
  simp only [List.nil_append] at hinv
  exact ⟨ids, by rw [getLog_fst, g1, hinv.1]⟩

/-- C12: the query with the domain pattern `D` and without path pattern returns the entry
of domain `X`, which the pattern matcher of the query rejects: `getLog` consults the
matcher only when the path pattern is not empty. For every query with a path pattern, the
result is the list of the records of entries read, or of their copies stamped at the start
instant, whose path and domain the matcher accepts. -/
theorem getLog_domain_pattern_ignored :
    (envLit.pattern_matcher paramsDom entryDom.path entryDom.domain = false ∧
      (getLog envLit dirDom ctxDom paramsDom).1 = [recordOf (RpcValue.int 1) entryDom]) ∧
    ∀ (env : GetLogEnv) (dir : JournalDir) (ctx : JournalContext) (params : ShvGetLogParams),
      params.pathPattern.isEmpty = false →
      ∃ (es : List ShvJournalEntry) (ids : List String),
        (getLog env dir ctx params).1
          = es.map (fun e => recordOf (tokenOf params ids e.path) e) ∧
        ∀ x ∈ es, env.pattern_matcher params x.path x.domain = true ∧
          ∃ e0 ∈ entriesToRead dir ctx params,
            x = e0 ∨ x = { e0 with epochMsec := since_msec params } := by
  refine ⟨⟨rfl, rfl⟩, ?_⟩
  intro env dir ctx params hp
  have hacc : ∀ e : ShvJournalEntry, accepted env params e = true →
      env.pattern_matcher params e.path e.domain = true := by
    intro e he
    unfold accepted at he
    rw [hp] at he
    simpa using he
  obtain ⟨es, h1, h2⟩ := readEntries_emits2 env params (since_msec params) (until_msec params)
    (max_rec_cnt env params)
    (fun x => env.pattern_matcher params x.path x.domain = true ∧
      ∃ e0 ∈ entriesToRead dir ctx params,
        x = e0 ∨ x = { e0 with epochMsec := since_msec params })
    (fun x => env.pattern_matcher params x.path x.domain = true ∧
      ∃ e0 ∈ entriesToRead dir ctx params,
        x = e0 ∨ x = { e0 with epochMsec := since_msec params })
    (entriesToRead dir ctx params) {} (by simp [GetLogState.snapshot])
    (fun e he ha => ⟨fun _ _ => ⟨hacc e ha, e, he, Or.inl rfl⟩,
      fun _ _ _ => ⟨hacc e ha, e, he, Or.inr rfl⟩⟩)
  rw [← getLogState_eq] at h2
  obtain ⟨ids, hlog⟩ := getLog_of_pushAll env dir ctx params es h2
  exact ⟨es, ids, hlog, fun x hx => (h1 x hx).elim id id⟩

/-! ## Size limits -/

theorem digitChar_facts (d : Nat) (hd : d < 10) :
    digitVal (digitChar d) = some d ∧ isSpace (digitChar d) = false ∧
      digitChar d ≠ '-' ∧ digitChar d ≠ '+' := by
  interval_cases d <;> exact ⟨rfl, rfl, by decide, by decide⟩

theorem readDigits_digits (ds : List Nat) (hd : ∀ d ∈ ds, d < 10) (r : List Char)
    (hr : (r.head?.bind digitVal) = none) :
    ∀ acc : Int, readDigits acc (ds.map digitChar ++ r) = (decValFrom acc ds, r) := by
  induction ds with
  | nil =>
    intro acc
    cases r with
    | nil => rfl
    | cons c s =>
      have : digitVal c = none := by simpa using hr
      simp [readDigits, this, decValFrom]
  | cons d t ih =>
    intro acc
    have h1 := (digitChar_facts d (hd d (List.mem_cons_self _ _))).1
    simp only [List.map_cons, List.cons_append, readDigits, h1, decValFrom]
    exact ih (fun x hx => hd x (List.mem_cons_of_mem _ hx)) _

theorem decValFrom_nonneg (ds : List Nat) :
    ∀ acc : Int, 0 ≤ acc → 0 ≤ decValFrom acc ds := by
  induction ds with
  | nil => intro acc h; exact h
  | cons d t ih =>
    intro acc h
    exact ih _ (by positivity)

/-- The extraction of the number from a string of decimal digits followed by characters
that do not start with a digit. -/
theorem extractInt64_digits (ds : List Nat) (hne : ds ≠ []) (hd : ∀ d ∈ ds, d < 10)
    (r : List Char) (hr : (r.head?.bind digitVal) = none) (hmax : decVal ds ≤ INT64_MAX)
    (n0 : Int) :
    IStream.extractInt64 { rest := ds.map digitChar ++ r } n0 = ({ rest := r }, decVal ds) := by
  obtain ⟨d, t, rfl⟩ := List.exists_cons_of_ne_nil hne
  obtain ⟨f1, f2, f3, f4⟩ := digitChar_facts d (hd d (List.mem_cons_self _ _))
  have hrd := readDigits_digits (d :: t) hd r hr 0
  have hnn : 0 ≤ decVal (d :: t) := decValFrom_nonneg (d :: t) 0 (le_refl _)
  have hmin : ¬ (decVal (d :: t) < INT64_MIN) := by
    unfold INT64_MIN; omega
  have hmax2 : ¬ (decVal (d :: t) > INT64_MAX) := not_lt.mpr hmax
  rw [show decValFrom 0 (d :: t) = decVal (d :: t) from rfl] at hrd
  have hdrop : List.dropWhile isSpace (List.map digitChar (d :: t) ++ r)
      = List.map digitChar (d :: t) ++ r := by
    simp only [List.map_cons, List.cons_append]
    rw [List.dropWhile_cons_of_neg (by simp [f2])]
  have hhead : (List.map digitChar (d :: t) ++ r).head? = some (digitChar d) := rfl
  have hsign : ¬ ((some (digitChar d) : Option Char) = some '-' ∨
      (some (digitChar d) : Option Char) = some '+') := by
    simp [f3, f4]
  have hminus : ¬ ((some (digitChar d) : Option Char) = some '-') := by simp [f3]
  have hempty : (List.map digitChar (d :: t) ++ r).isEmpty = false := rfl
  have hdig : ((some (digitChar d) : Option Char).bind digitVal).isSome = true := by
    simp [f1]
  simp only [IStream.extractInt64, Bool.false_eq_true, if_false, hdrop, hempty, hhead,
    if_neg hsign, hdig, if_true, hrd, decide_eq_true_eq, if_neg hminus, if_neg hmax2,
    if_neg hmin]

theorem wrap64_of_range (n : Int) (h0 : INT64_MIN ≤ n) (h1 : n ≤ INT64_MAX) : wrap64 n = n := by
  unfold wrap64
  unfold INT64_MIN at h0
  unfold INT64_MAX at h1
  omega

theorem str_to_size_ge (n0 : Int) (c0 : Char) (str : String) : 1024 ≤ str_to_size n0 c0 str := by
  unfold str_to_size
  simp only
  split_ifs <;> omega

theorem str_to_size_digits (ds : List Nat) (hne : ds ≠ []) (hd : ∀ d ∈ ds, d < 10)
    (r : List Char) (hr : (r.head?.bind digitVal) = none) (hmax : decVal ds ≤ INT64_MAX)
    (n0 : Int) (c0 : Char) :
    str_to_size n0 c0 ⟨ds.map digitChar ++ r⟩
      = max 1024 (sizeSwitch (IStream.extractChar { rest := r } c0).2 (decVal ds)) := by
  unfold str_to_size
  simp only [extractInt64_digits ds hne hd r hr hmax n0]
  rw [max_def]
  split_ifs <;> omega

theorem sizeSwitch_suffix (sfx : Char) (i : Nat) (hs : (sfx, i) ∈ sizeSuffixes) (n : Int) :
    sizeSwitch sfx n = wrap64 (n * 1024 ^ i) ∧ digitVal sfx = none ∧
      ∀ c0, (IStream.extractChar { rest := [sfx] } c0).2 = sfx := by
  simp only [sizeSuffixes, List.mem_cons, Prod.mk.injEq, List.mem_singleton, List.not_mem_nil,
    or_false] at hs
  rcases hs with ⟨rfl, rfl⟩ | ⟨rfl, rfl⟩ | ⟨rfl, rfl⟩ | ⟨rfl, rfl⟩ | ⟨rfl, rfl⟩ | ⟨rfl, rfl⟩ <;>
    exact ⟨rfl, rfl, fun _ => rfl⟩

/-- The size of a number with a suffix: the number times the power of 1024 of the
suffix, and at least 1024. -/
theorem str_to_size_suffix (n0 : Int) (c0 : Char) (ds : List Nat) (hne : ds ≠ [])
    (hd : ∀ d ∈ ds, d < 10) (sfx : Char) (i : Nat) (hs : (sfx, i) ∈ sizeSuffixes)
    (hmax : decVal ds * 1024 ^ i ≤ INT64_MAX) :
    str_to_size n0 c0 ⟨ds.map digitChar ++ [sfx]⟩ = max 1024 (decVal ds * 1024 ^ i) := by
  have hnn : 0 ≤ decVal ds := decValFrom_nonneg ds 0 (le_refl _)
  have hmin : INT64_MIN ≤ decVal ds * 1024 ^ i := by
    have : (0 : Int) ≤ decVal ds * 1024 ^ i := by positivity
    unfold INT64_MIN; omega
  have hle : decVal ds ≤ decVal ds * 1024 ^ i := by
    have h1 : (1 : Int) ≤ 1024 ^ i := one_le_pow₀ (by norm_num)
    nlinarith
  obtain ⟨h1, h2, h3⟩ := sizeSwitch_suffix sfx i hs (decVal ds)
  rw [str_to_size_digits ds hne hd [sfx] (by simpa using h2) (le_trans hle hmax) n0 c0, h3, h1,
    wrap64_of_range _ hmin hmax]

/-- The size of a number without suffix, when the local `c` does not happen to hold one of
the letters of a suffix. -/
theorem str_to_size_plain (n0 : Int) (c0 : Char) (ds : List Nat) (hne : ds ≠ [])
    (hd : ∀ d ∈ ds, d < 10) (hmax : decVal ds ≤ INT64_MAX)
    (hK : c0.toUpper ≠ 'K') (hM : c0.toUpper ≠ 'M') (hG : c0.toUpper ≠ 'G') :
    str_to_size n0 c0 ⟨ds.map digitChar⟩ = max 1024 (decVal ds) := by
  have h := str_to_size_digits ds hne hd [] rfl hmax n0 c0
  rw [List.append_nil] at h
  rw [h]
  have hc : (IStream.extractChar { rest := [] } c0).2 = c0 := rfl
  rw [hc, sizeSwitch, if_neg hK, if_neg hM, if_neg hG]

/-- C18: the size of the string `2048` is 2097152, not 2048, when the local `c`, which is
declared without initialiser and not assigned for a string without suffix, holds the
letter `K`. For every string and all initial values of the locals the size is at least
1024; for decimal digits followed by a suffix it is the number times the power of 1024 of
the suffix, and at least 1024; for decimal digits alone it is the number, and at least
1024, as long as the local `c` holds none of the letters of a suffix. -/
theorem str_to_size_uninitialised :
    (∀ n0 : Int, str_to_size n0 'K' "2048" = 2097152) ∧
    (∀ (n0 : Int) (c0 : Char) (str : String), 1024 ≤ str_to_size n0 c0 str) ∧
    (∀ (n0 : Int) (c0 : Char) (ds : List Nat) (sfx : Char) (i : Nat), ds ≠ [] →
      (∀ d ∈ ds, d < 10) → (sfx, i) ∈ sizeSuffixes → decVal ds * 1024 ^ i ≤ INT64_MAX →
      str_to_size n0 c0 ⟨ds.map digitChar ++ [sfx]⟩ = max 1024 (decVal ds * 1024 ^ i)) ∧
    (∀ (n0 : Int) (c0 : Char) (ds : List Nat), ds ≠ [] → (∀ d ∈ ds, d < 10) →
      decVal ds ≤ INT64_MAX → c0.toUpper ≠ 'K' → c0.toUpper ≠ 'M' → c0.toUpper ≠ 'G' →
      str_to_size n0 c0 ⟨ds.map digitChar⟩ = max 1024 (decVal ds)) :=
  ⟨fun _ => rfl, str_to_size_ge,
    fun n0 c0 ds sfx i hne hd hs hmax => str_to_size_suffix n0 c0 ds hne hd sfx i hs hmax,
    fun n0 c0 ds hne hd hmax hK hM hG => str_to_size_plain n0 c0 ds hne hd hmax hK hM hG⟩

/-! ## Journal directory -/

theorem String_replace_three (s : String) :
    String_replace (String_replace (String_replace s '/' '-') ':' '-') '.' '-' = sanitizedId s := by
  unfold String_replace sanitizedId
  simp only [List.map_map]
  congr 1
  apply List.map_congr_left
  intro c _
  simp only [Function.comp]
  by_cases h1 : c = '/'
  · subst h1; decide
  · by_cases h2 : c = ':'
    · subst h2; decide
    · by_cases h3 : c = '.'
      · subst h3; decide
      · simp [h1, h2, h3]

theorem fallback_not_empty (s : String) : ("/tmp/shvjournal/" ++ s).isEmpty = false := by
  cases h : ("/tmp/shvjournal/" ++ s).isEmpty with
  | false => rfl
  | true =>
    have h2 := (String.isEmpty_iff _).mp h
    have h3 := congrArg String.data h2
    rw [String.data_append] at h3
    simp at h3

/-- C20: when the journal directory is set, `journalDir()` returns it and leaves the
journal object as it is. When it is not set and the device id is not empty,
`journalDir()` returns `/tmp/shvjournal/` followed by the device id with every `/`, `:`
and `.` replaced by `-`, a suffix that holds none of these characters; it stores this
directory in the context and changes nothing else, and every later call returns the same
directory and leaves the journal object as it is. -/
theorem journalDir_fallback (j : ShvFileJournal) :
    (j.m_journalContext.journalDir.isEmpty = false →
      j.journalDir = (j.m_journalContext.journalDir, j)) ∧
    (j.m_journalContext.journalDir.isEmpty = true →
      j.m_journalContext.deviceId.isEmpty = false →
      j.journalDir.1 = "/tmp/shvjournal/" ++ sanitizedId j.m_journalContext.deviceId ∧
      (sanitizedId j.m_journalContext.deviceId).data.length
        = j.m_journalContext.deviceId.data.length ∧
      (∀ c ∈ (sanitizedId j.m_journalContext.deviceId).data, c ≠ '/' ∧ c ≠ ':' ∧ c ≠ '.') ∧
      j.journalDir.2
        = { j with m_journalContext :=
              { j.m_journalContext with journalDir := j.journalDir.1 } } ∧
      j.journalDir.2.journalDir = (j.journalDir.1, j.journalDir.2)) := by
  constructor
  · intro h
    simp only [ShvFileJournal.journalDir, h, Bool.false_eq_true, if_false]
  · intro h hid
    have e : j.journalDir
        = ("/tmp/shvjournal/" ++ sanitizedId j.m_journalContext.deviceId,
            { j with m_journalContext :=
              { j.m_journalContext with
                journalDir := "/tmp/shvjournal/" ++ sanitizedId j.m_journalContext.deviceId } }) := by
      simp only [ShvFileJournal.journalDir, h, hid, Bool.false_eq_true, if_false, if_true,
        String_replace_three]
    refine ⟨by rw [e], ?_, ?_, by rw [e], ?_⟩
    · simp [sanitizedId]
    · intro c hc
      simp only [sanitizedId, List.mem_map] at hc
      obtain ⟨a, -, ha⟩ := hc
      by_cases hs : a = '/' ∨ a = ':' ∨ a = '.'
      · rw [if_pos hs] at ha
        rw [← ha]; decide
      · rw [if_neg hs] at ha
        rw [← ha]
        exact ⟨fun h => hs (Or.inl h), fun h => hs (Or.inr (Or.inl h)),
          fun h => hs (Or.inr (Or.inr h))⟩
    · rw [e]
      simp only [ShvFileJournal.journalDir, fallback_not_empty, Bool.false_eq_true, if_false]

/-- C20, witness: the device `a/b:c.d` without journal directory gets the directory
`/tmp/shvjournal/a-b-c-d`, and a second call returns the same; the journal directory
`/var/log/shv` is returned as it is. -/
theorem journalDir_fallback_witness :
    journalWithDir.m_journalContext.journalDir.isEmpty = false ∧
      journalWithDir.journalDir.1 = "/var/log/shv" ∧
      journalNoDir.m_journalContext.journalDir.isEmpty = true ∧
      journalNoDir.m_journalContext.deviceId.isEmpty = false ∧
      journalNoDir.journalDir.1 = "/tmp/shvjournal/a-b-c-d" ∧
      journalNoDir.journalDir.2.journalDir.1 = "/tmp/shvjournal/a-b-c-d" :=
  ⟨rfl, congrArg Prod.fst ((journalDir_fallback journalWithDir).1 rfl), rfl, rfl,
    ((journalDir_fallback journalNoDir).2 rfl rfl).1.trans (by decide),
    (congrArg Prod.fst ((journalDir_fallback journalNoDir).2 rfl rfl).2.2.2.2).trans
      (((journalDir_fallback journalNoDir).2 rfl rfl).1.trans (by decide))⟩

/-! ## Log header and meta-data -/

theorem MetaData.find_setValue (md : MetaData) (k : String) (v : RpcValue) (k2 : String) :
    StdMap.find (MetaData.setValue md k v) k2 = if k2 = k then some v else StdMap.find md k2 :=
  StdMap.find_insert md k v k2

theorem StdMap.find_ite {K V : Type} [DecidableEq K] (c : Prop) [Decidable c]
    (m1 m2 : StdMap K V) (k : K) :
    StdMap.find (if c then m1 else m2) k = if c then StdMap.find m1 k else StdMap.find m2 k := by
  split_ifs <;> rfl

theorem MetaData.value_eq (md : MetaData) (k : String) :
    MetaData.value md k = (StdMap.find md k).getD RpcValue.invalid := by
  unfold MetaData.value RpcValueMap_value
  cases StdMap.find md k <;> rfl

/-- The bindings of the meta-data that `toMetaData` writes, key by key. -/
theorem toMetaData_find (codec : ParamsCodec) (h : ShvLogHeader) :
    StdMap.find (h.toMetaData codec) "device"
        = (if (!h.deviceMap.isEmpty) = true then some (RpcValue.map h.deviceMap) else none) ∧
      StdMap.find (h.toMetaData codec) "logVersion" = some (RpcValue.int h.logVersion) ∧
      StdMap.find (h.toMetaData codec) "logParams"
        = some (codec.toRpcValue (h.logParamsOr codec)) ∧
      StdMap.find (h.toMetaData codec) "recordCount" = some (RpcValue.int h.recordCount) ∧
      StdMap.find (h.toMetaData codec) "recordCountLimit"
        = some (RpcValue.int h.recordCountLimit) ∧
      StdMap.find (h.toMetaData codec) "withUptime" = some (RpcValue.bool h.withUptime) ∧
      StdMap.find (h.toMetaData codec) "withSnapShot" = some (RpcValue.bool h.withSnapShot) ∧
      StdMap.find (h.toMetaData codec) "fields"
        = (if (!h.fields.isEmpty) = true then some (RpcValue.list h.fields) else none) ∧
      StdMap.find (h.toMetaData codec) "pathDict"
        = (if (!h.pathDict.isEmpty) = true then some (RpcValue.imap h.pathDict) else none) ∧
      StdMap.find (h.toMetaData codec) "typeInfo"
        = (if (!h.m_typeInfos.isEmpty) = true then
            if h.m_typeInfos.length = 1 ∧ StdMap.count h.m_typeInfos "." = 1 then
              some (RpcValueMap_value h.m_typeInfos ".")
            else none
          else none) ∧
      StdMap.find (h.toMetaData codec) "typeInfos"
        = (if (!h.m_typeInfos.isEmpty) = true then
            if h.m_typeInfos.length = 1 ∧ StdMap.count h.m_typeInfos "." = 1 then none
            else some (RpcValue.map h.m_typeInfos)
          else none) ∧
      StdMap.find (h.toMetaData codec) "dateTime" = some h.dateTime ∧
      StdMap.find (h.toMetaData codec) "since" = some h.since ∧
      StdMap.find (h.toMetaData codec) "until" = some h.until_ := by
  refine ⟨?_, ?_, ?_, ?_, ?_, ?_, ?_, ?_, ?_, ?_, ?_, ?_, ?_, ?_⟩ <;>
    simp [ShvLogHeader.toMetaData, MetaData.find_setValue, StdMap.find_ite, StdMap.find]

theorem deviceMap_spec (h : ShvLogHeader) :
    (h.deviceMap.isEmpty = true ↔ h.deviceId.isEmpty = true ∧ h.deviceType.isEmpty = true) ∧
      (RpcValueMap_value h.deviceMap "id").toString = h.deviceId ∧
      (RpcValueMap_value h.deviceMap "type").toString = h.deviceType := by
  have hins : ∀ a b : RpcValue,
      StdMap.insert [(("id" : String), a)] "type" b = [("id", a), ("type", b)] := fun _ _ => rfl
  cases hi : h.deviceId.isEmpty <;> cases ht : h.deviceType.isEmpty
  · have hm : h.deviceMap
        = [("id", RpcValue.string h.deviceId), ("type", RpcValue.string h.deviceType)] := by
      simp only [ShvLogHeader.deviceMap, hi, ht, Bool.not_false, if_true]
      exact hins _ _
    rw [hm]
    exact ⟨by simp, rfl, rfl⟩
  · have e2 := (String.isEmpty_iff _).mp ht
    have hm : h.deviceMap = [("id", RpcValue.string h.deviceId)] := by
      simp only [ShvLogHeader.deviceMap, hi, ht, Bool.not_false, Bool.not_true, if_true,
        Bool.false_eq_true, if_false]
      rfl
    rw [hm]
    exact ⟨by simp, rfl, e2.symm⟩
  · have e1 := (String.isEmpty_iff _).mp hi
    have hm : h.deviceMap = [("type", RpcValue.string h.deviceType)] := by
      simp only [ShvLogHeader.deviceMap, hi, ht, Bool.not_false, Bool.not_true, if_true,
        Bool.false_eq_true, if_false]
      rfl
    rw [hm]
    exact ⟨by simp, e1.symm, rfl⟩
  · have e1 := (String.isEmpty_iff _).mp hi
    have e2 := (String.isEmpty_iff _).mp ht
    have hm : h.deviceMap = [] := by
      simp only [ShvLogHeader.deviceMap, hi, ht, Bool.not_true, Bool.false_eq_true, if_false]
    rw [hm]
    exact ⟨by simp, e1.symm, e2.symm⟩

/-- The test of `toMetaData` for a single type info under the prefix `.`. -/
theorem single_dot_iff (m : StdMap String RpcValue) :
    (m.length = 1 ∧ StdMap.count m "." = 1) ↔ m.map Prod.fst = ["."] := by
  cases m with
  | nil => simp
  | cons kv r =>
    obtain ⟨k, v⟩ := kv
    cases r with
    | nil =>
      by_cases hk : k = "."
      · simp [StdMap.count, StdMap.find, hk]
      · simp [StdMap.count, StdMap.find, hk]
    | cons kv2 r2 => simp

/-- The type infos that `fromMetaData` rebuilds from what `toMetaData` has written are the
type infos of the header, unless the header holds a single type info under the prefix `.`
that is not a map. -/
theorem typeInfos_roundtrip (T : StdMap String RpcValue)
    (hti : T.map Prod.fst = ["."] → (RpcValueMap_value T ".").isMap = true) :
    (if (((if (!T.isEmpty) = true then
            if T.length = 1 ∧ StdMap.count T "." = 1 then some (RpcValueMap_value T ".")
            else none
          else none) : Option RpcValue).getD RpcValue.invalid).isMap = true then
        StdMap.insert
          (((if (!T.isEmpty) = true then
              if T.length = 1 ∧ StdMap.count T "." = 1 then none else some (RpcValue.map T)
            else none) : Option RpcValue).getD RpcValue.invalid).toMap "."
          (((if (!T.isEmpty) = true then
            if T.length = 1 ∧ StdMap.count T "." = 1 then some (RpcValueMap_value T ".")
            else none
          else none) : Option RpcValue).getD RpcValue.invalid)
      else
        (((if (!T.isEmpty) = true then
            if T.length = 1 ∧ StdMap.count T "." = 1 then none else some (RpcValue.map T)
          else none) : Option RpcValue).getD RpcValue.invalid).toMap) = T := by
  cases T with
  | nil => rfl
  | cons kv r =>
    have hne : (!((kv :: r).isEmpty)) = true := rfl
    simp only [hne, if_true]
    by_cases hs : (kv :: r).length = 1 ∧ StdMap.count (kv :: r) "." = 1
    · have hk := (single_dot_iff _).mp hs
      have hm := hti hk
      simp only [if_pos hs, Option.getD_some, Option.getD_none, hm, if_true, RpcValue.toMap]
      obtain ⟨k, v⟩ := kv
      cases r with
      | nil =>
        simp only [List.map_cons, List.map_nil, List.cons.injEq, and_true] at hk
        subst hk
        simp [RpcValueMap_value, StdMap.find, StdMap.insert]
      | cons kv2 r2 => simp at hk
    · simp only [if_neg hs, Option.getD_some, Option.getD_none, RpcValue.isMap,
        Bool.false_eq_true, if_false, RpcValue.toMap]

/-- C13, amended: for every header whose parameters survive the conversion to and from an
`RpcValue`, and which does not hold a single type info under the prefix `.` that is not
a map, `fromMetaData (toMetaData h)` is `h`, field by field. -/
theorem header_roundtrip (codec : ParamsCodec) (h : ShvLogHeader)
    (hcodec : codec.fromRpcValue (codec.toRpcValue (h.logParamsOr codec)) = h.logParamsOr codec)
    (hti : h.m_typeInfos.map Prod.fst = ["."] →
      (RpcValueMap_value h.m_typeInfos ".").isMap = true) :
    ShvLogHeader.fromMetaData codec (h.toMetaData codec)
      = { h with logParams := some (h.logParamsOr codec) } := by
  obtain ⟨f1, f2, f3, f4, f5, f6, f7, f8, f9, f10, f11, f12, f13, f14⟩ := toMetaData_find codec h
  obtain ⟨d1, d2, d3⟩ := deviceMap_spec h
  have hdev : ((if (!h.deviceMap.isEmpty) = true then some (RpcValue.map h.deviceMap)
      else none : Option RpcValue).getD RpcValue.invalid).toMap = h.deviceMap := by
    cases he : h.deviceMap.isEmpty
    · rfl
    · have : h.deviceMap = [] := List.isEmpty_iff.mp he
      rw [this]; rfl
  have hfields : ((if (!h.fields.isEmpty) = true then some (RpcValue.list h.fields)
      else none : Option RpcValue).getD RpcValue.invalid).toList = h.fields := by
    cases he : h.fields.isEmpty
    · rfl
    · have : h.fields = [] := List.isEmpty_iff.mp he
      rw [this]; rfl
  have hdict : ((if (!h.pathDict.isEmpty) = true then some (RpcValue.imap h.pathDict)
      else none : Option RpcValue).getD RpcValue.invalid).toIMap = h.pathDict := by
    cases he : h.pathDict.isEmpty
    · rfl
    · have : h.pathDict = [] := List.isEmpty_iff.mp he
      rw [this]; rfl
  have hT := typeInfos_roundtrip h.m_typeInfos hti
  simp only [ShvLogHeader.fromMetaData, MetaData.value_eq, f1, f2, f3, f4, f5, f6, f7, f8, f9,
    f10, f11, f12, f13, f14, hdev, hfields, hdict, hT, d2, d3, hcodec, Option.getD_some,
    RpcValue.toInt, RpcValue.toBool]

/-- C13, witness: a header with a device, fields, a path dictionary and a type info that
is a map. -/
theorem header_roundtrip_witness :
    codecEx.fromRpcValue (codecEx.toRpcValue (headerEx.logParamsOr codecEx))
        = headerEx.logParamsOr codecEx ∧
      (headerEx.m_typeInfos.map Prod.fst = ["."] →
        (RpcValueMap_value headerEx.m_typeInfos ".").isMap = true) ∧
      ShvLogHeader.fromMetaData codecEx (headerEx.toMetaData codecEx)
        = { headerEx with logParams := some (headerEx.logParamsOr codecEx) } :=
  ⟨rfl, fun _ => rfl, header_roundtrip codecEx headerEx rfl (fun _ => rfl)⟩

/-- C13, counterexample: the header whose type info for the prefix `.` is the integer 5
is encoded with the key `typeInfo` bound to 5, and decoded to a header without type
infos: `fromMetaData` takes the value of `typeInfo` only when it is a map. -/
theorem header_roundtrip_counterexample :
    headerIntTypeInfo.m_typeInfos = [(".", RpcValue.int 5)] ∧
      StdMap.find (headerIntTypeInfo.toMetaData codecEx) "typeInfo" = some (RpcValue.int 5) ∧
      (ShvLogHeader.fromMetaData codecEx (headerIntTypeInfo.toMetaData codecEx)).m_typeInfos
        = [] ∧
      codecEx.fromRpcValue (codecEx.toRpcValue (headerIntTypeInfo.logParamsOr codecEx))
        = headerIntTypeInfo.logParamsOr codecEx :=
  ⟨rfl, rfl, rfl, rfl⟩

/-- C14: in the meta-data that `toMetaData` writes, the key `device` is bound exactly
when the device id or the device type is not empty, `fields` and `pathDict` exactly when
they are not empty, `typeInfo` exactly when the only prefix of the type infos is `.` (and
then to the type info of this prefix), `typeInfos` exactly when there are type infos and
`.` is not their only prefix (and then to the map of all of them), so never both and
neither when there are none; the keys `logVersion`, `logParams`, `recordCount`,
`recordCountLimit`, `withUptime`, `withSnapShot`, `dateTime`, `since` and `until` are bound
for every header. -/
theorem toMetaData_keys (codec : ParamsCodec) (h : ShvLogHeader) :
    ((StdMap.find (h.toMetaData codec) "device").isSome = true
        ↔ ¬ (h.deviceId.isEmpty = true ∧ h.deviceType.isEmpty = true)) ∧
      ((StdMap.find (h.toMetaData codec) "fields").isSome = true ↔ h.fields ≠ []) ∧
      ((StdMap.find (h.toMetaData codec) "pathDict").isSome = true ↔ h.pathDict ≠ []) ∧
      ((StdMap.find (h.toMetaData codec) "typeInfo").isSome = true
        ↔ h.m_typeInfos.map Prod.fst = ["."]) ∧
      ((StdMap.find (h.toMetaData codec) "typeInfos").isSome = true
        ↔ h.m_typeInfos ≠ [] ∧ h.m_typeInfos.map Prod.fst ≠ ["."]) ∧
      (h.m_typeInfos.map Prod.fst = ["."] → StdMap.find (h.toMetaData codec) "typeInfo"
        = some (RpcValueMap_value h.m_typeInfos ".")) ∧
      (h.m_typeInfos ≠ [] → h.m_typeInfos.map Prod.fst ≠ ["."] →
        StdMap.find (h.toMetaData codec) "typeInfos" = some (RpcValue.map h.m_typeInfos)) ∧
      (∀ k ∈ alwaysKeys, (StdMap.find (h.toMetaData codec) k).isSome = true) := by
  obtain ⟨f1, f2, f3, f4, f5, f6, f7, f8, f9, f10, f11, f12, f13, f14⟩ := toMetaData_find codec h
  obtain ⟨d1, -, -⟩ := deviceMap_spec h
  have hE : ∀ {α : Type} (l : List α), (!l.isEmpty) = true ↔ l ≠ [] := by
    intro α l
    cases l <;> simp
  have hsd := single_dot_iff h.m_typeInfos
  refine ⟨?_, ?_, ?_, ?_, ?_, ?_, ?_, ?_⟩
  · rw [f1, ← d1]
    cases h.deviceMap.isEmpty <;> simp
  · rw [f8, ← hE]
    cases h.fields.isEmpty <;> simp
  · rw [f9, ← hE]
    cases h.pathDict.isEmpty <;> simp
  · rw [f10, ← hsd]
    by_cases hs : h.m_typeInfos.length = 1 ∧ StdMap.count h.m_typeInfos "." = 1
    · have hne : (!h.m_typeInfos.isEmpty) = true := by
        rw [hE]
        intro h0
        rw [h0] at hs
        simp at hs
      simp only [hne, if_true, if_pos hs, Option.isSome_some, true_iff]
      exact hs
    · simp only [if_neg hs, ite_self, Option.isSome_none, Bool.false_eq_true, false_iff]
      exact hs
  · rw [f11]
    by_cases hs : h.m_typeInfos.length = 1 ∧ StdMap.count h.m_typeInfos "." = 1
    · simp only [if_pos hs, ite_self, Option.isSome_none, Bool.false_eq_true, false_iff]
      exact fun hc => hc.2 (hsd.mp hs)
    · have hk : h.m_typeInfos.map Prod.fst ≠ ["."] := fun hc => hs (hsd.mpr hc)
      cases hne : (!h.m_typeInfos.isEmpty)
      · have h0 : ¬ (h.m_typeInfos ≠ []) := by
          rw [← hE, hne]; simp
        simp only [Bool.false_eq_true, if_false, Option.isSome_none, false_iff]
        exact fun hc => h0 hc.1
      · have h1 : h.m_typeInfos ≠ [] := (hE _).mp hne
        simp only [if_true, if_neg hs, Option.isSome_some, true_iff]
        exact ⟨h1, hk⟩
  · intro hk
    have hs := hsd.mpr hk
    have hne : (!h.m_typeInfos.isEmpty) = true := by
      rw [hE]
      intro h0
      rw [h0] at hk
      simp at hk
    rw [f10, if_pos hne, if_pos hs]
  · intro hne hk
    have hs : ¬ (h.m_typeInfos.length = 1 ∧ StdMap.count h.m_typeInfos "." = 1) :=
      fun hc => hk (hsd.mp hc)
    rw [f11, if_pos ((hE _).mpr hne), if_neg hs]
  · intro k hk
    simp only [alwaysKeys, List.mem_cons, List.mem_singleton, List.not_mem_nil, or_false] at hk
    rcases hk with rfl | rfl | rfl | rfl | rfl | rfl | rfl | rfl | rfl
    · rw [f2]; rfl
    · rw [f3]; rfl
    · rw [f4]; rfl
    · rw [f5]; rfl
    · rw [f6]; rfl
    · rw [f7]; rfl
    · rw [f12]; rfl
    · rw [f13]; rfl
    · rw [f14]; rfl

/-- C14, witness: the header `headerEx` with a device, fields, a path dictionary and a
type info under the prefix `.` only. -/
theorem toMetaData_keys_witness :
    (StdMap.find (headerEx.toMetaData codecEx) "device").isSome = true ∧
      (StdMap.find (headerEx.toMetaData codecEx) "fields").isSome = true ∧
      (StdMap.find (headerEx.toMetaData codecEx) "typeInfo").isSome = true ∧
      (StdMap.find (headerEx.toMetaData codecEx) "typeInfos").isSome = false ∧
      (StdMap.find (({} : ShvLogHeader).toMetaData codecEx) "device").isSome = false ∧
      ∀ k ∈ alwaysKeys, (StdMap.find (headerEx.toMetaData codecEx) k).isSome = true :=
  ⟨(toMetaData_keys codecEx headerEx).1.mpr (by decide),
    (toMetaData_keys codecEx headerEx).2.1.mpr (List.cons_ne_nil _ _),
    (toMetaData_keys codecEx headerEx).2.2.2.1.mpr rfl, rfl, rfl,
    (toMetaData_keys codecEx headerEx).2.2.2.2.2.2.2⟩

/-- C15: `fromMetaData` is total, and for every meta-data map it yields the default of a
member whose key is missing: the empty string for the device id and type when `device` is
missing, zero for `logVersion`, `recordCount` and `recordCountLimit`, false for
`withUptime` and `withSnapShot`, the empty list or map for `fields`, `pathDict` and, when
`typeInfos` and `typeInfo` are both missing, the type infos, and the invalid value for
`dateTime`, `since` and `until`; the empty meta-data map decodes to the header with all
members at their defaults and the parameters decoded from the invalid value. -/
theorem fromMetaData_defaults (codec : ParamsCodec) (md : MetaData) :
    (StdMap.find md "device" = none →
      (ShvLogHeader.fromMetaData codec md).deviceId = "" ∧
      (ShvLogHeader.fromMetaData codec md).deviceType = "") ∧
    (StdMap.find md "logVersion" = none → (ShvLogHeader.fromMetaData codec md).logVersion = 0) ∧
    (StdMap.find md "recordCount" = none →
      (ShvLogHeader.fromMetaData codec md).recordCount = 0) ∧
    (StdMap.find md "recordCountLimit" = none →
      (ShvLogHeader.fromMetaData codec md).recordCountLimit = 0) ∧
    (StdMap.find md "withUptime" = none →
      (ShvLogHeader.fromMetaData codec md).withUptime = false) ∧
    (StdMap.find md "withSnapShot" = none →
      (ShvLogHeader.fromMetaData codec md).withSnapShot = false) ∧
    (StdMap.find md "fields" = none → (ShvLogHeader.fromMetaData codec md).fields = []) ∧
    (StdMap.find md "pathDict" = none → (ShvLogHeader.fromMetaData codec md).pathDict = []) ∧
    (StdMap.find md "typeInfos" = none → StdMap.find md "typeInfo" = none →
      (ShvLogHeader.fromMetaData codec md).m_typeInfos = []) ∧
    (StdMap.find md "dateTime" = none →
      (ShvLogHeader.fromMetaData codec md).dateTime = RpcValue.invalid) ∧
    (StdMap.find md "since" = none →
      (ShvLogHeader.fromMetaData codec md).since = RpcValue.invalid) ∧
    (StdMap.find md "until" = none →
      (ShvLogHeader.fromMetaData codec md).until_ = RpcValue.invalid) ∧
    (StdMap.find md "logParams" = none → (ShvLogHeader.fromMetaData codec md).logParams
      = some (codec.fromRpcValue RpcValue.invalid)) ∧
    ShvLogHeader.fromMetaData codec []
      = { logParams := some (codec.fromRpcValue RpcValue.invalid) } := by
  refine ⟨?_, ?_, ?_, ?_, ?_, ?_, ?_, ?_, ?_, ?_, ?_, ?_, ?_, rfl⟩
  · intro h
    simp only [ShvLogHeader.fromMetaData, MetaData.value_eq, h]
    exact ⟨rfl, rfl⟩
  · intro h
    simp only [ShvLogHeader.fromMetaData, MetaData.value_eq, h]
    rfl
  · intro h
    simp only [ShvLogHeader.fromMetaData, MetaData.value_eq, h]
    rfl
  · intro h
    simp only [ShvLogHeader.fromMetaData, MetaData.value_eq, h]
    rfl
  · intro h
    simp only [ShvLogHeader.fromMetaData, MetaData.value_eq, h]
    rfl
  · intro h
    simp only [ShvLogHeader.fromMetaData, MetaData.value_eq, h]
    rfl
  · intro h
    simp only [ShvLogHeader.fromMetaData, MetaData.value_eq, h]
    rfl
  · intro h
    simp only [ShvLogHeader.fromMetaData, MetaData.value_eq, h]
    rfl
  · intro h1 h2
    simp only [ShvLogHeader.fromMetaData, MetaData.value_eq, h1, h2]
    rfl
  · intro h
    simp only [ShvLogHeader.fromMetaData, MetaData.value_eq, h]
    rfl
  · intro h
    simp only [ShvLogHeader.fromMetaData, MetaData.value_eq, h]
    rfl
  · intro h
    simp only [ShvLogHeader.fromMetaData, MetaData.value_eq, h]
    rfl
  · intro h
    simp only [ShvLogHeader.fromMetaData, MetaData.value_eq, h]
    rfl

/-- C15, witness: the meta-data map that binds `recordCount` only. -/
theorem fromMetaData_defaults_witness :
    StdMap.find [(("recordCount" : String), RpcValue.int 7)] "logVersion" = none ∧
      (ShvLogHeader.fromMetaData codecEx [("recordCount", RpcValue.int 7)]).logVersion = 0 ∧
      (ShvLogHeader.fromMetaData codecEx [("recordCount", RpcValue.int 7)]).recordCount = 7 ∧
      (ShvLogHeader.fromMetaData codecEx [("recordCount", RpcValue.int 7)]).deviceId = "" ∧
      ShvLogHeader.fromMetaData codecEx []
        = { logParams := some (codecEx.fromRpcValue RpcValue.invalid) } :=
  ⟨rfl, (fromMetaData_defaults codecEx [("recordCount", RpcValue.int 7)]).2.1 rfl, rfl,
    ((fromMetaData_defaults codecEx [("recordCount", RpcValue.int 7)]).1 rfl).1,
    (fromMetaData_defaults codecEx []).2.2.2.2.2.2.2.2.2.2.2.2.2⟩

/-! ## Agreement of header and result -/

/-- C28: for every journal and all parameters, the result of `getLog` is the list of the
records of entries `es`, each an entry read or its copy stamped at the start instant; the
header has the number of records as `recordCount` and
`min(maxRecordCount, DEFAULT_GET_LOG_RECORD_COUNT_LIMIT)` as `recordCountLimit`; and the
record of an entry is the list of exactly five values: the date-time of its timestamp,
the path token, the value, the short-time, which is null exactly when the entry has no
short-time, and the domain, which is null exactly when the domain of the entry is
empty. -/
theorem getLog_header_agreement (env : GetLogEnv) (dir : JournalDir) (ctx : JournalContext)
    (params : ShvGetLogParams) :
    (getLog env dir ctx params).2.recordCount = (getLog env dir ctx params).1.length ∧
      (getLog env dir ctx params).2.recordCountLimit
        = min params.maxRecordCount env.DEFAULT_GET_LOG_RECORD_COUNT_LIMIT ∧
      ∃ (es : List ShvJournalEntry) (ids : List String),
        (getLog env dir ctx params).1
          = es.map (fun e => recordOf (tokenOf params ids e.path) e) ∧
        (∀ x ∈ es, ∃ e0 ∈ entriesToRead dir ctx params,
          x = e0 ∨ x = { e0 with epochMsec := since_msec params }) ∧
        ∀ x ∈ es, ∃ st dom : RpcValue,
          recordOf (tokenOf params ids x.path) x
            = RpcValue.list [RpcValue.dateTime x.epochMsec 0, tokenOf params ids x.path,
                x.value, st, dom] ∧
          (st = RpcValue.null ↔ x.shortTime = NO_SHORT_TIME) ∧
          (x.shortTime ≠ NO_SHORT_TIME → st = RpcValue.int x.shortTime) ∧
          (dom = RpcValue.null ↔ x.domain.isEmpty = true) ∧
          (x.domain.isEmpty = false → dom = RpcValue.string x.domain) := by
  obtain ⟨h1, -, -⟩ := TimesInv_getLogState env dir ctx params
  obtain ⟨f1, f2, -⟩ := getLog_snd_fields env dir ctx params
  obtain ⟨es, hes, h2⟩ := readEntries_emits env params (since_msec params) (until_msec params)
    (max_rec_cnt env params)
    (fun x => ∃ e0 ∈ entriesToRead dir ctx params,
      x = e0 ∨ x = { e0 with epochMsec := since_msec params })
    (entriesToRead dir ctx params) {} (by simp [GetLogState.snapshot])
    (fun e he => ⟨⟨e, he, Or.inl rfl⟩, ⟨e, he, Or.inr rfl⟩⟩)
  rw [← getLogState_eq] at h2
  obtain ⟨ids, hlog⟩ := getLog_of_pushAll env dir ctx params es h2
  refine ⟨by rw [f1, h1, getLog_fst], by rw [f2]; rfl, es, ids, hlog, hes, ?_⟩
  intro x _
  refine ⟨if x.shortTime = NO_SHORT_TIME then RpcValue.null else RpcValue.int x.shortTime,
    if x.domain.isEmpty then RpcValue.null else RpcValue.string x.domain, rfl, ?_, ?_, ?_, ?_⟩
  · by_cases h : x.shortTime = NO_SHORT_TIME
    · simp [h]
    · simp [h]
  · intro h
    rw [if_neg h]
  · cases h : x.domain.isEmpty
    · simp
    · simp
  · intro h
    rw [h]
    rfl

/-- C28, example: the query of scenario S5 with `since = 150` returns three records and
the header says so. -/
theorem getLog_header_agreement_witness :
    (getLog envS5 dirS5 ctxS5 (paramsS5 150 true)).2.recordCount = 3 ∧
      (getLog envS5 dirS5 ctxS5 (paramsS5 150 true)).1.length = 3 ∧
      (getLog envS5 dirS5 ctxS5 (paramsS5 150 true)).2.recordCountLimit = 1000 :=
  ⟨(getLog_header_agreement envS5 dirS5 ctxS5 (paramsS5 150 true)).1.trans (by decide),
    by decide, (getLog_header_agreement envS5 dirS5 ctxS5 (paramsS5 150 true)).2.1.trans (by decide)⟩

/-! ## The starting file of a query -/

theorem cstr_at_of_lt (s : List Char) (i : Nat) (h : i < s.length) :
    cstr_at s i = ((s.get ⟨i, h⟩).toNat : Int) ∧ s.drop i = s.get ⟨i, h⟩ :: s.drop (i + 1) := by
  constructor
  · unfold cstr_at
    rw [List.get?_eq_get h]
  · exact List.drop_eq_getElem_cons h

theorem cstr_at_of_ge (s : List Char) (i : Nat) (h : s.length ≤ i) :
    cstr_at s i = 0 ∧ s.drop i = [] := by
  constructor
  · unfold cstr_at
    rw [List.get?_eq_none.mpr h]
  · exact List.drop_eq_nil_of_le h

/-- The loop of `str_eq` compares the upper case of the characters of `s1` with the
characters of `s2`, position by position, when no character of `s2` has the code zero. -/
theorem str_eq_loop_spec (s1 s2 : List Char) (h2 : ∀ c ∈ s2, c.toNat ≠ 0) :
    ∀ (n i : Nat), i + n = s1.length →
      (str_eq_loop s1 s2 n i = true ↔
        (s1.drop i).map (fun c => c_toupper (c.toNat : Int))
          = (s2.drop i).map (fun c => (c.toNat : Int))) := by
  intro n
  induction n with
  | zero =>
    intro i hi
    have h1 := cstr_at_of_ge s1 i (by omega)
    rw [h1.2]
    simp only [str_eq_loop, decide_eq_true_eq, List.map_nil]
    by_cases hl : i < s2.length
    · obtain ⟨e1, e2⟩ := cstr_at_of_lt s2 i hl
      have hne := h2 _ (List.get_mem s2 i hl)
      rw [e1, e2]
      simp only [List.map_cons]
      constructor
      · intro h
        exact absurd (by exact_mod_cast h) hne
      · intro h
        exact absurd h (by simp)
    · obtain ⟨e1, e2⟩ := cstr_at_of_ge s2 i (by omega)
      rw [e1, e2]
      simp
  | succ n ih =>
    intro i hi
    have hl1 : i < s1.length := by omega
    obtain ⟨a1, a2⟩ := cstr_at_of_lt s1 i hl1
    rw [a2]
    by_cases hl : i < s2.length
    · obtain ⟨e1, e2⟩ := cstr_at_of_lt s2 i hl
      have hne := h2 _ (List.get_mem s2 i hl)
      have hne2 : ¬ (((s2.get ⟨i, hl⟩).toNat : Int) = 0) := by exact_mod_cast hne
      rw [e2]
      simp only [str_eq_loop, e1, a1, if_neg hne2, List.map_cons, List.cons.injEq]
      by_cases hc : ((s2.get ⟨i, hl⟩).toNat : Int) = c_toupper ((s1.get ⟨i, hl1⟩).toNat : Int)
      · have hz : ¬ (c_toupper (if ((s2.get ⟨i, hl⟩).toNat : Int)
            ≠ c_toupper ((s1.get ⟨i, hl1⟩).toNat : Int) then 1 else 0) ≠ 0) := by
          rw [if_neg (not_not.mpr hc)]
          decide
        rw [if_neg hz, ih (i + 1) (by omega)]
        constructor
        · intro h; exact ⟨hc.symm, h⟩
        · intro h; exact h.2
      · have hz : c_toupper (if ((s2.get ⟨i, hl⟩).toNat : Int)
            ≠ c_toupper ((s1.get ⟨i, hl1⟩).toNat : Int) then 1 else 0) ≠ 0 := by
          rw [if_pos hc]
          decide
        rw [if_pos hz]
        constructor
        · intro h; exact absurd h (by simp)
        · intro h; exact absurd h.1.symm hc
    · obtain ⟨e1, e2⟩ := cstr_at_of_ge s2 i (by omega)
      rw [e2]
      simp only [str_eq_loop, e1, if_true, List.map_cons, List.map_nil]
      constructor
      · intro h; exact absurd h (by simp)
      · intro h; exact absurd h (by simp)

theorem str_eq_spec (s1 s2 : String) (h2 : ∀ c ∈ s2.data, c.toNat ≠ 0) :
    str_eq s1 s2 = true ↔
      s1.data.map (fun c => c_toupper (c.toNat : Int)) = s2.data.map (fun c => (c.toNat : Int)) := by
  have h := str_eq_loop_spec s1.data s2.data h2 s1.data.length 0 (by omega)
  simpa [str_eq] using h

/-- C24: for every ASCII string `s`, `formatFromString s` is `Plain` exactly when `s`
equals `PLAIN` with the case ignored, `Sha1` exactly when `s` equals `SHA1` with the case
ignored, and `Invalid` exactly when it equals neither; and
`formatFromString (formatToString f) = f` for the three formats. -/
theorem formatFromString_spec (s : String) (_hascii : isAscii s) :
    (formatFromString s = Format.Plain ↔ eqIgnoreCase s "PLAIN") ∧
      (formatFromString s = Format.Sha1 ↔ eqIgnoreCase s "SHA1") ∧
      (formatFromString s = Format.Invalid ↔
        ¬ eqIgnoreCase s "PLAIN" ∧ ¬ eqIgnoreCase s "SHA1") ∧
      ∀ f : Format, formatFromString (formatToString f) = f := by
  have hP := str_eq_spec s "PLAIN" (by decide)
  have hS := str_eq_spec s "SHA1" (by decide)
  have eP : eqIgnoreCase s "PLAIN" ↔ str_eq s "PLAIN" = true := by
    rw [hP]; exact Iff.rfl
  have eS : eqIgnoreCase s "SHA1" ↔ str_eq s "SHA1" = true := by
    rw [hS]; exact Iff.rfl
  have hdis : ¬ (eqIgnoreCase s "PLAIN" ∧ eqIgnoreCase s "SHA1") := by
    rintro ⟨a, b⟩
    unfold eqIgnoreCase at a b
    rw [a] at b
    exact absurd b (by decide)
  rw [eP, eS] at hdis ⊢
  refine ⟨?_, ?_, ?_, ?_⟩
  · unfold formatFromString formatToString
    cases str_eq s "PLAIN" <;> cases str_eq s "SHA1" <;> simp
  · unfold formatFromString formatToString
    cases hp : str_eq s "PLAIN" <;> cases hq : str_eq s "SHA1" <;> simp
    rw [hp, hq] at hdis
    exact hdis ⟨rfl, rfl⟩
  · unfold formatFromString formatToString
    cases str_eq s "PLAIN" <;> cases str_eq s "SHA1" <;> simp
  · intro f
    cases f <;> rfl

/-- C24, witness: the mixed-case names `Plain` and `sHa1`, and the name `sha-1`. -/
theorem formatFromString_spec_witness :
    isAscii "Plain" ∧ eqIgnoreCase "Plain" "PLAIN" ∧ formatFromString "Plain" = Format.Plain ∧
      formatFromString "sHa1" = Format.Sha1 ∧ formatFromString "sha-1" = Format.Invalid ∧
      formatFromString "plain" = Format.Plain :=
  ⟨by unfold isAscii; decide, by unfold eqIgnoreCase; decide,
    (formatFromString_spec "Plain" (by unfold isAscii; decide)).1.mpr
      (by unfold eqIgnoreCase; decide),
    by decide, by decide, by decide⟩

/-! ## Contents of the snapshot -/

set_option maxRecDepth 8000 in
/-- A file whose last record is longer than the 128 bytes of the first chunk: the scan
returns `-1`, because the first `read` runs into the end of the file and leaves the stream
failed, so that no further chunk is read. -/
theorem findLastEntryDateTime_long_record :
    findLastEntryDateTime (recordLine "1970-01-01T00:16:40.000Z" ["a", "1"]
      ++ recordLine "1970-01-01T00:16:41.000Z" ["b", "2"]
      ++ recordLine "1970-01-01T00:16:42.000Z" ["c", ⟨List.replicate 130 'x'⟩]) = -1 := by
  decide

/-- C23: for the file that holds the single complete record
`1970-01-01T00:16:40.000Z<TAB>a<TAB>1<LF>`, `findLastEntryDateTime` returns `-1` and not
the timestamp 1000000 of the record, so that `updateRecentTimeStamp` takes the wall clock:
the scan looks for a date-time only behind a record separator, and the first record of a
file has none in front of it. For the file with a second record at 1001000 the scan
returns 1001000, the timestamp of the last record. -/
theorem findLastEntryDateTime_single_record :
    findLastEntryDateTime (recordLine "1970-01-01T00:16:40.000Z" ["a", "1"]) = -1 ∧
      (updateRecentTimeStamp envScan dirOneRecord 5000000 ctxOneRecord).recentTimeStamp
        = 5000000 ∧
      findLastEntryDateTime (recordLine "1970-01-01T00:16:40.000Z" ["a", "1"]
        ++ recordLine "1970-01-01T00:16:41.000Z" ["b", "2"]) = 1001000 :=
  ⟨by decide, by decide, by decide⟩

/-! ## The append path -/

/-! ## The append path -/

theorem appendTo_nil (dir : JournalDir) (s : Int) : appendTo dir s [] = dir := by
  unfold appendTo
  have : (fun f : JournalFile => if f.fileMsec = s then { f with entries := f.entries ++ [] } else f)
      = id := by
    funext f
    cases f with
    | mk fm es =>
      by_cases h : fm = s
      · simp [h]
      · simp [h]
  rw [this, List.map_id]

theorem appendTo_appendTo (dir : JournalDir) (s : Int) (a b : List ShvJournalEntry) :
    appendTo (appendTo dir s a) s b = appendTo dir s (a ++ b) := by
  unfold appendTo
  rw [List.map_map]
  apply List.map_congr_left
  intro f _
  by_cases h : f.fileMsec = s
  · simp [h, List.append_assoc]
  · simp [h]

theorem appendTo_names (dir : JournalDir) (s : Int) (ws : List ShvJournalEntry) :
    (appendTo dir s ws).map (fun f => f.fileMsec) = dir.map (fun f => f.fileMsec) := by
  unfold appendTo
  rw [List.map_map]
  apply List.map_congr_left
  intro f _
  by_cases h : f.fileMsec = s
  · simp [h]
  · simp [h]

theorem file_appendTo (dir : JournalDir) (s : Int) (ws : List ShvJournalEntry) (m : Int) :
    JournalDir.file (appendTo dir s ws) m
      = (JournalDir.file dir m).map
          (fun f => if f.fileMsec = s then { f with entries := f.entries ++ ws } else f) := by
  unfold JournalDir.file appendTo
  rw [List.find?_map]
  have hc : ((fun f : JournalFile => decide (f.fileMsec = m)) ∘
      (fun f : JournalFile => if f.fileMsec = s then { f with entries := f.entries ++ ws } else f))
      = (fun f : JournalFile => decide (f.fileMsec = m)) := by
    funext f
    by_cases h : f.fileMsec = s
    · simp [Function.comp, h]
    · simp [Function.comp, h]
  rw [hc]

theorem readFile_appendTo (dir : JournalDir) (s : Int) (ws : List ShvJournalEntry) (m : Int) :
    readFile (appendTo dir s ws) m
      = if m = s ∧ (JournalDir.file dir m).isSome = true then readFile dir m ++ ws
        else readFile dir m := by
  unfold readFile
  rw [file_appendTo]
  cases hf : JournalDir.file dir m with
  | none => simp
  | some f =>
    have hfm : f.fileMsec = m := by
      have := List.find?_some hf
      simpa using this
    by_cases h : m = s
    · have h2 : f.fileMsec = s := by rw [hfm]; exact h
      simp only [Option.map_some', if_pos h2, Option.isSome_some, and_true, if_pos h]
    · have h2 : ¬ f.fileMsec = s := by rw [hfm]; exact h
      simp only [Option.map_some', if_neg h2, h, false_and, if_false]

theorem entriesSize_append (env : JournalEnv) (a b : List ShvJournalEntry) :
    entriesSize env (a ++ b) = entriesSize env a + entriesSize env b := by
  simp [entriesSize]

theorem file_withFile (dir : JournalDir) (s m : Int) :
    (JournalDir.file (withFile dir s) s).isSome = true ∧
      readFile (withFile dir s) m = readFile dir m := by
  unfold withFile
  cases hf : JournalDir.file dir s with
  | some f => simp [hf]
  | none =>
    unfold readFile JournalDir.file at *
    simp only [List.find?_append, hf, Option.none_or]
    constructor
    · simp [List.find?]
    · by_cases hm : m = s
      · subst hm
        simp [hf, List.find?]
      · cases hm2 : List.find? (fun f => decide (f.fileMsec = m)) dir with
        | some g => simp
        | none =>
          have : ¬ (s = m) := fun h => hm h.symm
          simp [List.find?, this]

theorem writer_open_eq (dir : JournalDir) (s : Int) :
    ShvJournalFileWriter.open dir s s
      = ({ fileMsec := s, recentTimeStamp := writerRecent dir s }, withFile dir s) := by
  unfold ShvJournalFileWriter.open writerRecent withFile readFile
  cases hf : JournalDir.file dir s with
  | none => rfl
  | some f =>
    cases hl : f.entries.getLast? with
    | none => simp [hl]
    | some e => simp [hl]

theorem appendMonotonic_eq (wr : ShvJournalFileWriter) (dir : JournalDir) (e : ShvJournalEntry) :
    wr.appendMonotonic dir e
      = ({ wr with recentTimeStamp := (clampList wr.recentTimeStamp [e]).2 },
          appendTo dir wr.fileMsec (clampList wr.recentTimeStamp [e]).1) := rfl

theorem clampList_append (a b : List ShvJournalEntry) :
    ∀ r : Int, clampList r (a ++ b)
      = ((clampList r a).1 ++ (clampList (clampList r a).2 b).1,
          (clampList (clampList r a).2 b).2) := by
  induction a with
  | nil => intro r; rfl
  | cons e es ih =>
    intro r
    have e1 : clampList r (e :: es ++ b)
        = ({ e with epochMsec := if e.epochMsec < r then r else e.epochMsec }
            :: (clampList (if e.epochMsec < r then r else e.epochMsec) (es ++ b)).1,
          (clampList (if e.epochMsec < r then r else e.epochMsec) (es ++ b)).2) := rfl
    have e2 : clampList r (e :: es)
        = ({ e with epochMsec := if e.epochMsec < r then r else e.epochMsec }
            :: (clampList (if e.epochMsec < r then r else e.epochMsec) es).1,
          (clampList (if e.epochMsec < r then r else e.epochMsec) es).2) := rfl
    rw [e1, e2, ih]
    rfl

theorem appendSnapshot_eq (es : List ShvJournalEntry) :
    ∀ (wr : ShvJournalFileWriter) (dir : JournalDir),
      appendSnapshot wr dir es
        = ({ wr with recentTimeStamp := (clampList wr.recentTimeStamp es).2 },
            appendTo dir wr.fileMsec (clampList wr.recentTimeStamp es).1) := by
  induction es with
  | nil =>
    intro wr dir
    simp only [appendSnapshot, clampList, appendTo_nil]
  | cons e r ih =>
    intro wr dir
    simp only [appendSnapshot, ih, appendMonotonic_eq, appendTo_appendTo, clampList,
      List.singleton_append]

/-- The outcome of `appendThrow` on a consistent context: the error for a corrupted
context, the error for a missing snapshot function when the file chosen is empty, and
otherwise the records written at the end of the file chosen and the context brought up to
date, followed by the rotation of the journal when the journal size exceeds its
limit. -/
theorem appendThrow_eq (env : JournalEnv) (dir : JournalDir) (now : Int) (j : ShvFileJournal)
    (entry : ShvJournalEntry) (hcons : 0 ≤ j.m_journalContext.journalSize) :
    appendThrow env dir now j entry
      = if appendCorrupt now j entry = true then
          { error := some "Journal context corrupted!"
            journal :=
              { j with m_journalContext := { j.m_journalContext with journalDirExists := true } }
            dir := dir }
        else if entriesSize env (readFile dir (appendTarget now j entry)) = 0
            ∧ j.m_snapShotFn.isNone = true then
          { error := some "SnapShot function not defined"
            journal :=
              { j with m_journalContext := { j.m_journalContext with journalDirExists := true } }
            dir := withFile dir (appendTarget now j entry) }
        else if (appendedJournal env dir now j entry).m_journalContext.journalSize
            > j.m_journalSizeLimit then
          { error := none
            journal := (rotateJournal env
              (appendTo (withFile dir (appendTarget now j entry)) (appendTarget now j entry)
                (appendWritten env dir now j entry)) now (appendedJournal env dir now j entry)).1
            dir := (rotateJournal env
              (appendTo (withFile dir (appendTarget now j entry)) (appendTarget now j entry)
                (appendWritten env dir now j entry)) now (appendedJournal env dir now j entry)).2 }
        else
          { error := none
            journal := appendedJournal env dir now j entry
            dir := appendTo (withFile dir (appendTarget now j entry)) (appendTarget now j entry)
              (appendWritten env dir now j entry) } := by
  have hchk : checkJournalContext_helper env dir now
      { j with m_journalContext := { j.m_journalContext with journalDirExists := true } } false
      = .ok { j with m_journalContext := { j.m_journalContext with journalDirExists := true } } := by
    simp [checkJournalContext_helper, JournalContext.isConsistent, hcons]
  have hm : (if (if entry.epochMsec = 0 then now else entry.epochMsec)
        < j.m_journalContext.recentTimeStamp then j.m_journalContext.recentTimeStamp
      else (if entry.epochMsec = 0 then now else entry.epochMsec))
      = appendMsec now j entry := rfl
  have hrd : ∀ s, readFile (withFile dir s) s = readFile dir s := fun s => (file_withFile dir s s).2
  have hex : ∀ s, (JournalDir.file (withFile dir s) s).isSome = true :=
    fun s => (file_withFile dir s s).1
  cases hl : j.m_journalContext.files.getLast? with
  | none =>
    have hT : appendTarget now j entry = appendMsec now j entry := by
      simp only [appendTarget, hl]
    have hC : appendCorrupt now j entry = false := by
      simp only [appendCorrupt, hl]
    simp only [appendThrow, hchk, hl, hm, writer_open_eq, ShvJournalFileWriter.fileSize]
    rw [hC]
    simp only [appendedJournal, appendWritten, hT, hrd]
    generalize appendMsec now j entry = s
    by_cases h0 : entriesSize env (readFile dir s) = 0
    · cases hs : j.m_snapShotFn with
      | none => simp [h0]
      | some sn =>
        simp only [if_pos h0, appendSnapshot_eq, appendMonotonic_eq, appendTo_appendTo,
          readFile_appendTo, hex, hrd, entriesSize_append, clampList_append, Option.getD_some,
          Option.isNone_some, and_true, and_false, if_true, if_false, Bool.false_eq_true,
          add_sub_cancel_left]
    · simp only [h0, if_neg h0, appendMonotonic_eq, readFile_appendTo, hex, hrd, entriesSize_append,
        and_true, false_and, if_true, if_false, Bool.false_eq_true, add_sub_cancel_left]
  | some last =>
    by_cases hbig : j.m_journalContext.lastFileSize > j.m_fileSizeLimit
    · have hT : appendTarget now j entry = appendMsec now j entry := by
        simp only [appendTarget, hl, if_pos hbig]
      have hC : appendCorrupt now j entry = decide (appendMsec now j entry < last) := by
        simp only [appendCorrupt, hl, hT]
      simp only [appendThrow, hchk, hl, hm, if_pos hbig, writer_open_eq,
        ShvJournalFileWriter.fileSize]
      rw [hC]
      simp only [appendedJournal, appendWritten, hT, hrd]
      generalize appendMsec now j entry = s
      by_cases hc : s < last
      · simp only [decide_eq_true hc, if_true]
      · simp only [decide_eq_false hc, if_false, Bool.false_eq_true]
        by_cases h0 : entriesSize env (readFile dir s) = 0
        · cases hs : j.m_snapShotFn with
          | none => simp [h0]
          | some sn =>
            simp only [if_pos h0, appendSnapshot_eq, appendMonotonic_eq, appendTo_appendTo,
              readFile_appendTo, hex, hrd, entriesSize_append, clampList_append, Option.getD_some,
              Option.isNone_some, and_true, and_false, if_true, if_false, Bool.false_eq_true,
              add_sub_cancel_left]
        · simp only [h0, if_neg h0, appendMonotonic_eq, readFile_appendTo, hex, hrd, entriesSize_append,
            and_true, false_and, if_true, if_false, Bool.false_eq_true, add_sub_cancel_left]
    · have hT : appendTarget now j entry = last := by
        simp only [appendTarget, hl, if_neg hbig]
      have hC : appendCorrupt now j entry = false := by
        simp only [appendCorrupt, hl, hT, lt_irrefl, decide_False]
      simp only [appendThrow, hchk, hl, hm, if_neg hbig, writer_open_eq,
        ShvJournalFileWriter.fileSize, lt_irrefl, decide_False]
      rw [hC]
      simp only [appendedJournal, appendWritten, hT, hrd]
      generalize last = s
      by_cases h0 : entriesSize env (readFile dir s) = 0
      · cases hs : j.m_snapShotFn with
        | none => simp [h0]
        | some sn =>
          simp only [if_pos h0, appendSnapshot_eq, appendMonotonic_eq, appendTo_appendTo,
            readFile_appendTo, hex, hrd, entriesSize_append, clampList_append, Option.getD_some,
            Option.isNone_some, and_true, and_false, if_true, if_false, Bool.false_eq_true,
            add_sub_cancel_left]
      · simp only [h0, if_neg h0, appendMonotonic_eq, readFile_appendTo, hex, hrd, entriesSize_append,
          and_true, false_and, if_true, if_false, Bool.false_eq_true, add_sub_cancel_left]

theorem file_size_eq (env : JournalEnv) (dir : JournalDir) (m : Int) :
    file_size env dir m
      = if (JournalDir.file dir m).isSome = true then entriesSize env (readFile dir m)
        else -1 := by
  unfold file_size readFile
  cases JournalDir.file dir m <;> simp

theorem isSome_file_appendTo (dir : JournalDir) (s : Int) (ws : List ShvJournalEntry)
    (m : Int) :
    (JournalDir.file (appendTo dir s ws) m).isSome = (JournalDir.file dir m).isSome := by
  rw [file_appendTo]
  cases JournalDir.file dir m <;> rfl

theorem isSome_file_withFile (dir : JournalDir) (s m : Int) :
    (JournalDir.file (withFile dir s) m).isSome = true
      ↔ (JournalDir.file dir m).isSome = true ∨ m = s := by
  by_cases hm : m = s
  · subst hm
    simp [(file_withFile dir m m).1]
  · unfold withFile
    cases hf : JournalDir.file dir s with
    | some f => simp [hm]
    | none =>
      have hsm : ¬ s = m := fun h => hm h.symm
      unfold JournalDir.file
      simp [List.find?_append, List.find?, hsm, hm]

theorem file_size_written (env : JournalEnv) (dir : JournalDir) (s : Int)
    (ws : List ShvJournalEntry) (m : Int) :
    file_size env (appendTo (withFile dir s) s ws) m
      = if m = s then entriesSize env (readFile dir s) + entriesSize env ws
        else file_size env dir m := by
  rw [file_size_eq, isSome_file_appendTo, readFile_appendTo]
  by_cases hm : m = s
  · subst hm
    simp only [(file_withFile dir m m).1, (file_withFile dir m m).2, and_self, if_true,
      entriesSize_append]
  · have h1 : (JournalDir.file (withFile dir s) m).isSome = (JournalDir.file dir m).isSome := by
      have := isSome_file_withFile dir s m
      cases h : (JournalDir.file (withFile dir s) m).isSome <;>
        cases h2 : (JournalDir.file dir m).isSome <;> simp_all
    rw [h1, file_size_eq]
    simp only [hm, false_and, if_false, (file_withFile dir s m).2]

theorem sorted_le_getLast (l : List Int) (a : Int) (hs : l.Sorted (fun x y => x < y))
    (h : l.getLast? = some a) : a ∈ l ∧ ∀ m ∈ l, m ≤ a := by
  obtain ⟨ys, rfl⟩ := List.getLast?_eq_some_iff.mp h
  refine ⟨by simp, ?_⟩
  intro m hm
  have hp := List.pairwise_append.mp hs
  rcases List.mem_append.mp hm with h1 | h1
  · exact le_of_lt (hp.2.2 m h1 a (by simp))
  · have : m = a := by simpa using h1
    rw [this]

theorem sum_map_update (f g : Int → Int) (s w : Int) :
    ∀ l : List Int, l.Nodup → s ∈ l → (∀ m ∈ l, m ≠ s → g m = f m) → g s = f s + w →
      (l.map g).sum = (l.map f).sum + w := by
  intro l
  induction l with
  | nil => intro _ h; cases h
  | cons a r ih =>
    intro hnd hs hne hgs
    have hnd2 := List.nodup_cons.mp hnd
    by_cases ha : a = s
    · subst ha
      have hr : r.map g = r.map f := by
        apply List.map_congr_left
        intro m hm
        exact hne m (List.mem_cons_of_mem _ hm) (fun h => hnd2.1 (h ▸ hm))
      simp only [List.map_cons, List.sum_cons, hr, hgs]
      omega
    · have hs2 : s ∈ r := by
        rcases List.mem_cons.mp hs with h | h
        · exact absurd h.symm ha
        · exact h
      have := ih hnd2.2 hs2 (fun m hm => hne m (List.mem_cons_of_mem _ hm)) hgs
      simp only [List.map_cons, List.sum_cons, this, hne a (List.mem_cons_self _ _) ha]
      omega

/-- The outcome of an `appendThrow` on a consistent context that raises no error and does
not rotate the journal. -/
theorem appendThrow_success (env : JournalEnv) (dir : JournalDir) (now : Int)
    (j : ShvFileJournal) (entry : ShvJournalEntry) (hcons : 0 ≤ j.m_journalContext.journalSize)
    (hok : (appendThrow env dir now j entry).error = none)
    (hnorot : j.m_journalContext.journalSize
        + entriesSize env (appendWritten env dir now j entry) ≤ j.m_journalSizeLimit) :
    appendCorrupt now j entry = false ∧
      ¬ (entriesSize env (readFile dir (appendTarget now j entry)) = 0
          ∧ j.m_snapShotFn.isNone = true) ∧
      (appendThrow env dir now j entry).journal = appendedJournal env dir now j entry ∧
      (appendThrow env dir now j entry).dir
        = appendTo (withFile dir (appendTarget now j entry)) (appendTarget now j entry)
            (appendWritten env dir now j entry) := by
  have hrot : ¬ ((appendedJournal env dir now j entry).m_journalContext.journalSize
      > j.m_journalSizeLimit) := by
    simp only [appendedJournal]
    omega
  rw [appendThrow_eq env dir now j entry hcons] at hok ⊢
  by_cases hc : appendCorrupt now j entry = true
  · rw [if_pos hc] at hok
    cases hok
  · rw [if_neg hc] at hok ⊢
    by_cases hsn : entriesSize env (readFile dir (appendTarget now j entry)) = 0
        ∧ j.m_snapShotFn.isNone = true
    · rw [if_pos hsn] at hok
      cases hok
    · rw [if_neg hsn, if_neg hrot]
      exact ⟨by simpa using hc, hsn, rfl, rfl⟩

theorem sumSizes_nonneg (env : JournalEnv) (dir : JournalDir) :
    ∀ l : List Int, (∀ m ∈ l, (JournalDir.file dir m).isSome = true) →
      0 ≤ sumSizes env dir l := by
  intro l
  induction l with
  | nil => intro _; simp [sumSizes]
  | cons a r ih =>
    intro h
    have h1 := ih (fun m hm => h m (List.mem_cons_of_mem _ hm))
    have h2 : 0 ≤ file_size env dir a := by
      rw [file_size_eq, if_pos (h a (List.mem_cons_self _ _))]
      exact entriesSize_nonneg env _
    simp only [sumSizes, List.map_cons, List.sum_cons] at h1 ⊢
    omega

/-- The files of the context all start at or before the file that an `appendThrow`
without the error of a corrupted context writes to. -/
theorem files_le_appendTarget (now : Int) (j : ShvFileJournal) (entry : ShvJournalEntry)
    (hsorted : j.m_journalContext.files.Sorted (fun a b => a < b))
    (hC : appendCorrupt now j entry = false) :
    ∀ m ∈ j.m_journalContext.files, m ≤ appendTarget now j entry := by
  intro m hm
  cases hl : j.m_journalContext.files.getLast? with
  | none =>
    rw [List.getLast?_eq_none_iff.mp hl] at hm
    cases hm
  | some last =>
    have h1 := (sorted_le_getLast _ last hsorted hl).2 m hm
    have h2 : ¬ appendTarget now j entry < last := by
      simpa [appendCorrupt, hl] using hC
    omega

/-- The sum of the sizes of the files of an ascending list after records of the size `w`
were written to the file `s`. -/
theorem sumSizes_written (env : JournalEnv) (dir : JournalDir) (s : Int)
    (ws : List ShvJournalEntry) (l : List Int) (hnd : l.Nodup)
    (hdisk : ∀ m ∈ l, (JournalDir.file dir m).isSome = true) :
    sumSizes env (appendTo (withFile dir s) s ws) l
      = if s ∈ l then sumSizes env dir l + entriesSize env ws else sumSizes env dir l := by
  unfold sumSizes
  by_cases hs : s ∈ l
  · rw [if_pos hs]
    apply sum_map_update (file_size env dir) _ s _ l hnd hs
    · intro m _ hne
      rw [file_size_written, if_neg hne]
    · rw [file_size_written, if_pos rfl, file_size_eq, if_pos (hdisk s hs)]
  · rw [if_neg hs]
    congr 1
    apply List.map_congr_left
    intro m hm
    have hne : ¬ m = s := fun h => hs (h ▸ hm)
    rw [file_size_written, if_neg hne]

/-- Size accounting of an `appendThrow` that raises no error and does not rotate the
journal, for a context whose list of files is strictly ascending and holds exactly the
files of the directory, and whose journal size is the sum of the sizes of its files:
the newest file of the context is the file written to, `lastFileSize` is the new size of
this file, `journalSize` has grown by the new size minus the old size of this file, and
`journalSize` is the sum of the sizes over a duplicate-free list of the files of the
context, which is the list of files itself when no file of the context was empty. -/
theorem appendThrow_sizes (env : JournalEnv) (dir : JournalDir) (now : Int)
    (j : ShvFileJournal) (entry : ShvJournalEntry)
    (hsorted : j.m_journalContext.files.Sorted (fun a b => a < b))
    (hdisk : ∀ m, m ∈ j.m_journalContext.files ↔ (JournalDir.file dir m).isSome = true)
    (hjs : j.m_journalContext.journalSize = sumSizes env dir j.m_journalContext.files)
    (hok : (appendThrow env dir now j entry).error = none)
    (hnorot : j.m_journalContext.journalSize
        + entriesSize env (appendWritten env dir now j entry) ≤ j.m_journalSizeLimit) :
    (appendThrow env dir now j entry).journal.m_journalContext.files.getLast?
        = some (appendTarget now j entry) ∧
      (appendThrow env dir now j entry).journal.m_journalContext.lastFileSize
        = file_size env (appendThrow env dir now j entry).dir (appendTarget now j entry) ∧
      (appendThrow env dir now j entry).journal.m_journalContext.journalSize
        = j.m_journalContext.journalSize
          + (file_size env (appendThrow env dir now j entry).dir (appendTarget now j entry)
              - entriesSize env (readFile dir (appendTarget now j entry))) ∧
      (∃ l : List Int, l.Sorted (fun a b => a < b) ∧
        (∀ m, m ∈ l ↔ m ∈ (appendThrow env dir now j entry).journal.m_journalContext.files) ∧
        (appendThrow env dir now j entry).journal.m_journalContext.journalSize
          = sumSizes env (appendThrow env dir now j entry).dir l) ∧
      ((∀ m ∈ j.m_journalContext.files, file_size env dir m ≠ 0) →
        (appendThrow env dir now j entry).journal.m_journalContext.journalSize
          = sumSizes env (appendThrow env dir now j entry).dir
              (appendThrow env dir now j entry).journal.m_journalContext.files) := by
  have hcons : 0 ≤ j.m_journalContext.journalSize := by
    rw [hjs]
    exact sumSizes_nonneg env dir _ (fun m hm => (hdisk m).mp hm)
  obtain ⟨hC, _, hj, hd⟩ := appendThrow_success env dir now j entry hcons hok hnorot
  have hle := files_le_appendTarget now j entry hsorted hC
  have hnd : j.m_journalContext.files.Nodup := hsorted.nodup
  have hsum := sumSizes_written env dir (appendTarget now j entry)
    (appendWritten env dir now j entry) j.m_journalContext.files hnd
    (fun m hm => (hdisk m).mp hm)
  have hfs := file_size_written env dir (appendTarget now j entry)
    (appendWritten env dir now j entry) (appendTarget now j entry)
  rw [if_pos rfl] at hfs
  rw [hj, hd]
  simp only [appendedJournal]
  generalize hs : appendTarget now j entry = s at *
  generalize hw : appendWritten env dir now j entry = ws at *
  -- the sum over the files of the context and the file written to
  have hnew : s ∉ j.m_journalContext.files →
      (j.m_journalContext.files ++ [s]).Sorted (fun a b => a < b) ∧
        sumSizes env (appendTo (withFile dir s) s ws) (j.m_journalContext.files ++ [s])
          = sumSizes env dir j.m_journalContext.files
            + (entriesSize env (readFile dir s) + entriesSize env ws) := by
    intro hns
    constructor
    · apply List.pairwise_append.mpr
      refine ⟨hsorted, List.pairwise_singleton _ _, ?_⟩
      intro a ha b hb
      have hb2 : b = s := by simpa using hb
      have h1 := hle a ha
      have h2 : a ≠ s := fun h => hns (h ▸ ha)
      omega
    · have e : sumSizes env (appendTo (withFile dir s) s ws) (j.m_journalContext.files ++ [s])
          = sumSizes env (appendTo (withFile dir s) s ws) j.m_journalContext.files
            + file_size env (appendTo (withFile dir s) s ws) s := by
        simp [sumSizes]
      rw [e, hsum, if_neg hns, hfs]
  have hex : entriesSize env (readFile dir s) ≠ 0 → s ∈ j.m_journalContext.files := by
    intro h
    apply (hdisk s).mpr
    cases hf : JournalDir.file dir s with
    | some f => rfl
    | none =>
      exfalso
      apply h
      simp [readFile, hf, entriesSize]
  have hlast : entriesSize env (readFile dir s) ≠ 0 →
      j.m_journalContext.files.getLast? = some s := by
    intro h
    have hin := hex h
    cases hl : j.m_journalContext.files.getLast? with
    | none =>
      rw [List.getLast?_eq_none_iff.mp hl] at hin
      cases hin
    | some last =>
      have h1 := (sorted_le_getLast _ last hsorted hl)
      have h2 := hle last h1.1
      have h3 := h1.2 s hin
      have : last = s := by omega
      rw [this]
  by_cases h0 : entriesSize env (readFile dir s) = 0
  · simp only [if_pos h0]
    refine ⟨by simp, hfs.symm, by rw [hfs]; omega, ?_, ?_⟩
    · by_cases hin : s ∈ j.m_journalContext.files
      · refine ⟨j.m_journalContext.files, hsorted, ?_, ?_⟩
        · intro m
          constructor
          · intro h
            exact List.mem_append_left _ h
          · intro h
            rcases List.mem_append.mp h with h | h
            · exact h
            · have : m = s := by simpa using h
              rw [this]
              exact hin
        · rw [hsum, if_pos hin, hjs]
      · refine ⟨j.m_journalContext.files ++ [s], (hnew hin).1, fun m => Iff.rfl, ?_⟩
        rw [(hnew hin).2, hjs, h0]
        omega
    · intro hnz
      have hin : s ∉ j.m_journalContext.files := by
        intro h
        apply hnz s h
        rw [file_size_eq, if_pos ((hdisk s).mp h)]
        exact h0
      rw [(hnew hin).2, hjs, h0]
      omega
  · simp only [if_neg h0]
    have hin := hex h0
    refine ⟨hlast h0, hfs.symm, by rw [hfs]; omega, ?_, ?_⟩
    · refine ⟨j.m_journalContext.files, hsorted, fun m => Iff.rfl, ?_⟩
      rw [hsum, if_pos hin, hjs]
    · intro _
      rw [hsum, if_pos hin, hjs]

theorem file_singleton (f : JournalFile) (m : Int) :
    (JournalDir.file [f] m).isSome = true ↔ m = f.fileMsec := by
  unfold JournalDir.file
  by_cases h : f.fileMsec = m
  · simp [List.find?, h]
  · have h2 : ¬ m = f.fileMsec := fun e => h e.symm
    simp [List.find?, h, h2]

/-- Example of the size accounting: the entry at 100 appended to the journal of one file of 10 bytes; the
file grows to 20 bytes, and so do `lastFileSize` and `journalSize`. -/
theorem appendThrow_sizes_example :
    journalEx.m_journalContext.files.Sorted (fun a b => a < b) ∧
      (∀ m, m ∈ journalEx.m_journalContext.files ↔ (JournalDir.file dirEx m).isSome = true) ∧
      journalEx.m_journalContext.journalSize
        = sumSizes envEx dirEx journalEx.m_journalContext.files ∧
      (appendThrow envEx dirEx 2000 journalEx (entryAt 100)).error = none ∧
      (appendThrow envEx dirEx 2000 journalEx (entryAt 100)).journal.m_journalContext.lastFileSize
        = 20 ∧
      (appendThrow envEx dirEx 2000 journalEx (entryAt 100)).journal.m_journalContext.journalSize
        = 20 ∧
      (appendThrow envEx dirEx 2000 journalEx (entryAt 100)).journal.m_journalContext.lastFileSize
        = file_size envEx (appendThrow envEx dirEx 2000 journalEx (entryAt 100)).dir
            (appendTarget 2000 journalEx (entryAt 100)) :=
  ⟨by decide,
    fun m => by rw [dirEx, file_singleton]; simp [journalEx],
    by decide, by decide, by decide, by decide,
    (appendThrow_sizes envEx dirEx 2000 journalEx (entryAt 100) (by decide)
      (fun m => by rw [dirEx, file_singleton]; simp [journalEx])
      (by decide) (by decide) (by decide)).2.1⟩

/-- C22: the size accounting of `appendThrow` fails on an empty file of the context.
The context `files = [50]`, `journalSize = 0`, `lastFileSize = 0` is what the scan of the
directory with the empty file 50 gives, and both equalities of the claim hold in it; the
append of the entry at 100 raises no error and does not rotate the journal, and leaves
`files = [50, 50]` with `journalSize = 10`, while the sizes of the files of the context
sum up to 20 (`lastFileSize = 10` is the size of the file). For every context whose files
are strictly ascending, are exactly the files of the directory and are not empty, and
whose journal size is the sum of their sizes, an `appendThrow` without error and without
rotation leaves the file written to as the last file, `lastFileSize` its new size,
`journalSize` grown by the new size minus the old size, and `journalSize` the sum of the
sizes of the files of the context. -/
theorem appendThrow_size_accounting :
    (journalScanned.m_journalContext.files.Sorted (fun a b => a < b) ∧
      (updateJournalStatus envEx dirEmptyFile 100 { journalDirExists := true }).files
        = journalScanned.m_journalContext.files ∧
      (updateJournalStatus envEx dirEmptyFile 100 { journalDirExists := true }).journalSize
        = journalScanned.m_journalContext.journalSize ∧
      (updateJournalStatus envEx dirEmptyFile 100 { journalDirExists := true }).lastFileSize
        = journalScanned.m_journalContext.lastFileSize ∧
      (updateJournalStatus envEx dirEmptyFile 100 { journalDirExists := true }).recentTimeStamp
        = journalScanned.m_journalContext.recentTimeStamp ∧
      journalScanned.m_journalContext.journalSize
        = sumSizes envEx dirEmptyFile journalScanned.m_journalContext.files ∧
      journalScanned.m_journalContext.lastFileSize = file_size envEx dirEmptyFile 50 ∧
      (appendThrow envEx dirEmptyFile 100 journalScanned (entryAt 100)).error = none ∧
      (appendThrow envEx dirEmptyFile 100 journalScanned (entryAt 100)).journal.m_journalContext.journalSize
        ≤ journalScanned.m_journalSizeLimit ∧
      (appendThrow envEx dirEmptyFile 100 journalScanned (entryAt 100)).journal.m_journalContext.files
        = [50, 50] ∧
      (appendThrow envEx dirEmptyFile 100 journalScanned (entryAt 100)).journal.m_journalContext.journalSize
        = 10 ∧
      sumSizes envEx (appendThrow envEx dirEmptyFile 100 journalScanned (entryAt 100)).dir
        (appendThrow envEx dirEmptyFile 100 journalScanned (entryAt 100)).journal.m_journalContext.files
        = 20 ∧
      (appendThrow envEx dirEmptyFile 100 journalScanned (entryAt 100)).journal.m_journalContext.lastFileSize
        = 10 ∧
      file_size envEx (appendThrow envEx dirEmptyFile 100 journalScanned (entryAt 100)).dir 50
        = 10) ∧
    ∀ (env : JournalEnv) (dir : JournalDir) (now : Int) (j : ShvFileJournal)
      (entry : ShvJournalEntry),
      j.m_journalContext.files.Sorted (fun a b => a < b) →
      (∀ m, m ∈ j.m_journalContext.files ↔ (JournalDir.file dir m).isSome = true) →
      (∀ m ∈ j.m_journalContext.files, file_size env dir m ≠ 0) →
      j.m_journalContext.journalSize = sumSizes env dir j.m_journalContext.files →
      (appendThrow env dir now j entry).error = none →
      j.m_journalContext.journalSize
        + entriesSize env (appendWritten env dir now j entry) ≤ j.m_journalSizeLimit →
      (appendThrow env dir now j entry).journal.m_journalContext.files.getLast?
          = some (appendTarget now j entry) ∧
        (appendThrow env dir now j entry).journal.m_journalContext.lastFileSize
          = file_size env (appendThrow env dir now j entry).dir (appendTarget now j entry) ∧
        (appendThrow env dir now j entry).journal.m_journalContext.journalSize
          = j.m_journalContext.journalSize
            + (file_size env (appendThrow env dir now j entry).dir (appendTarget now j entry)
                - entriesSize env (readFile dir (appendTarget now j entry))) ∧
        (appendThrow env dir now j entry).journal.m_journalContext.journalSize
          = sumSizes env (appendThrow env dir now j entry).dir
              (appendThrow env dir now j entry).journal.m_journalContext.files :=
  ⟨⟨by decide, by decide, by decide, by decide, by decide, by decide, by decide, by decide,
      by decide, by decide, by decide, by decide, by decide, by decide⟩,
    fun env dir now j entry hsorted hdisk hnz hjs hok hnorot =>
      have h := appendThrow_sizes env dir now j entry hsorted hdisk hjs hok hnorot
      ⟨h.1, h.2.1, h.2.2.1, h.2.2.2.2 hnz⟩⟩

theorem clampList_fields (es : List ShvJournalEntry) :
    ∀ r : Int, (clampList r es).1.map (fun e => { e with epochMsec := 0 })
      = es.map (fun e => { e with epochMsec := 0 }) := by
  induction es with
  | nil => intro r; rfl
  | cons e es ih =>
    intro r
    simp only [clampList, List.map_cons, ih]

theorem writerRecent_new (dir : JournalDir) (s : Int) (h : JournalDir.file dir s = none) :
    writerRecent dir s = s ∧ readFile dir s = [] := by
  have hr : readFile dir s = [] := by simp [readFile, h]
  exact ⟨by simp [writerRecent, hr], hr⟩

/-- C26: target selection of `appendThrow` on a scanned context, with
`t = appendMsec` and `s = appendTarget`. The timestamp `t` is the maximum of the entry
timestamp (the wall clock for the timestamp zero) and the recent timestamp of the context;
`s = t` when the context has no file or `lastFileSize` exceeds the file size limit, and
`s` is the last file of the context otherwise. The error of a corrupted context is raised
exactly when the context has a last file and `s` lies before it. An append without error
writes its records at the end of the file `s`, and the journal is rotated from there when
its size exceeds the limit. When `lastFileSize` exceeds the limit, the append raises no
error and `t` lies after every file of a context that knows all files of the directory,
then the file `t` did not exist, it is added to the files of the context, and it holds the
snapshot followed by the entry, with timestamps raised to `t` at least and otherwise
unchanged. -/
theorem appendThrow_target (env : JournalEnv) (dir : JournalDir) (now : Int)
    (j : ShvFileJournal) (entry : ShvJournalEntry)
    (hcons : 0 ≤ j.m_journalContext.journalSize) :
    appendMsec now j entry
        = max (if entry.epochMsec = 0 then now else entry.epochMsec)
            j.m_journalContext.recentTimeStamp ∧
      (j.m_journalContext.files = [] ∨ j.m_journalContext.lastFileSize > j.m_fileSizeLimit →
        appendTarget now j entry = appendMsec now j entry) ∧
      (∀ last, j.m_journalContext.files.getLast? = some last →
        ¬ j.m_journalContext.lastFileSize > j.m_fileSizeLimit →
        appendTarget now j entry = last) ∧
      ((appendThrow env dir now j entry).error = some "Journal context corrupted!"
        ↔ ∃ last, j.m_journalContext.files.getLast? = some last ∧
            appendTarget now j entry < last) ∧
      ((appendThrow env dir now j entry).error = none →
        readFile (appendTo (withFile dir (appendTarget now j entry)) (appendTarget now j entry)
            (appendWritten env dir now j entry)) (appendTarget now j entry)
          = readFile dir (appendTarget now j entry) ++ appendWritten env dir now j entry ∧
        ((appendThrow env dir now j entry).journal = appendedJournal env dir now j entry ∧
            (appendThrow env dir now j entry).dir
              = appendTo (withFile dir (appendTarget now j entry)) (appendTarget now j entry)
                  (appendWritten env dir now j entry) ∨
          (appendThrow env dir now j entry).journal
              = (rotateJournal env
                  (appendTo (withFile dir (appendTarget now j entry))
                    (appendTarget now j entry) (appendWritten env dir now j entry))
                  now (appendedJournal env dir now j entry)).1 ∧
            (appendThrow env dir now j entry).dir
              = (rotateJournal env
                  (appendTo (withFile dir (appendTarget now j entry))
                    (appendTarget now j entry) (appendWritten env dir now j entry))
                  now (appendedJournal env dir now j entry)).2)) ∧
      (j.m_journalContext.lastFileSize > j.m_fileSizeLimit →
        (appendThrow env dir now j entry).error = none →
        (∀ m, (JournalDir.file dir m).isSome = true → m ∈ j.m_journalContext.files) →
        (∀ m ∈ j.m_journalContext.files, m < appendMsec now j entry) →
        JournalDir.file dir (appendMsec now j entry) = none ∧
          (appendedJournal env dir now j entry).m_journalContext.files
            = j.m_journalContext.files ++ [appendMsec now j entry] ∧
          ∃ sn, j.m_snapShotFn = some sn ∧
            appendWritten env dir now j entry
              = (clampList (appendMsec now j entry) (sn ++ [entry])).1 ∧
            (appendWritten env dir now j entry).map (fun e => { e with epochMsec := 0 })
              = (sn ++ [entry]).map (fun e => { e with epochMsec := 0 })) := by
  have heq := appendThrow_eq env dir now j entry hcons
  have hcor : appendCorrupt now j entry = true
      ↔ ∃ last, j.m_journalContext.files.getLast? = some last ∧
            appendTarget now j entry < last := by
    unfold appendCorrupt
    cases hl : j.m_journalContext.files.getLast? with
    | none => simp
    | some last => simp
  have hbigT : j.m_journalContext.lastFileSize > j.m_fileSizeLimit →
      appendTarget now j entry = appendMsec now j entry := by
    intro hbig
    unfold appendTarget
    cases hl : j.m_journalContext.files.getLast? with
    | none => rfl
    | some last => simp only [if_pos hbig]
  refine ⟨?_, ?_, ?_, ?_, ?_, ?_⟩
  · unfold appendMsec
    rw [max_def]
    split_ifs <;> omega
  · intro h
    rcases h with h | h
    · unfold appendTarget
      rw [h]
      rfl
    · exact hbigT h
  · intro last hl hbig
    unfold appendTarget
    simp only [hl, if_neg hbig]
  · rw [← hcor, heq]
    by_cases hc : appendCorrupt now j entry = true
    · rw [if_pos hc]
      exact ⟨fun _ => hc, fun _ => rfl⟩
    · rw [if_neg hc]
      refine ⟨fun h => ?_, fun h => absurd h hc⟩
      exfalso
      split_ifs at h
      exact absurd (Option.some.inj h) (by decide)
  · intro hok
    have h1 : ¬ appendCorrupt now j entry = true := by
      intro hc
      rw [heq, if_pos hc] at hok
      cases hok
    have h2 : ¬ (entriesSize env (readFile dir (appendTarget now j entry)) = 0
        ∧ j.m_snapShotFn.isNone = true) := by
      intro hc
      rw [heq, if_neg h1, if_pos hc] at hok
      cases hok
    constructor
    · rw [readFile_appendTo,
        if_pos ⟨rfl, (file_withFile dir (appendTarget now j entry) (appendTarget now j entry)).1⟩,
        (file_withFile dir (appendTarget now j entry) (appendTarget now j entry)).2]
    · rw [heq, if_neg h1, if_neg h2]
      split_ifs
      · exact Or.inr ⟨rfl, rfl⟩
      · exact Or.inl ⟨rfl, rfl⟩
  · intro hbig hok hdisk hlt
    have hT := hbigT hbig
    have hnone : JournalDir.file dir (appendMsec now j entry) = none := by
      cases hf : JournalDir.file dir (appendMsec now j entry) with
      | none => rfl
      | some f =>
        have := hlt _ (hdisk (appendMsec now j entry) (by rw [hf]; rfl))
        omega
    have hw := writerRecent_new dir _ hnone
    have h0 : entriesSize env (readFile dir (appendMsec now j entry)) = 0 := by
      rw [hw.2]
      rfl
    have h1 : ¬ appendCorrupt now j entry = true := by
      intro hc
      rw [heq, if_pos hc] at hok
      cases hok
    have h2 : ¬ (entriesSize env (readFile dir (appendTarget now j entry)) = 0
        ∧ j.m_snapShotFn.isNone = true) := by
      intro hc
      rw [heq, if_neg h1, if_pos hc] at hok
      cases hok
    rw [hT] at h2
    refine ⟨hnone, ?_, ?_⟩
    · simp only [appendedJournal, hT, if_pos h0]
    · cases hsn : j.m_snapShotFn with
      | none =>
        exfalso
        exact h2 ⟨h0, by rw [hsn]; rfl⟩
      | some sn =>
        have hW : appendWritten env dir now j entry
            = (clampList (appendMsec now j entry) (sn ++ [entry])).1 := by
          simp only [appendWritten, hT, if_pos h0, hsn, Option.getD_some, hw.1]
        refine ⟨sn, rfl, hW, ?_⟩
        rw [hW, clampList_fields]

/-- C26, witness: the journal of one file at 50 that holds 20 bytes, over the file size
limit of 15 bytes; the entry at 100 goes to the new file 100, after the snapshot entry
stamped at 100. -/
theorem appendThrow_target_witness :
    0 ≤ journalFull.m_journalContext.journalSize ∧
      appendMsec 2000 journalFull (entryAt 100) = 100 ∧
      appendTarget 2000 journalFull (entryAt 100) = 100 ∧
      (appendThrow envEx dirFull 2000 journalFull (entryAt 100)).error = none ∧
      (appendThrow envEx dirFull 2000 journalFull (entryAt 100)).journal.m_journalContext.files
        = [50, 100] ∧
      readFile (appendThrow envEx dirFull 2000 journalFull (entryAt 100)).dir 100
        = [{ epochMsec := 100, path := "s", value := RpcValue.int 7 }, entryAt 100] ∧
      appendMsec 2000 journalFull (entryAt 100)
        = max (if (entryAt 100).epochMsec = 0 then 2000 else (entryAt 100).epochMsec)
            journalFull.m_journalContext.recentTimeStamp :=
  ⟨by decide, by decide, by decide, by decide, by decide, rfl,
    (appendThrow_target envEx dirFull 2000 journalFull (entryAt 100) (by decide)).1⟩

/-- C26, counterexample: `lastFileSize` (20 bytes) exceeds the file size limit (15 bytes)
and the append of the entry at 50 raises no error, but `t = 50` is the start of the last
file: the entry is written at the end of the existing file 50, no file is created and no
snapshot is written. -/
theorem appendThrow_target_counterexample :
    journalFull.m_journalContext.lastFileSize > journalFull.m_fileSizeLimit ∧
      appendMsec 2000 journalFull (entryAt 50) = 50 ∧
      appendTarget 2000 journalFull (entryAt 50) = 50 ∧
      (appendThrow envEx dirFull 2000 journalFull (entryAt 50)).error = none ∧
      (appendThrow envEx dirFull 2000 journalFull (entryAt 50)).journal.m_journalContext.files
        = [50] ∧
      (appendThrow envEx dirFull 2000 journalFull (entryAt 50)).dir.map (fun f => f.fileMsec)
        = [50] ∧
      readFile (appendThrow envEx dirFull 2000 journalFull (entryAt 50)).dir 50
        = [entryAt 50, entryAt 50, entryAt 50] :=
  ⟨by decide, by decide, by decide, by decide, by decide, by decide, rfl⟩

/-- C21: `appendThrow` adds the start timestamp of the file it writes to whenever this
file is empty, also when the file existed and is in the files of the context. An append
by a journal without snapshot function to an empty directory fails and leaves the empty
file 50; the scan of this directory gives the files `[50]`; the append of the entry at 100
by a journal with a snapshot function then raises no error, writes the entry to the file
50 and leaves the files `[50, 50]`, which `getLog` reads twice. For every context whose
files are strictly ascending, are exactly the files of the directory and are not empty, a
successful `appendThrow` that does not rotate the journal leaves the files strictly
ascending and exactly the files of the directory. -/
theorem appendThrow_duplicate_file :
    ((append envEx [] 50 journalNoSnapshot (entryAt 50)).2.map
        (fun f => (f.fileMsec, f.entries.length)) = [(50, 0)] ∧
      (updateJournalStatus envEx dirEmptyFile 100 { journalDirExists := true }).files = [50] ∧
      (appendThrow envEx dirEmptyFile 100 journalNew (entryAt 100)).error = none ∧
      (appendThrow envEx dirEmptyFile 100 journalNew (entryAt 100)).journal.m_journalContext.files
        = [50, 50] ∧
      (appendThrow envEx dirEmptyFile 100 journalNew (entryAt 100)).dir.map
        (fun f => (f.fileMsec, f.entries.length)) = [(50, 1)] ∧
      readFile (appendThrow envEx dirEmptyFile 100 journalNew (entryAt 100)).dir 50
        = [entryAt 100] ∧
      (getLog envS5 (appendThrow envEx dirEmptyFile 100 journalNew (entryAt 100)).dir
        (appendThrow envEx dirEmptyFile 100 journalNew (entryAt 100)).journal.m_journalContext
        (paramsS5 0 false)).1.length = 2) ∧
    ∀ (env : JournalEnv) (dir : JournalDir) (now : Int) (j : ShvFileJournal)
      (entry : ShvJournalEntry),
      j.m_journalContext.files.Sorted (fun a b => a < b) →
      (∀ m, m ∈ j.m_journalContext.files ↔ (JournalDir.file dir m).isSome = true) →
      (∀ m ∈ j.m_journalContext.files, file_size env dir m ≠ 0) →
      0 ≤ j.m_journalContext.journalSize →
      (appendThrow env dir now j entry).error = none →
      j.m_journalContext.journalSize
        + entriesSize env (appendWritten env dir now j entry) ≤ j.m_journalSizeLimit →
      (appendThrow env dir now j entry).journal.m_journalContext.files.Sorted
          (fun a b => a < b) ∧
        ∀ m, m ∈ (appendThrow env dir now j entry).journal.m_journalContext.files
          ↔ (JournalDir.file (appendThrow env dir now j entry).dir m).isSome = true := by
  refine ⟨⟨by decide, by decide, by decide, by decide, by decide, rfl, by decide⟩, ?_⟩
  intro env dir now j entry hsorted hdisk hnz hcons hok hnorot
  obtain ⟨hC, _, hj, hd⟩ := appendThrow_success env dir now j entry hcons hok hnorot
  have hle := files_le_appendTarget now j entry hsorted hC
  rw [hj, hd]
  simp only [appendedJournal]
  generalize appendTarget now j entry = s at *
  generalize appendWritten env dir now j entry = ws at *
  have hfile : ∀ m, (JournalDir.file (appendTo (withFile dir s) s ws) m).isSome = true
      ↔ (JournalDir.file dir m).isSome = true ∨ m = s := by
    intro m
    rw [isSome_file_appendTo]
    exact isSome_file_withFile dir s m
  by_cases h0 : entriesSize env (readFile dir s) = 0
  · simp only [if_pos h0]
    have hin : s ∉ j.m_journalContext.files := by
      intro h
      apply hnz s h
      rw [file_size_eq, if_pos ((hdisk s).mp h)]
      exact h0
    constructor
    · apply List.pairwise_append.mpr
      refine ⟨hsorted, List.pairwise_singleton _ _, ?_⟩
      intro a ha b hb
      have hb2 : b = s := by simpa using hb
      have h1 := hle a ha
      have h2 : a ≠ s := fun h => hin (h ▸ ha)
      omega
    · intro m
      rw [hfile, ← hdisk]
      simp
  · simp only [if_neg h0]
    have hin : (JournalDir.file dir s).isSome = true := by
      cases hf : JournalDir.file dir s with
      | some f => rfl
      | none =>
        exfalso
        apply h0
        simp [readFile, hf, entriesSize]
    refine ⟨hsorted, ?_⟩
    intro m
    rw [hfile, hdisk]
    constructor
    · exact fun h => Or.inl h
    · intro h
      rcases h with h | h
      · exact h
      · rw [h]
        exact hin

end shv
